import Mathlib

/-!
# remote-backup-sync: a shallow embedding of `sync.go`

The program reconciles a local tree with a remote tree over SFTP.  All of its
logic lives in `main` and in the closures `main` declares (`copyFile`,
`createBackup`, `calculateFileHash`, `calculateRemoteFileHash`, `walkRemote`).

Modelling choices:

* a path is the list of its components, `filepath.Join` is append,
  `filepath.Dir` drops the last component, `filepath.Rel` strips a prefix;
* the remote filesystem behind `sftpClient` is a finite map from paths to
  nodes; every request may also fail for a reason outside the filesystem
  (network, permissions): `Env.fault` decides that per request, by the
  number of the request and the request itself;
* SFTP attributes carry times as `uint32` whole seconds (`sftpTime`): so
  `Chtimes` sends them and so `Stat` and `ReadDir` report them; the times a
  remote node gets when it is written are the server's own;
* the local filesystem is read-only during a run and given as a function;
* every call `main` makes is appended to a ghost `trace`, the destructive
  calls together with the remote filesystem as it was when they were issued;
* Go maps are association lists with unique keys; `range` visits them in list
  order (the statements below quantify over every such list, hence over every
  order Go may choose).
-/

namespace RemoteBackupSync

/-! ## Data model -/

/-- A path, as the list of its components. -/
abbrev Path := List String

/-- File content. -/
abbrev Bytes := List Nat

/-- An instant, in nanoseconds since the epoch (`time.Time`). -/
abbrev Time := Int

/-- An MD5 digest (its bytes; the hex rendering `%x` is injective). -/
abbrev Digest := List Nat

/-- The part of `os.FileInfo` the program reads. -/
structure FileInfo where
  name : String
  size : Nat
  modTime : Time
  mode : Nat
  isDir : Bool
deriving DecidableEq, Repr, Inhabited

/-- The fields of `Config` that `main` uses after the connection is made. -/
structure Config where
  TargetDir : Path
  BackupBase : Path
  SourceDir : Path
deriving DecidableEq, Repr, Inhabited

/-- A node of the remote filesystem.  For a directory `data` stands for the
directory's own representation: only its length (the size `Stat` reports) is
observable. -/
structure Node where
  isDir : Bool
  data : Bytes
  mode : Nat
  atime : Time
  mtime : Time
deriving DecidableEq, Repr, Inhabited

/-- The remote filesystem: a finite map from paths to nodes. -/
abbrev RemoteFS := List (Path × Node)

/-- A local file: content, permission bits. -/
structure LFile where
  data : Bytes
  mode : Nat
deriving DecidableEq, Repr, Inhabited

/-- The local filesystem (never written by the program). -/
abbrev LocalFS := Path → Option LFile

/-- A Go `map[string]os.FileInfo`. -/
abbrev Inventory := List (Path × FileInfo)

/-- Errors of the filesystem requests.  `depth` is the model's own: the
recursion budget of `walkRemote` ran out. -/
inductive Err
  | notExist
  | notDir
  | isDir
  | notEmpty
  | io
  | depth
deriving DecidableEq, Repr, Inhabited

/-- The requests the program sends (remote: `sftpClient.*`, `File.*`; local: `os.*`). -/
inductive Op
  | stat (p : Path)
  | readDir (p : Path)
  | mkdirAll (p : Path)
  | openRead (p : Path)
  | create (p : Path)
  | readFrom (dst : Path)
  | fstat (p : Path)
  | chmod (p : Path)
  | chtimes (p : Path)
  | remove (p : Path)
  | removeDirectory (p : Path)
  | hashRead (p : Path)
  | osOpen (p : Path)
  | osRead (p : Path)
  | osFstat (p : Path)
deriving DecidableEq, Repr, Inhabited

/-- What the program cannot control: which requests fail for an outside
reason, how far a failing multi-part request got, the clock, the digest
function, the mode a new remote file gets, and the run's timestamp string. -/
structure Env where
  fault : Nat → Op → Bool
  progress : Nat → Nat
  clock : Nat → Time
  md5 : Bytes → Digest
  createMode : Nat
  stamp : String

/-- The remote filesystem and the number of requests made so far. -/
structure World where
  fs : RemoteFS
  tick : Nat
deriving DecidableEq, Repr, Inhabited

/-! ## The remote filesystem -/

/-- Lookup. -/
def get : RemoteFS → Path → Option Node
  | [], _ => none
  | (q, n) :: fs, p => if q = p then some n else get fs p

/-- Remove every entry at `p`. -/
def del (fs : RemoteFS) (p : Path) : RemoteFS :=
  fs.filter (fun e => decide (e.1 ≠ p))

/-- Set the node at `p`. -/
def put (fs : RemoteFS) (p : Path) (n : Node) : RemoteFS :=
  (p, n) :: del fs p

/-- Whether `q` is an entry of the directory `d`. -/
def isChild (d q : Path) : Bool :=
  decide (q ≠ []) && decide (q.dropLast = d)

/-- The entries of directory `d`. -/
def children (fs : RemoteFS) (d : Path) : RemoteFS :=
  fs.filter (fun e => isChild d e.1)

/-- Whether `d` is a directory: the root always is. -/
def isDirAt (fs : RemoteFS) (d : Path) : Bool :=
  decide (d = []) ||
    (match get fs d with
     | some n => n.isDir
     | none => false)

/-- One second, in nanoseconds. -/
def second : Int := 1000000000

/-- The time an SFTP attribute carries for `t`: `uint32(t.Unix())`, the whole
seconds since the epoch (rounded down) modulo 2^32, here back in nanoseconds. -/
def sftpTime (t : Time) : Time := t / second % 2 ^ 32 * second

/-- What `Stat` reports for a node: the modification time arrives as a
`uint32` of whole seconds. -/
def infoOf (p : Path) (n : Node) : FileInfo :=
  { name := p.getLastD "", size := n.data.length, modTime := sftpTime n.mtime,
    mode := n.mode, isDir := n.isDir }

/-- A fresh directory. -/
def newDir (now : Time) : Node :=
  { isDir := true, data := [], mode := 0o755, atime := now, mtime := now }

/-- The world after one more request. -/
def World.next (w : World) : World := { w with tick := w.tick + 1 }

/-- Sequencing of fallible requests: the first error ends the sequence and
keeps the world as the failing request left it. -/
def andThen {α β : Type} (r : Except Err α × World)
    (k : α → World → Except Err β × World) : Except Err β × World :=
  match r with
  | (.error e, w) => (.error e, w)
  | (.ok a, w) => k a w

/-- `sftpClient.Stat`. -/
def sftpStat (env : Env) (p : Path) (w : World) : Except Err FileInfo × World :=
  if env.fault w.tick (.stat p) then (.error .io, w.next)
  else
    match get w.fs p with
    | none => (.error .notExist, w.next)
    | some n => (.ok (infoOf p n), w.next)

/-- `sftpClient.ReadDir`: the entries of a directory, each with its info. -/
def sftpReadDir (env : Env) (d : Path) (w : World) :
    Except Err (List FileInfo) × World :=
  if env.fault w.tick (.readDir d) then (.error .io, w.next)
  else if isDirAt w.fs d then
    (.ok ((children w.fs d).map (fun e => infoOf e.1 e.2)), w.next)
  else
    match get w.fs d with
    | none => (.error .notExist, w.next)
    | some _ => (.error .notDir, w.next)

/-- The directories `MkdirAll` makes, top down: `base` exists, `rest` is
still to be walked. -/
def mkdirFrom (now : Time) (fs : RemoteFS) (base : Path) :
    List String → Except Err Unit × RemoteFS
  | [] => (.ok (), fs)
  | x :: rest =>
    match get fs (base ++ [x]) with
    | some n =>
      if n.isDir then mkdirFrom now fs (base ++ [x]) rest
      else (.error .notDir, fs)
    | none => mkdirFrom now (put fs (base ++ [x]) (newDir now)) (base ++ [x]) rest

/-- `sftpClient.MkdirAll`: succeeds when the directory is there already;
a failing request may have made some of the ancestors. -/
def sftpMkdirAll (env : Env) (p : Path) (w : World) : Except Err Unit × World :=
  if env.fault w.tick (.mkdirAll p) then
    (.error .io,
      { fs := (mkdirFrom (env.clock w.tick) w.fs [] (p.take (env.progress w.tick))).2,
        tick := w.tick + 1 })
  else
    let r := mkdirFrom (env.clock w.tick) w.fs [] p
    (r.1, { fs := r.2, tick := w.tick + 1 })

/-- `sftpClient.Open`: a handle for reading, here the path itself. -/
def sftpOpen (env : Env) (p : Path) (w : World) : Except Err Path × World :=
  if env.fault w.tick (.openRead p) then (.error .io, w.next)
  else
    match get w.fs p with
    | none => (.error .notExist, w.next)
    | some _ => (.ok p, w.next)

/-- `sftpClient.Create`: open for writing, created when absent (with the
server's default mode), truncated when present. -/
def sftpCreate (env : Env) (p : Path) (w : World) : Except Err Path × World :=
  if env.fault w.tick (.create p) then (.error .io, w.next)
  else if p = [] then (.error .isDir, w.next)
  else if isDirAt w.fs p.dropLast then
    match get w.fs p with
    | some n =>
      if n.isDir then (.error .isDir, w.next)
      else
        (.ok p, { fs := put w.fs p { n with data := [], mtime := env.clock w.tick },
                  tick := w.tick + 1 })
    | none =>
      (.ok p, { fs := put w.fs p
                  { isDir := false, data := [], mode := env.createMode,
                    atime := env.clock w.tick, mtime := env.clock w.tick },
                tick := w.tick + 1 })
  else (.error .notExist, w.next)

/-- Write `data` into the open remote file `dst` from its start: a failing
write leaves a prefix. -/
def writeAll (env : Env) (dst : Path) (data : Bytes) (w : World) :
    Except Err Unit × World :=
  match get w.fs dst with
  | none => (.error .notExist, w.next)
  | some n =>
    if n.isDir then (.error .isDir, w.next)
    else if env.fault w.tick (.readFrom dst) then
      (.error .io,
        { fs := put w.fs dst
            { n with data := data.take (env.progress w.tick), mtime := env.clock w.tick },
          tick := w.tick + 1 })
    else
      (.ok (), { fs := put w.fs dst { n with data := data, mtime := env.clock w.tick },
                 tick := w.tick + 1 })

/-- `dstFile.ReadFrom(srcFile)` with a remote source: the bytes are those the
source holds when it is read. -/
def readFromRemote (env : Env) (dst src : Path) (w : World) : Except Err Unit × World :=
  match get w.fs src with
  | none => (.error .notExist, w.next)
  | some n =>
    if n.isDir then (.error .isDir, w.next)
    else writeAll env dst n.data w

/-- `srcFile.Stat()` on a remote handle. -/
def sftpFstat (env : Env) (p : Path) (w : World) : Except Err FileInfo × World :=
  if env.fault w.tick (.fstat p) then (.error .io, w.next)
  else
    match get w.fs p with
    | none => (.error .notExist, w.next)
    | some n => (.ok (infoOf p n), w.next)

/-- `sftpClient.Chmod`. -/
def sftpChmod (env : Env) (p : Path) (mode : Nat) (w : World) : Except Err Unit × World :=
  if env.fault w.tick (.chmod p) then (.error .io, w.next)
  else
    match get w.fs p with
    | none => (.error .notExist, w.next)
    | some n => (.ok (), { fs := put w.fs p { n with mode := mode }, tick := w.tick + 1 })

/-- `sftpClient.Chtimes`: the client sends both times as `uint32(t.Unix())`. -/
def sftpChtimes (env : Env) (p : Path) (atime mtime : Time) (w : World) :
    Except Err Unit × World :=
  if env.fault w.tick (.chtimes p) then (.error .io, w.next)
  else
    match get w.fs p with
    | none => (.error .notExist, w.next)
    | some n =>
      (.ok (), { fs := put w.fs p { n with atime := sftpTime atime, mtime := sftpTime mtime },
                 tick := w.tick + 1 })

/-- `sftpClient.RemoveDirectory`: fails on a directory that has entries. -/
def sftpRemoveDirectory (env : Env) (p : Path) (w : World) : Except Err Unit × World :=
  if env.fault w.tick (.removeDirectory p) then (.error .io, w.next)
  else
    match get w.fs p with
    | none => (.error .notExist, w.next)
    | some n =>
      if !n.isDir then (.error .notDir, w.next)
      else if (children w.fs p).isEmpty then
        (.ok (), { fs := del w.fs p, tick := w.tick + 1 })
      else (.error .notEmpty, w.next)

/-- `sftpClient.Remove`: removes a file, or a directory that has no entries. -/
def sftpRemove (env : Env) (p : Path) (w : World) : Except Err Unit × World :=
  if env.fault w.tick (.remove p) then (.error .io, w.next)
  else
    match get w.fs p with
    | none => (.error .notExist, w.next)
    | some n =>
      if n.isDir && !(children w.fs p).isEmpty then (.error .notEmpty, w.next)
      else (.ok (), { fs := del w.fs p, tick := w.tick + 1 })

/-! ## The local filesystem -/

/-- `os.Open`. -/
def osOpen (env : Env) (lfs : LocalFS) (p : Path) (w : World) : Except Err LFile × World :=
  if env.fault w.tick (.osOpen p) then (.error .io, w.next)
  else
    match lfs p with
    | none => (.error .notExist, w.next)
    | some f => (.ok f, w.next)

/-- `io.Copy(hash, file)` over a local file, then the hex digest. -/
def osHashRead (env : Env) (p : Path) (f : LFile) (w : World) : Except Err Digest × World :=
  if env.fault w.tick (.osRead p) then (.error .io, w.next)
  else (.ok (env.md5 f.data), w.next)

/-- `srcFile.Stat()` on a local handle: the mode is what `copyFile` reads. -/
def osFstat (env : Env) (p : Path) (f : LFile) (w : World) : Except Err Nat × World :=
  if env.fault w.tick (.osFstat p) then (.error .io, w.next)
  else (.ok f.mode, w.next)

/-- `io.Copy(hash, file)` over a remote handle, then the hex digest. -/
def sftpHashRead (env : Env) (p : Path) (w : World) : Except Err Digest × World :=
  if env.fault w.tick (.hashRead p) then (.error .io, w.next)
  else
    match get w.fs p with
    | none => (.error .notExist, w.next)
    | some n => if n.isDir then (.error .isDir, w.next) else (.ok (env.md5 n.data), w.next)

/-! ## The closures of `main` -/

/-- `backupDir := filepath.Join(cfg.BackupBase, time.Now().Format(...))`. -/
def backupDir (cfg : Config) (env : Env) : Path := cfg.BackupBase ++ [env.stamp]

/-- `calculateFileHash`. -/
def calculateFileHash (env : Env) (lfs : LocalFS) (path : Path) (w : World) :
    Except Err Digest × World :=
  andThen (osOpen env lfs path w) fun file w1 =>
  osHashRead env path file w1

/-- `calculateRemoteFileHash`. -/
def calculateRemoteFileHash (env : Env) (path : Path) (w : World) :
    Except Err Digest × World :=
  andThen (sftpOpen env path w) fun file w1 =>
  sftpHashRead env file w1

/-- `copyFile`. -/
def copyFile (env : Env) (lfs : LocalFS) (srcPath dstPath : Path) (w : World) :
    Except Err Unit × World :=
  andThen (sftpMkdirAll env dstPath.dropLast w) fun _ w1 =>
  andThen (osOpen env lfs srcPath w1) fun srcFile w2 =>
  andThen (sftpCreate env dstPath w2) fun dstFile w3 =>
  andThen (writeAll env dstFile srcFile.data w3) fun _ w4 =>
  andThen (osFstat env srcPath srcFile w4) fun srcMode w5 =>
  sftpChmod env dstPath srcMode w5

/-- `createBackup`. -/
def createBackup (env : Env) (remotePath backupPath : Path) (w : World) :
    Except Err Unit × World :=
  andThen (sftpMkdirAll env backupPath.dropLast w) fun _ w1 =>
  andThen (sftpOpen env remotePath w1) fun srcFile w2 =>
  andThen (sftpCreate env backupPath w2) fun dstFile w3 =>
  andThen (readFromRemote env dstFile srcFile w3) fun _ w4 =>
  andThen (sftpFstat env srcFile w4) fun srcInfo w5 =>
  sftpChmod env backupPath srcInfo.mode w5

/-! ## Go maps -/

/-- The keys of a map. -/
def keys (m : Inventory) : List Path := m.map Prod.fst

/-- `_, exists := m[k]`. -/
def hasKey (m : Inventory) (k : Path) : Bool := m.any (fun e => decide (e.1 = k))

/-- `m[k] = v`. -/
def mapSet (m : Inventory) (k : Path) (v : FileInfo) : Inventory :=
  (k, v) :: m.filter (fun e => decide (e.1 ≠ k))

/-- `filepath.Rel(base, p)` for a path below `base`. -/
def rel (base p : Path) : Except Err Path :=
  if base <+: p then .ok (p.drop base.length) else .error .io

/-! ## The remote walk -/

/-- The `for _, entry := range entries` loop of `walkRemote`; `walk` is the
recursive call. -/
def walkEntries (walk : Path → Inventory → World → Except Err Unit × Inventory × World)
    (cfg : Config) (dir : Path) :
    List FileInfo → Inventory → World → Except Err Unit × Inventory × World
  | [], remoteFiles, w => (.ok (), remoteFiles, w)
  | entry :: rest, remoteFiles, w =>
    let fullPath := dir ++ [entry.name]
    if entry.isDir then
      match walk fullPath remoteFiles w with
      | (.error e, remoteFiles1, w1) => (.error e, remoteFiles1, w1)
      | (.ok _, remoteFiles1, w1) => walkEntries walk cfg dir rest remoteFiles1 w1
    else
      match rel cfg.TargetDir fullPath with
      | .error e => (.error e, remoteFiles, w)
      | .ok relPath => walkEntries walk cfg dir rest (mapSet remoteFiles relPath entry) w

/-- `walkRemote`, with a recursion budget. -/
def walkRemote (cfg : Config) (env : Env) :
    Nat → Path → Inventory → World → Except Err Unit × Inventory × World
  | 0, _, remoteFiles, w => (.error .depth, remoteFiles, w)
  | fuel + 1, dir, remoteFiles, w =>
    match sftpReadDir env dir w with
    | (.error e, w1) => (.error e, remoteFiles, w1)
    | (.ok entries, w1) =>
      walkEntries (walkRemote cfg env fuel) cfg dir entries remoteFiles w1

/-- A recursion budget no walk of `fs` exhausts: one more than the longest path. -/
def depthBound (fs : RemoteFS) : Nat :=
  (fs.map (fun e => e.1.length)).foldr max 0 + 1

/-! ## The comparison -/

/-- `time.Time.Sub`: the difference as a `time.Duration`, an `int64` of
nanoseconds, saturating at its bounds. -/
def timeSub (t u : Time) : Int :=
  if t - u > 2 ^ 63 - 1 then 2 ^ 63 - 1
  else if t - u < -(2 ^ 63) then -(2 ^ 63)
  else t - u

/-- The `timeEqual` of the local pass. -/
def timeEqual (localModTime remoteModTime : Time) : Bool :=
  decide (localModTime = remoteModTime) ||
  (decide (localModTime > remoteModTime) &&
    decide (timeSub localModTime remoteModTime ≤ 2 * second)) ||
  (decide (localModTime < remoteModTime) &&
    decide (timeSub remoteModTime localModTime ≤ 2 * second))

/-- The `sizeEqual` of the local pass. -/
def sizeEqual (localInfo remoteInfo : FileInfo) : Bool :=
  decide (localInfo.size = remoteInfo.size)

/-- `totalOps := len(localFiles) + (len(remoteFiles) - len(localFiles))`, in `int`. -/
def totalOps (localFiles remoteFiles : Inventory) : Int :=
  (localFiles.length : Int) + ((remoteFiles.length : Int) - (localFiles.length : Int))

/-! ## The run -/

/-- The messages `main` writes to its log. -/
inductive Msg
  | start
  | localWalkError
  | remoteWalkError
  | copyNew
  | copyNewError
  | localHashError
  | remoteHashError
  | changed
  | backupError
  | copyUpdateError
  | updated
  | hashesMatch
  | chtimesError
  | unchanged
  | deleteBackupError
  | removeError
  | deleted
  | backupDirNotEmpty
  | backupDirRemoveError
  | backupDirRemoved
  | done
deriving DecidableEq, Repr, Inhabited

/-- The two calls of `copyFile`: for a new file, and after the backup of a
changed one. -/
inductive Site
  | newFile
  | update
deriving DecidableEq, Repr, Inhabited

/-- The calls `main` makes, in order.  `before` is the remote filesystem at
the moment the call is issued; `ok` whether it returned without error. -/
inductive Event
  | log (m : Msg) (relPath : Path)
  | stat (p : Path) (ok : Bool)
  | hashLocal (p : Path) (ok : Bool)
  | hashRemote (p : Path) (ok : Bool)
  | createBackup (remotePath backupPath : Path) (before : RemoteFS) (ok : Bool)
  | copyFile (site : Site) (localPath remotePath : Path) (before : RemoteFS) (ok : Bool)
  | chtimes (p : Path) (atime mtime : Time) (ok : Bool)
  | remove (p : Path) (before : RemoteFS) (ok : Bool)
  | removeDirectory (p : Path) (ok : Bool)
  | barAdd
deriving DecidableEq, Repr, Inhabited

/-- The variables of `main` that change during the passes. -/
structure State where
  w : World
  trace : List Event
  backupCreated : Bool
  bar : Nat
deriving DecidableEq, Repr, Inhabited

/-- Whether a call returned without error. -/
def isOk {α : Type} (r : Except Err α) : Bool :=
  match r with
  | .ok _ => true
  | .error _ => false

/-- The state after calls that left the world at `w` and are recorded as `es`. -/
def State.step (s : State) (w : World) (es : List Event) : State :=
  { s with w := w, trace := s.trace ++ es }

/-- `bar.Add(1)`. -/
def State.barAdd (s : State) : State :=
  { s with trace := s.trace ++ [Event.barAdd], bar := s.bar + 1 }

/-- The closing `logger.Println`. -/
def State.finish (s : State) : State :=
  { s with trace := s.trace ++ [Event.log .done []] }

/-- `backupCreated = true`. -/
def State.setBackupCreated (s : State) : State :=
  { s with backupCreated := true }

/-- The body of `for relPath, localInfo := range localFiles`. -/
def processLocal (cfg : Config) (env : Env) (lfs : LocalFS) (relPath : Path)
    (localInfo : FileInfo) (s : State) : State :=
  let localPath := cfg.SourceDir ++ relPath
  let remotePath := cfg.TargetDir ++ relPath
  let backupPath := backupDir cfg env ++ relPath
  match sftpStat env remotePath s.w with
  | (.error _, w1) =>
    let s1 := s.step w1 [.stat remotePath false, .log .copyNew relPath]
    match copyFile env lfs localPath remotePath w1 with
    | (.error _, w2) =>
      (s1.step w2 [.copyFile .newFile localPath remotePath w1.fs false,
        .log .copyNewError relPath]).barAdd
    | (.ok _, w2) =>
      (s1.step w2 [.copyFile .newFile localPath remotePath w1.fs true]).barAdd
  | (.ok remoteInfo, w1) =>
    let s1 := s.step w1 [.stat remotePath true]
    let localModTime := localInfo.modTime
    let remoteModTime := remoteInfo.modTime
    if !timeEqual localModTime remoteModTime || !sizeEqual localInfo remoteInfo then
      match calculateFileHash env lfs localPath w1 with
      | (.error _, w2) =>
        (s1.step w2 [.hashLocal localPath false, .log .localHashError relPath]).barAdd
      | (.ok localHash, w2) =>
        let s2 := s1.step w2 [.hashLocal localPath true]
        match calculateRemoteFileHash env remotePath w2 with
        | (.error _, w3) =>
          (s2.step w3 [.hashRemote remotePath false, .log .remoteHashError relPath]).barAdd
        | (.ok remoteHash, w3) =>
          let s3 := s2.step w3 [.hashRemote remotePath true]
          if localHash ≠ remoteHash then
            match createBackup env remotePath backupPath w3 with
            | (.error _, w4) =>
              (s3.step w4 [.log .changed relPath,
                .createBackup remotePath backupPath w3.fs false,
                .log .backupError relPath]).barAdd
            | (.ok _, w4) =>
              let s4 := s3.step w4 [.log .changed relPath,
                .createBackup remotePath backupPath w3.fs true]
              match copyFile env lfs localPath remotePath w4 with
              | (.error _, w5) =>
                (s4.step w5 [.copyFile .update localPath remotePath w4.fs false,
                  .log .copyUpdateError relPath]).barAdd
              | (.ok _, w5) =>
                (s4.step w5 [.copyFile .update localPath remotePath w4.fs true,
                  .log .updated relPath]).setBackupCreated.barAdd
          else
            match sftpChtimes env remotePath (env.clock w3.tick) localModTime w3 with
            | (.error _, w4) =>
              (s3.step w4 [.log .hashesMatch relPath,
                .chtimes remotePath (env.clock w3.tick) localModTime false,
                .log .chtimesError relPath]).barAdd
            | (.ok _, w4) =>
              (s3.step w4 [.log .hashesMatch relPath,
                .chtimes remotePath (env.clock w3.tick) localModTime true]).barAdd
    else
      (s1.step w1 [.log .unchanged relPath]).barAdd

/-- The body of `for relPath := range remoteFiles`. -/
def processRemote (cfg : Config) (env : Env) (localFiles : Inventory) (relPath : Path)
    (s : State) : State :=
  if hasKey localFiles relPath then s
  else
    let remotePath := cfg.TargetDir ++ relPath
    let backupPath := backupDir cfg env ++ relPath
    match createBackup env remotePath backupPath s.w with
    | (.error _, w1) =>
      (s.step w1 [.createBackup remotePath backupPath s.w.fs false,
        .log .deleteBackupError relPath]).barAdd
    | (.ok _, w1) =>
      let s1 := s.step w1 [.createBackup remotePath backupPath s.w.fs true]
      match sftpRemove env remotePath w1 with
      | (.error _, w2) =>
        (s1.step w2 [.remove remotePath w1.fs false, .log .removeError relPath]).barAdd
      | (.ok _, w2) =>
        (s1.step w2 [.remove remotePath w1.fs true,
          .log .deleted relPath]).setBackupCreated.barAdd

/-- The first loop of `main`. -/
def localPass (cfg : Config) (env : Env) (lfs : LocalFS) (localFiles : Inventory)
    (s : State) : State :=
  localFiles.foldl (fun st e => processLocal cfg env lfs e.1 e.2 st) s

/-- The second loop of `main`. -/
def deletePass (cfg : Config) (env : Env) (localFiles remoteFiles : Inventory)
    (s : State) : State :=
  remoteFiles.foldl (fun st e => processRemote cfg env localFiles e.1 st) s

/-- The `if !backupCreated` block that ends `main`. -/
def cleanup (cfg : Config) (env : Env) (s : State) : State :=
  if !s.backupCreated then
    match sftpStat env (backupDir cfg env) s.w with
    | (.error _, w1) => s.step w1 [.stat (backupDir cfg env) false]
    | (.ok _, w1) =>
      match sftpRemoveDirectory env (backupDir cfg env) w1 with
      | (.error e, w2) =>
        if e = .notEmpty then
          s.step w2 [.stat (backupDir cfg env) true,
            .removeDirectory (backupDir cfg env) false, .log .backupDirNotEmpty []]
        else
          s.step w2 [.stat (backupDir cfg env) true,
            .removeDirectory (backupDir cfg env) false, .log .backupDirRemoveError []]
      | (.ok _, w2) =>
        s.step w2 [.stat (backupDir cfg env) true,
          .removeDirectory (backupDir cfg env) true, .log .backupDirRemoved []]
  else s

/-- Both passes and the cleanup, from the inventories. -/
def applyPasses (cfg : Config) (env : Env) (lfs : LocalFS)
    (localFiles remoteFiles : Inventory) (s : State) : State :=
  cleanup cfg env (deletePass cfg env localFiles remoteFiles (localPass cfg env lfs localFiles s))

/-- What `main` leaves behind: the final state and the total it gave the
progress bar (none when the run stopped before the bar was made). -/
structure Outcome where
  final : State
  total : Option Int
deriving DecidableEq, Repr, Inhabited

/-- The state the passes start from. -/
def initState (w : World) (es : List Event) : State :=
  { w := w, trace := es, backupCreated := false, bar := 0 }

/-- `main`, from the established connection on.  `localWalk` is what
`filepath.Walk(cfg.SourceDir, ...)` left in `localFiles`, or its error. -/
def main (cfg : Config) (env : Env) (lfs : LocalFS) (localWalk : Except Err Inventory)
    (fs0 : RemoteFS) : Outcome :=
  match localWalk with
  | .error _ =>
    { final := initState { fs := fs0, tick := 0 }
        [.log .start [], .log .localWalkError []],
      total := none }
  | .ok localFiles =>
    match walkRemote cfg env (depthBound fs0) cfg.TargetDir [] { fs := fs0, tick := 0 } with
    | (.error _, remoteFiles, w1) =>
      { final := (applyPasses cfg env lfs localFiles remoteFiles
          (initState w1 [.log .start [], .log .remoteWalkError []])).finish,
        total := some (totalOps localFiles remoteFiles) }
    | (.ok _, remoteFiles, w1) =>
      { final := (applyPasses cfg env lfs localFiles remoteFiles
          (initState w1 [.log .start []])).finish,
        total := some (totalOps localFiles remoteFiles) }


/-! ## Vocabulary of the statements -/

/-- The run changed the remote filesystem only at the paths of `S`, apart from
making directories, where there was nothing, on the way to a path of `S`. -/
def Changes (S : Path → Prop) (fs fs1 : RemoteFS) : Prop :=
  ∀ q, ¬ S q →
    get fs1 q = get fs q ∨
      (get fs q = none ∧ (∃ n, get fs1 q = some n ∧ n.isDir = true) ∧ ∃ p, S p ∧ q <+: p)

/-- The regular file at `q`: its content and permission bits. -/
def fileAt (fs : RemoteFS) (q : Path) : Option (Bytes × Nat) :=
  match get fs q with
  | some n => if n.isDir then none else some (n.data, n.mode)
  | none => none

/-- At `bp` stands a regular file with the bytes and the permission bits of
the regular file at `rp`. -/
def BackedUp (fs : RemoteFS) (rp bp : Path) : Prop :=
  ∃ n b, get fs rp = some n ∧ get fs bp = some b ∧ n.isDir = false ∧ b.isDir = false ∧
    b.data = n.data ∧ b.mode = n.mode

/-- The call `e` destroys remote content at `rp`: the overwrite of the Update
branch, or the removal of the Delete pass.  `before` is the remote filesystem
at the moment the call is issued. -/
def Event.destroys (e : Event) (rp : Path) (before : RemoteFS) : Prop :=
  (∃ lp ok, e = Event.copyFile Site.update lp rp before ok) ∨
    (∃ ok, e = Event.remove rp before ok)

/-- The call `prev` is the successful backup of `rp`, and the filesystem
`before` holds that backup. -/
def Event.backs (cfg : Config) (env : Env) (prev : Option Event) (rp : Path)
    (before : RemoteFS) : Prop :=
  ∃ relPath before0,
    prev = some (Event.createBackup rp (backupDir cfg env ++ relPath) before0 true) ∧
    rp = cfg.TargetDir ++ relPath ∧
    BackedUp before rp (backupDir cfg env ++ relPath) ∧
    (rp ≠ backupDir cfg env ++ relPath → get before rp = get before0 rp)

/-- Every destructive call of the list comes right after its backup; `prev`
is the call before the list. -/
def GuardedFrom (cfg : Config) (env : Env) : Option Event → List Event → Prop
  | _, [] => True
  | prev, e :: rest =>
    (∀ rp before, e.destroys rp before → Event.backs cfg env prev rp before) ∧
      GuardedFrom cfg env (some e) rest

/-- The actions of the reconciliation. -/
inductive Action
  | Create
  | Update
  | RetouchTimestamp
  | NoOp
  | Delete
deriving DecidableEq, Repr

/-- The action a log line announces: `main` writes one of these messages on
entering the branch of that action. -/
def Msg.action : Msg → Option Action
  | .copyNew => some .Create
  | .changed => some .Update
  | .hashesMatch => some .RetouchTimestamp
  | .unchanged => some .NoOp
  | _ => none

/-- The action an event announces. -/
def Event.action : Event → Option Action
  | .log m _ => m.action
  | _ => none

/-- The actions chosen along a trace. -/
def actionsOf (tr : List Event) : List Action := tr.filterMap Event.action

/-- The events a step appended. -/
def newEvents (s s1 : State) : List Event := s1.trace.drop s.trace.length

/-- Whether the event is a call of `createBackup`. -/
def Event.isBackup : Event → Bool
  | .createBackup _ _ _ _ => true
  | _ => false

/-- Whether the event is a call of `copyFile`. -/
def Event.isCopy : Event → Bool
  | .copyFile _ _ _ _ _ => true
  | _ => false

/-- Whether the event is a fingerprint computation. -/
def Event.isHash : Event → Bool
  | .hashLocal _ _ => true
  | .hashRemote _ _ => true
  | _ => false

/-- The state after a step that left the world at `w`, appended `es` to the
trace, set `backupCreated` when `b` holds, and advanced the bar by `k`. -/
def State.after (s : State) (w : World) (es : List Event) (b : Bool) (k : Nat) : State :=
  { w := w, trace := s.trace ++ es, backupCreated := s.backupCreated || b, bar := s.bar + k }

/-- The ways through the body of the first loop, each with the state it ends in. -/
inductive LocalStep (cfg : Config) (env : Env) (lfs : LocalFS) (relPath : Path)
    (localInfo : FileInfo) (s : State) : State → Prop
  | createFailed (e e2 : Err) (w1 w2 : World)
      (hstat : sftpStat env (cfg.TargetDir ++ relPath) s.w = (.error e, w1))
      (hcopy : copyFile env lfs (cfg.SourceDir ++ relPath) (cfg.TargetDir ++ relPath) w1 =
        (.error e2, w2)) :
      LocalStep cfg env lfs relPath localInfo s
        (s.after w2 [Event.stat (cfg.TargetDir ++ relPath) false, Event.log Msg.copyNew relPath,
          Event.copyFile Site.newFile (cfg.SourceDir ++ relPath) (cfg.TargetDir ++ relPath)
            w1.fs false,
          Event.log Msg.copyNewError relPath, Event.barAdd] false 1)
  | created (e : Err) (w1 w2 : World)
      (hstat : sftpStat env (cfg.TargetDir ++ relPath) s.w = (.error e, w1))
      (hcopy : copyFile env lfs (cfg.SourceDir ++ relPath) (cfg.TargetDir ++ relPath) w1 =
        (.ok (), w2)) :
      LocalStep cfg env lfs relPath localInfo s
        (s.after w2 [Event.stat (cfg.TargetDir ++ relPath) false, Event.log Msg.copyNew relPath,
          Event.copyFile Site.newFile (cfg.SourceDir ++ relPath) (cfg.TargetDir ++ relPath)
            w1.fs true,
          Event.barAdd] false 1)
  | noOp (remoteInfo : FileInfo) (w1 : World)
      (hstat : sftpStat env (cfg.TargetDir ++ relPath) s.w = (.ok remoteInfo, w1))
      (htime : timeEqual localInfo.modTime remoteInfo.modTime = true)
      (hsize : sizeEqual localInfo remoteInfo = true) :
      LocalStep cfg env lfs relPath localInfo s
        (s.after w1 [Event.stat (cfg.TargetDir ++ relPath) true, Event.log Msg.unchanged relPath,
          Event.barAdd] false 1)
  | localHashFailed (remoteInfo : FileInfo) (e : Err) (w1 w2 : World)
      (hstat : sftpStat env (cfg.TargetDir ++ relPath) s.w = (.ok remoteInfo, w1))
      (hdiff : ¬ (timeEqual localInfo.modTime remoteInfo.modTime = true ∧
        sizeEqual localInfo remoteInfo = true))
      (hlocal : calculateFileHash env lfs (cfg.SourceDir ++ relPath) w1 = (.error e, w2)) :
      LocalStep cfg env lfs relPath localInfo s
        (s.after w2 [Event.stat (cfg.TargetDir ++ relPath) true,
          Event.hashLocal (cfg.SourceDir ++ relPath) false,
          Event.log Msg.localHashError relPath, Event.barAdd] false 1)
  | remoteHashFailed (remoteInfo : FileInfo) (localHash : Digest) (e : Err) (w1 w2 w3 : World)
      (hstat : sftpStat env (cfg.TargetDir ++ relPath) s.w = (.ok remoteInfo, w1))
      (hdiff : ¬ (timeEqual localInfo.modTime remoteInfo.modTime = true ∧
        sizeEqual localInfo remoteInfo = true))
      (hlocal : calculateFileHash env lfs (cfg.SourceDir ++ relPath) w1 = (.ok localHash, w2))
      (hremote : calculateRemoteFileHash env (cfg.TargetDir ++ relPath) w2 = (.error e, w3)) :
      LocalStep cfg env lfs relPath localInfo s
        (s.after w3 [Event.stat (cfg.TargetDir ++ relPath) true,
          Event.hashLocal (cfg.SourceDir ++ relPath) true,
          Event.hashRemote (cfg.TargetDir ++ relPath) false,
          Event.log Msg.remoteHashError relPath, Event.barAdd] false 1)
  | retouchFailed (remoteInfo : FileInfo) (hash : Digest) (e : Err) (w1 w2 w3 w4 : World)
      (hstat : sftpStat env (cfg.TargetDir ++ relPath) s.w = (.ok remoteInfo, w1))
      (hdiff : ¬ (timeEqual localInfo.modTime remoteInfo.modTime = true ∧
        sizeEqual localInfo remoteInfo = true))
      (hlocal : calculateFileHash env lfs (cfg.SourceDir ++ relPath) w1 = (.ok hash, w2))
      (hremote : calculateRemoteFileHash env (cfg.TargetDir ++ relPath) w2 = (.ok hash, w3))
      (htouch : sftpChtimes env (cfg.TargetDir ++ relPath) (env.clock w3.tick)
        localInfo.modTime w3 = (.error e, w4)) :
      LocalStep cfg env lfs relPath localInfo s
        (s.after w4 [Event.stat (cfg.TargetDir ++ relPath) true,
          Event.hashLocal (cfg.SourceDir ++ relPath) true,
          Event.hashRemote (cfg.TargetDir ++ relPath) true,
          Event.log Msg.hashesMatch relPath,
          Event.chtimes (cfg.TargetDir ++ relPath) (env.clock w3.tick) localInfo.modTime false,
          Event.log Msg.chtimesError relPath, Event.barAdd] false 1)
  | retouched (remoteInfo : FileInfo) (hash : Digest) (w1 w2 w3 w4 : World)
      (hstat : sftpStat env (cfg.TargetDir ++ relPath) s.w = (.ok remoteInfo, w1))
      (hdiff : ¬ (timeEqual localInfo.modTime remoteInfo.modTime = true ∧
        sizeEqual localInfo remoteInfo = true))
      (hlocal : calculateFileHash env lfs (cfg.SourceDir ++ relPath) w1 = (.ok hash, w2))
      (hremote : calculateRemoteFileHash env (cfg.TargetDir ++ relPath) w2 = (.ok hash, w3))
      (htouch : sftpChtimes env (cfg.TargetDir ++ relPath) (env.clock w3.tick)
        localInfo.modTime w3 = (.ok (), w4)) :
      LocalStep cfg env lfs relPath localInfo s
        (s.after w4 [Event.stat (cfg.TargetDir ++ relPath) true,
          Event.hashLocal (cfg.SourceDir ++ relPath) true,
          Event.hashRemote (cfg.TargetDir ++ relPath) true,
          Event.log Msg.hashesMatch relPath,
          Event.chtimes (cfg.TargetDir ++ relPath) (env.clock w3.tick) localInfo.modTime true,
          Event.barAdd] false 1)
  | backupFailed (remoteInfo : FileInfo) (localHash remoteHash : Digest) (e : Err)
      (w1 w2 w3 w4 : World)
      (hstat : sftpStat env (cfg.TargetDir ++ relPath) s.w = (.ok remoteInfo, w1))
      (hdiff : ¬ (timeEqual localInfo.modTime remoteInfo.modTime = true ∧
        sizeEqual localInfo remoteInfo = true))
      (hlocal : calculateFileHash env lfs (cfg.SourceDir ++ relPath) w1 = (.ok localHash, w2))
      (hremote : calculateRemoteFileHash env (cfg.TargetDir ++ relPath) w2 = (.ok remoteHash, w3))
      (hne : localHash ≠ remoteHash)
      (hbackup : createBackup env (cfg.TargetDir ++ relPath) (backupDir cfg env ++ relPath) w3 =
        (.error e, w4)) :
      LocalStep cfg env lfs relPath localInfo s
        (s.after w4 [Event.stat (cfg.TargetDir ++ relPath) true,
          Event.hashLocal (cfg.SourceDir ++ relPath) true,
          Event.hashRemote (cfg.TargetDir ++ relPath) true,
          Event.log Msg.changed relPath,
          Event.createBackup (cfg.TargetDir ++ relPath) (backupDir cfg env ++ relPath) w3.fs false,
          Event.log Msg.backupError relPath, Event.barAdd] false 1)
  | updateFailed (remoteInfo : FileInfo) (localHash remoteHash : Digest) (e : Err)
      (w1 w2 w3 w4 w5 : World)
      (hstat : sftpStat env (cfg.TargetDir ++ relPath) s.w = (.ok remoteInfo, w1))
      (hdiff : ¬ (timeEqual localInfo.modTime remoteInfo.modTime = true ∧
        sizeEqual localInfo remoteInfo = true))
      (hlocal : calculateFileHash env lfs (cfg.SourceDir ++ relPath) w1 = (.ok localHash, w2))
      (hremote : calculateRemoteFileHash env (cfg.TargetDir ++ relPath) w2 = (.ok remoteHash, w3))
      (hne : localHash ≠ remoteHash)
      (hbackup : createBackup env (cfg.TargetDir ++ relPath) (backupDir cfg env ++ relPath) w3 =
        (.ok (), w4))
      (hcopy : copyFile env lfs (cfg.SourceDir ++ relPath) (cfg.TargetDir ++ relPath) w4 =
        (.error e, w5)) :
      LocalStep cfg env lfs relPath localInfo s
        (s.after w5 [Event.stat (cfg.TargetDir ++ relPath) true,
          Event.hashLocal (cfg.SourceDir ++ relPath) true,
          Event.hashRemote (cfg.TargetDir ++ relPath) true,
          Event.log Msg.changed relPath,
          Event.createBackup (cfg.TargetDir ++ relPath) (backupDir cfg env ++ relPath) w3.fs true,
          Event.copyFile Site.update (cfg.SourceDir ++ relPath) (cfg.TargetDir ++ relPath)
            w4.fs false,
          Event.log Msg.copyUpdateError relPath, Event.barAdd] false 1)
  | updated (remoteInfo : FileInfo) (localHash remoteHash : Digest) (w1 w2 w3 w4 w5 : World)
      (hstat : sftpStat env (cfg.TargetDir ++ relPath) s.w = (.ok remoteInfo, w1))
      (hdiff : ¬ (timeEqual localInfo.modTime remoteInfo.modTime = true ∧
        sizeEqual localInfo remoteInfo = true))
      (hlocal : calculateFileHash env lfs (cfg.SourceDir ++ relPath) w1 = (.ok localHash, w2))
      (hremote : calculateRemoteFileHash env (cfg.TargetDir ++ relPath) w2 = (.ok remoteHash, w3))
      (hne : localHash ≠ remoteHash)
      (hbackup : createBackup env (cfg.TargetDir ++ relPath) (backupDir cfg env ++ relPath) w3 =
        (.ok (), w4))
      (hcopy : copyFile env lfs (cfg.SourceDir ++ relPath) (cfg.TargetDir ++ relPath) w4 =
        (.ok (), w5)) :
      LocalStep cfg env lfs relPath localInfo s
        (s.after w5 [Event.stat (cfg.TargetDir ++ relPath) true,
          Event.hashLocal (cfg.SourceDir ++ relPath) true,
          Event.hashRemote (cfg.TargetDir ++ relPath) true,
          Event.log Msg.changed relPath,
          Event.createBackup (cfg.TargetDir ++ relPath) (backupDir cfg env ++ relPath) w3.fs true,
          Event.copyFile Site.update (cfg.SourceDir ++ relPath) (cfg.TargetDir ++ relPath)
            w4.fs true,
          Event.log Msg.updated relPath, Event.barAdd] true 1)

/-- The ways through the body of the second loop, each with the state it ends in. -/
inductive RemoteStep (cfg : Config) (env : Env) (localFiles : Inventory) (relPath : Path)
    (s : State) : State → Prop
  | kept (hkey : hasKey localFiles relPath = true) :
      RemoteStep cfg env localFiles relPath s s
  | backupFailed (e : Err) (w1 : World)
      (hkey : hasKey localFiles relPath = false)
      (hbackup : createBackup env (cfg.TargetDir ++ relPath) (backupDir cfg env ++ relPath) s.w =
        (.error e, w1)) :
      RemoteStep cfg env localFiles relPath s
        (s.after w1 [Event.createBackup (cfg.TargetDir ++ relPath)
            (backupDir cfg env ++ relPath) s.w.fs false,
          Event.log Msg.deleteBackupError relPath, Event.barAdd] false 1)
  | removeFailed (e : Err) (w1 w2 : World)
      (hkey : hasKey localFiles relPath = false)
      (hbackup : createBackup env (cfg.TargetDir ++ relPath) (backupDir cfg env ++ relPath) s.w =
        (.ok (), w1))
      (hremove : sftpRemove env (cfg.TargetDir ++ relPath) w1 = (.error e, w2)) :
      RemoteStep cfg env localFiles relPath s
        (s.after w2 [Event.createBackup (cfg.TargetDir ++ relPath)
            (backupDir cfg env ++ relPath) s.w.fs true,
          Event.remove (cfg.TargetDir ++ relPath) w1.fs false,
          Event.log Msg.removeError relPath, Event.barAdd] false 1)
  | deleted (w1 w2 : World)
      (hkey : hasKey localFiles relPath = false)
      (hbackup : createBackup env (cfg.TargetDir ++ relPath) (backupDir cfg env ++ relPath) s.w =
        (.ok (), w1))
      (hremove : sftpRemove env (cfg.TargetDir ++ relPath) w1 = (.ok (), w2)) :
      RemoteStep cfg env localFiles relPath s
        (s.after w2 [Event.createBackup (cfg.TargetDir ++ relPath)
            (backupDir cfg env ++ relPath) s.w.fs true,
          Event.remove (cfg.TargetDir ++ relPath) w1.fs true,
          Event.log Msg.deleted relPath, Event.barAdd] true 1)

/-- The events of the first pass. -/
def localEvents (cfg : Config) (env : Env) (lfs : LocalFS) (localFiles : Inventory)
    (s : State) : List Event :=
  newEvents s (localPass cfg env lfs localFiles s)

/-- The events of the second pass, run after the first. -/
def deleteEvents (cfg : Config) (env : Env) (lfs : LocalFS) (localFiles remoteFiles : Inventory)
    (s : State) : List Event :=
  newEvents (localPass cfg env lfs localFiles s)
    (deletePass cfg env localFiles remoteFiles (localPass cfg env lfs localFiles s))

/-- The events of both passes and the cleanup. -/
def runEvents (cfg : Config) (env : Env) (lfs : LocalFS) (localFiles remoteFiles : Inventory)
    (s : State) : List Event :=
  newEvents s (applyPasses cfg env lfs localFiles remoteFiles s)

/-- The trace of `s1` continues the trace of `s`. -/
def Extends (s s1 : State) : Prop := ∃ new, s1.trace = s.trace ++ new

/-- Whether the event is a call of `sftpClient.Remove`. -/
def Event.isRemove : Event → Bool
  | .remove _ _ _ => true
  | _ => false

/-- The keys of the remote inventory that are not keys of the local one. -/
def remoteOnly (localFiles remoteFiles : Inventory) : List Path :=
  (keys remoteFiles).filter (fun k => !hasKey localFiles k)

/-- What a node is apart from its times: kind, content, permission bits. -/
def Node.content (n : Node) : Bool × Bytes × Nat := (n.isDir, n.data, n.mode)

/-- The backup directory and the target directory do not lie inside one another. -/
def NoOverlap (cfg : Config) (env : Env) : Prop :=
  ¬ cfg.TargetDir <+: backupDir cfg env ∧ ¬ backupDir cfg env <+: cfg.TargetDir

/-- Nothing that was there is gone. -/
def NoDel (fs fs1 : RemoteFS) : Prop :=
  ∀ q, (get fs q).isSome = true → (get fs1 q).isSome = true

/-- A destructive call that returned without error: the overwrite of the
Update branch or the removal of the Delete pass, at `rp`, issued on `before`. -/
def Event.destroyed (e : Event) (rp : Path) (before : RemoteFS) : Prop :=
  (∃ lp, e = Event.copyFile Site.update lp rp before true) ∨ e = Event.remove rp before true

/-- Whether the event is a destructive call that returned without error. -/
def Event.isDestroyed : Event → Bool
  | .copyFile .update _ _ _ true => true
  | .remove _ _ true => true
  | _ => false

/-- The remote paths the iteration for `relPath` may write: the file itself
and its backup. -/
def StepPaths (cfg : Config) (env : Env) (relPath : Path) (p : Path) : Prop :=
  p = cfg.TargetDir ++ relPath ∨ p = backupDir cfg env ++ relPath

/-- Whether the event is a call of `sftpClient.RemoveDirectory`. -/
def Event.isRmdir : Event → Bool
  | .removeDirectory _ _ => true
  | _ => false

/-- From `fs` to `fs1` the backup of `relPath` keeps its content and
permission bits, and the backup directory stays. -/
def KeepsBackup (cfg : Config) (env : Env) (relPath : Path) (fs fs1 : RemoteFS) : Prop :=
  fileAt fs1 (backupDir cfg env ++ relPath) = fileAt fs (backupDir cfg env ++ relPath) ∧
    ((get fs (backupDir cfg env)).isSome = true → (get fs1 (backupDir cfg env)).isSome = true)

/-- Whether the message reports an error: the lines `main` logs as "Ошибка ...". -/
def Msg.isError : Msg → Bool
  | .localWalkError => true
  | .remoteWalkError => true
  | .copyNewError => true
  | .localHashError => true
  | .remoteHashError => true
  | .backupError => true
  | .copyUpdateError => true
  | .chtimesError => true
  | .deleteBackupError => true
  | .removeError => true
  | .backupDirRemoveError => true
  | _ => false

/-- Whether the event is an error line of the log. -/
def Event.isError : Event → Bool
  | .log m _ => m.isError
  | _ => false

/-- The remote file of the inventory entry `a` needs no copy: it is there, and
either its time and size agree with the entry, or its digest is that of the
local file. -/
def Settled (cfg : Config) (env : Env) (lfs : LocalFS) (a : Path × FileInfo)
    (fs : RemoteFS) : Prop :=
  ∃ n, get fs (cfg.TargetDir ++ a.1) = some n ∧
    ((timeEqual a.2.modTime (sftpTime n.mtime) = true ∧ a.2.size = n.data.length) ∨
      ∀ f, lfs (cfg.SourceDir ++ a.1) = some f → env.md5 f.data = env.md5 n.data)

/-- The remote filesystem is a tree: every entry below the top level lies in
a directory that is itself an entry. -/
def treeShaped (fs : RemoteFS) : Bool :=
  fs.all fun e =>
    decide (e.1.dropLast = []) || fs.any fun d => decide (d.1 = e.1.dropLast) && d.2.isDir

/-- Every entry of `fs1` is an entry of `fs`, a directory, or at a path of `S`. -/
def Adds (S : Path → Prop) (fs fs1 : RemoteFS) : Prop :=
  ∀ e ∈ fs1, e ∈ fs ∨ e.2.isDir = true ∨ S e.1

/-- Every regular file below the target directory is a key of the local
inventory or one of the paths `X`. -/
def OnlyListed (cfg : Config) (localFiles : Inventory) (X : List Path) (fs : RemoteFS) : Prop :=
  ∀ e ∈ fs, e.2.isDir = false → ∀ r, e.1 = cfg.TargetDir ++ r → r ≠ [] →
    r ∈ keys localFiles ∨ r ∈ X

/-- Whether the event is neither a copy, nor a backup, nor a removal, and
announces no action other than NoOp and RetouchTimestamp. -/
def Event.isQuiet (e : Event) : Bool :=
  !e.isCopy && !e.isBackup && !e.isRemove &&
    decide (e.action = none ∨ e.action = some Action.NoOp ∨
      e.action = some Action.RetouchTimestamp)

/-- The run that follows a first run, over the same local tree and the remote
tree as the first run left it. -/
def secondRun (cfg : Config) (env1 env2 : Env) (lfs : LocalFS) (localFiles : Inventory)
    (fs0 : RemoteFS) : Outcome :=
  main cfg env2 lfs (.ok localFiles) (main cfg env1 lfs (.ok localFiles) fs0).final.w.fs

/-- From `fs` to `fs1` every node keeps its kind, content and permission bits,
and no node appears or disappears. -/
def SameContent (fs fs1 : RemoteFS) : Prop :=
  ∀ p, (get fs1 p).map Node.content = (get fs p).map Node.content


/-! ## Concrete runs -/

/-- An environment in which no request fails for an outside reason; the
run starts 100 s after the epoch and each request takes a nanosecond. -/
def env0 : Env :=
  { fault := fun _ _ => false, progress := fun _ => 0, clock := fun n => 100 * second + n,
    md5 := fun b => b, createMode := 0o644, stamp := "20240101_000000" }

/-- Target `srv`, backups under `bak`, source `home`. -/
def cfg0 : Config := { TargetDir := ["srv"], BackupBase := ["bak"], SourceDir := ["home"] }

/-- A regular file. -/
def mkFile (data : Bytes) (mode : Nat) (mtime : Time) : Node :=
  { isDir := false, data := data, mode := mode, atime := mtime, mtime := mtime }

/-- What the local scan reports for a file. -/
def mkInfo (name : String) (size : Nat) (modTime : Time) (mode : Nat) : FileInfo :=
  { name := name, size := size, modTime := modTime, mode := mode, isDir := false }

/-- Local tree: `home/a.txt`. -/
def lfsA : LocalFS := fun p =>
  if p = ["home", "a.txt"] then some { data := [1, 2], mode := 0o600 } else none

/-- The local inventory of `lfsA`. -/
def invA : Inventory := [(["a.txt"], mkInfo "a.txt" 2 5 0o600)]

/-- Remote tree: `srv/b.txt`. -/
def fsB : RemoteFS := [(["srv"], newDir 0), (["srv", "b.txt"], mkFile [7] 0o640 0)]

/-- The run over `lfsA` and `fsB`: `a.txt` is created, `b.txt` backed up and removed. -/
def runAB : Outcome := main cfg0 env0 lfsA (.ok invA) fsB

/-- The remote filesystem when `runAB` issues its `Remove`. -/
def beforeRemoveAB : RemoteFS :=
  match runAB.final.trace.get? 6 with
  | some (Event.remove _ b _) => b
  | _ => []

/-- The remote inventory of `fsB`. -/
def invB : Inventory := [(["b.txt"], infoOf ["srv", "b.txt"] (mkFile [7] 0o640 0))]

/-- Local tree: `home/b.txt`, last modified at the epoch. -/
def lfsC : LocalFS := fun p =>
  if p = ["home", "b.txt"] then some { data := [9], mode := 0o600 } else none

/-- What the local scan reports for `home/b.txt`. -/
def infoC : FileInfo := mkInfo "b.txt" 1 0 0o600

/-- Remote tree: `srv/b.txt` with the same content, modified 5 s later. -/
def fsC : RemoteFS := [(["srv"], newDir 0), (["srv", "b.txt"], mkFile [9] 0o600 (5 * second))]

/-- The state in which the first loop starts over `fsC`. -/
def stC : State := initState { fs := fsC, tick := 0 } []

/-- As `env0`, but every `Chtimes` on `srv/b.txt` is refused. -/
def envNoChtimes : Env :=
  { env0 with fault := fun _ op => decide (op = Op.chtimes ["srv", "b.txt"]) }

/-- Remote tree: `srv/a.txt`, the directory `srv/bad`, then `srv/z.txt`. -/
def fsZ : RemoteFS :=
  [(["srv"], newDir 0), (["srv", "a.txt"], mkFile [1] 0o644 0), (["srv", "bad"], newDir 0),
    (["srv", "z.txt"], mkFile [2] 0o644 0)]

/-- As `env0`, but listing `srv/bad` is refused. -/
def envNoList : Env :=
  { env0 with fault := fun _ op => decide (op = Op.readDir ["srv", "bad"]) }

/-- As `env0`, but removing `srv/b.txt` is refused. -/
def envNoRemove : Env :=
  { env0 with fault := fun _ op => decide (op = Op.remove ["srv", "b.txt"]) }

/-- An empty local tree. -/
def lfsNone : LocalFS := fun _ => none

/-- Remote tree: `srv/b.txt` and `srv/c.txt`. -/
def fsBC : RemoteFS :=
  [(["srv"], newDir 0), (["srv", "b.txt"], mkFile [7] 0o640 0),
    (["srv", "c.txt"], mkFile [8] 0o640 0)]

/-- The state in which the passes of `runAB` start: the walk made one request. -/
def stAB : State := initState { fs := fsB, tick := 1 } [Event.log Msg.start []]

/-- As `env0`, but the server refuses `Chmod` on the backup of `b.txt`. -/
def envNoChmod : Env :=
  { env0 with
    fault := fun _ op => decide (op = Op.chmod ["bak", "20240101_000000", "b.txt"]) }

/-- A configuration whose target directory is the backup directory of the run. -/
def cfgAlias : Config :=
  { TargetDir := ["bak", "20240101_000000"], BackupBase := ["bak"], SourceDir := ["home"] }

/-- Remote tree: `bak/20240101_000000/b.txt`. -/
def fsAlias : RemoteFS :=
  [(["bak"], newDir 0), (["bak", "20240101_000000"], newDir 0),
    (["bak", "20240101_000000", "b.txt"], mkFile [7] 0o640 0)]

/-- As `env0`, for a run that starts 100 s later. -/
def envLater : Env :=
  { env0 with clock := fun n => 200 * second + n, stamp := "20240101_000140" }

/-- What the local scan reports for `home/b.txt` when it was last modified
1.5 s after the epoch. -/
def infoD : FileInfo := mkInfo "b.txt" 1 1500000000 0o600

/-- The run over an empty local tree and `fsAlias`, whose target directory is
the run's backup directory: `b.txt` is backed up onto itself and removed. -/
def runAlias : Outcome := main cfgAlias env0 lfsNone (.ok []) fsAlias

/-- The remote filesystem when `runAlias` issues its `Remove`. -/
def beforeRemoveAlias : RemoteFS :=
  match runAlias.final.trace.get? 2 with
  | some (Event.remove _ b _) => b
  | _ => []

/-- As `env0`, but opening `home/b.txt` is refused. -/
def envNoOpen : Env :=
  { env0 with fault := fun _ op => decide (op = Op.osOpen ["home", "b.txt"]) }

/-- Remote tree: `srv/b.txt` with other content than `home/b.txt`, modified 5 s later. -/
def fsU : RemoteFS := [(["srv"], newDir 0), (["srv", "b.txt"], mkFile [7] 0o640 (5 * second))]

/-- The state in which the first loop starts over `fsU`. -/
def stU : State := initState { fs := fsU, tick := 0 } []

/-! ## The timestamp tolerance -/

theorem timeSub_le_iff (t u : Int) (h : u < t) : timeSub t u ≤ 2 * second ↔ t - u ≤ 2 * second := by
  unfold timeSub second
  split_ifs with h1 h2
  · norm_num at h1 ⊢; linarith
  · norm_num at h1 h2 ⊢; linarith
  · rfl

theorem timeEqual_iff_abs (l r : Time) : timeEqual l r = true ↔ |l - r| ≤ 2 * second := by
  rw [abs_le]
  unfold timeEqual
  rcases lt_trichotomy l r with h | h | h
  · simp only [Bool.or_eq_true, Bool.and_eq_true, decide_eq_true_eq, timeSub_le_iff r l h]
    unfold second at *
    constructor
    · rintro ((h1 | ⟨h1, h2⟩) | ⟨h1, h2⟩) <;> constructor <;> linarith
    · intro h2; right; exact ⟨h, by linarith [h2.1]⟩
  · subst h
    simp [second]
  · simp only [Bool.or_eq_true, Bool.and_eq_true, decide_eq_true_eq, timeSub_le_iff l r h]
    unfold second at *
    constructor
    · rintro ((h1 | ⟨h1, h2⟩) | ⟨h1, h2⟩) <;> constructor <;> linarith
    · intro h2; left; right; exact ⟨h, by linarith [h2.2]⟩

/-- C3: `timeEqual` holds exactly when the two modification times are at most
two seconds apart; it holds at exactly 2 s and fails at 2.000001 s, whichever
side is the later one, and it is symmetric. -/
theorem timeEqual_tolerance (l r : Time) :
    (timeEqual l r = true ↔ |l - r| ≤ 2 * second) ∧
    timeEqual (r + 2 * second) r = true ∧
    timeEqual r (r + 2 * second) = true ∧
    timeEqual (r + 2 * second + 1000) r = false ∧
    timeEqual r (r + 2 * second + 1000) = false ∧
    timeEqual l r = timeEqual r l := by
  refine ⟨timeEqual_iff_abs l r, ?_, ?_, ?_, ?_, ?_⟩
  · rw [timeEqual_iff_abs, abs_le]; unfold second; constructor <;> linarith
  · rw [timeEqual_iff_abs, abs_le]; unfold second; constructor <;> linarith
  · rw [← Bool.not_eq_true, timeEqual_iff_abs, abs_le]; unfold second
    rintro ⟨h1, h2⟩; linarith
  · rw [← Bool.not_eq_true, timeEqual_iff_abs, abs_le]; unfold second
    rintro ⟨h1, h2⟩; linarith
  · rw [Bool.eq_iff_iff, timeEqual_iff_abs, timeEqual_iff_abs, abs_sub_comm]


/-! ## The finite map -/

theorem get_del (fs : RemoteFS) (p q : Path) :
    get (del fs p) q = if q = p then none else get fs q := by
  induction fs with
  | nil => simp [del, get]
  | cons e fs ih =>
    obtain ⟨k, n⟩ := e
    unfold del at ih ⊢
    by_cases hk : k = p
    · subst hk
      simp only [List.filter_cons, ne_eq, not_true_eq_false, decide_False, Bool.false_eq_true,
        if_false, ih, get]
      by_cases hq : q = k
      · simp [hq]
      · simp [hq, Ne.symm hq]
    · simp only [List.filter_cons, ne_eq, hk, not_false_eq_true, decide_True, if_true, get, ih]
      by_cases hq : q = p
      · subst hq; simp [hk]
      · simp [hq]

theorem get_put (fs : RemoteFS) (p q : Path) (n : Node) :
    get (put fs p n) q = if q = p then some n else get fs q := by
  unfold put
  by_cases hq : q = p
  · subst hq; simp [get]
  · simp [get, Ne.symm hq, hq, get_del]

theorem andThen_ok {α β : Type} {r : Except Err α × World}
    {k : α → World → Except Err β × World} {b : β} {w : World}
    (h : andThen r k = (.ok b, w)) :
    ∃ a w1, r = (.ok a, w1) ∧ k a w1 = (.ok b, w) := by
  obtain ⟨r1, r2⟩ := r
  cases r1 with
  | error e => simp [andThen] at h
  | ok a => exact ⟨a, r2, rfl, h⟩


/-! ## What a request that returned without error did -/

theorem sftpOpen_ok {env : Env} {p a : Path} {w w1 : World}
    (h : sftpOpen env p w = (.ok a, w1)) :
    a = p ∧ w1.fs = w.fs ∧ ∃ n, get w.fs p = some n := by
  unfold sftpOpen at h
  split_ifs at h
  · simp at h
  · split at h
    · simp at h
    · rename_i n hn
      simp only [Prod.mk.injEq, Except.ok.injEq] at h
      obtain ⟨h1, h2⟩ := h
      subst h1 h2
      exact ⟨rfl, rfl, n, hn⟩

theorem sftpFstat_ok {env : Env} {p : Path} {i : FileInfo} {w w1 : World}
    (h : sftpFstat env p w = (.ok i, w1)) :
    w1.fs = w.fs ∧ ∃ n, get w.fs p = some n ∧ i = infoOf p n := by
  unfold sftpFstat at h
  split_ifs at h
  · simp at h
  · split at h
    · simp at h
    · rename_i n hn
      simp only [Prod.mk.injEq, Except.ok.injEq] at h
      obtain ⟨h1, h2⟩ := h
      subst h1 h2
      exact ⟨rfl, n, hn, rfl⟩

theorem sftpCreate_ok {env : Env} {p a : Path} {w w1 : World}
    (h : sftpCreate env p w = (.ok a, w1)) :
    a = p ∧ ∃ n, n.isDir = false ∧ n.data = [] ∧ w1.fs = put w.fs p n ∧
      (∀ m, get w.fs p = some m → n.mode = m.mode ∧ m.isDir = false) := by
  unfold sftpCreate at h
  split_ifs at h
  · simp at h
  · simp at h
  · split at h
    · rename_i n hn
      split_ifs at h with hd
      · simp at h
      · simp only [Prod.mk.injEq, Except.ok.injEq] at h
        obtain ⟨h1, h2⟩ := h
        subst h1 h2
        refine ⟨rfl, _, ?_, rfl, rfl, ?_⟩
        · simpa using hd
        · intro m hm
          rw [hn] at hm
          cases hm
          exact ⟨rfl, by simpa using hd⟩
    · rename_i hn
      simp only [Prod.mk.injEq, Except.ok.injEq] at h
      obtain ⟨h1, h2⟩ := h
      subst h1 h2
      refine ⟨rfl, _, rfl, rfl, rfl, ?_⟩
      intro m hm
      rw [hn] at hm
      cases hm
  · simp at h

theorem writeAll_ok {env : Env} {dst : Path} {data : Bytes} {w w1 : World}
    (h : writeAll env dst data w = (.ok (), w1)) :
    ∃ n, get w.fs dst = some n ∧ n.isDir = false ∧
      w1.fs = put w.fs dst { n with data := data, mtime := env.clock w.tick } := by
  unfold writeAll at h
  split at h
  · simp at h
  · rename_i n hn
    split_ifs at h with hd hf
    · simp at h
    · simp at h
    · simp only [Prod.mk.injEq, true_and] at h
      subst h
      exact ⟨n, hn, by simpa using hd, rfl⟩

theorem readFromRemote_ok {env : Env} {dst src : Path} {w w1 : World}
    (h : readFromRemote env dst src w = (.ok (), w1)) :
    ∃ s n, get w.fs src = some s ∧ s.isDir = false ∧ get w.fs dst = some n ∧ n.isDir = false ∧
      w1.fs = put w.fs dst { n with data := s.data, mtime := env.clock w.tick } := by
  unfold readFromRemote at h
  split at h
  · simp at h
  · rename_i s hs
    split_ifs at h with hd
    · simp at h
    · obtain ⟨n, hn, hnd, hw⟩ := writeAll_ok h
      exact ⟨s, n, hs, by simpa using hd, hn, hnd, hw⟩

theorem sftpChmod_ok {env : Env} {p : Path} {mode : Nat} {w w1 : World}
    (h : sftpChmod env p mode w = (.ok (), w1)) :
    ∃ n, get w.fs p = some n ∧ w1.fs = put w.fs p { n with mode := mode } := by
  unfold sftpChmod at h
  split_ifs at h
  · simp at h
  · split at h
    · simp at h
    · rename_i n hn
      simp only [Prod.mk.injEq, true_and] at h
      subst h
      exact ⟨n, hn, rfl⟩


/-! ## Frames -/

theorem Changes_refl (S : Path → Prop) (fs : RemoteFS) : Changes S fs fs :=
  fun _ _ => Or.inl rfl

theorem Changes_trans {S : Path → Prop} {a b c : RemoteFS}
    (h1 : Changes S a b) (h2 : Changes S b c) : Changes S a c := by
  intro q hq
  rcases h1 q hq with e1 | ⟨n1, ⟨m1, hm1, hd1⟩, hp1⟩
  · rcases h2 q hq with e2 | ⟨n2, hm2, hp2⟩
    · exact Or.inl (e2.trans e1)
    · exact Or.inr ⟨e1 ▸ n2, hm2, hp2⟩
  · rcases h2 q hq with e2 | ⟨n2, _, _⟩
    · exact Or.inr ⟨n1, ⟨m1, e2.trans hm1, hd1⟩, hp1⟩
    · rw [hm1] at n2; cases n2

theorem Changes_mono {S T : Path → Prop} {a b : RemoteFS} (hST : ∀ p, S p → T p)
    (h : Changes S a b) : ∀ q, ¬ T q →
      get b q = get a q ∨
        (get a q = none ∧ (∃ n, get b q = some n ∧ n.isDir = true) ∧ ∃ p, T p ∧ q <+: p) := by
  intro q hq
  rcases h q (fun hs => hq (hST q hs)) with e | ⟨n, hm, p, hp, hpre⟩
  · exact Or.inl e
  · exact Or.inr ⟨n, hm, p, hST p hp, hpre⟩

theorem Changes_put {S : Path → Prop} (fs : RemoteFS) (p : Path) (n : Node) (hp : S p) :
    Changes S fs (put fs p n) := by
  intro q hq
  left
  rw [get_put, if_neg]
  rintro rfl
  exact hq hp

theorem Changes_del {S : Path → Prop} (fs : RemoteFS) (p : Path) (hp : S p) :
    Changes S fs (del fs p) := by
  intro q hq
  left
  rw [get_del, if_neg]
  rintro rfl
  exact hq hp

theorem mkdirFrom_get (now : Time) (rest : List String) :
    ∀ (fs : RemoteFS) (base q : Path),
      get (mkdirFrom now fs base rest).2 q = get fs q ∨
        (get fs q = none ∧ get (mkdirFrom now fs base rest).2 q = some (newDir now) ∧
          q <+: base ++ rest) := by
  induction rest with
  | nil => intro fs base q; exact Or.inl rfl
  | cons x rest ih =>
    intro fs base q
    unfold mkdirFrom
    have happ : base ++ x :: rest = (base ++ [x]) ++ rest := by simp
    split
    · rename_i n hn
      split_ifs with hd
      · rw [happ]; exact ih fs (base ++ [x]) q
      · exact Or.inl rfl
    · rename_i hn
      rw [happ]
      rcases ih (put fs (base ++ [x]) (newDir now)) (base ++ [x]) q with e | ⟨e1, e2, e3⟩
      · rw [get_put] at e
        by_cases hq : q = base ++ [x]
        · rw [if_pos hq] at e
          subst hq
          exact Or.inr ⟨hn, e, List.prefix_append _ _⟩
        · rw [if_neg hq] at e
          exact Or.inl e
      · rw [get_put] at e1
        by_cases hq : q = base ++ [x]
        · rw [if_pos hq] at e1; cases e1
        · rw [if_neg hq] at e1
          exact Or.inr ⟨e1, e2, e3⟩

theorem mkdirFrom_changes {S : Path → Prop} (now : Time) (fs : RemoteFS) (d p : Path)
    (hp : S p) (hd : d <+: p) : Changes S fs (mkdirFrom now fs [] d).2 := by
  intro q _
  rcases mkdirFrom_get now d fs [] q with e | ⟨e1, e2, e3⟩
  · exact Or.inl e
  · refine Or.inr ⟨e1, ⟨_, e2, rfl⟩, p, hp, ?_⟩
    simp only [List.nil_append] at e3
    exact e3.trans hd

theorem sftpMkdirAll_changes {S : Path → Prop} (env : Env) (d p : Path) (w : World)
    (hp : S p) (hd : d <+: p) : Changes S w.fs (sftpMkdirAll env d w).2.fs := by
  unfold sftpMkdirAll
  split_ifs
  · exact mkdirFrom_changes _ _ _ p hp ((List.take_prefix _ _).trans hd)
  · exact mkdirFrom_changes _ _ _ p hp hd

theorem sftpStat_fs (env : Env) (p : Path) (w : World) : (sftpStat env p w).2.fs = w.fs := by
  unfold sftpStat
  split_ifs
  · rfl
  · split <;> rfl

theorem sftpOpen_fs (env : Env) (p : Path) (w : World) : (sftpOpen env p w).2.fs = w.fs := by
  unfold sftpOpen
  split_ifs
  · rfl
  · split <;> rfl

theorem sftpFstat_fs (env : Env) (p : Path) (w : World) : (sftpFstat env p w).2.fs = w.fs := by
  unfold sftpFstat
  split_ifs
  · rfl
  · split <;> rfl

theorem sftpHashRead_fs (env : Env) (p : Path) (w : World) :
    (sftpHashRead env p w).2.fs = w.fs := by
  unfold sftpHashRead
  split_ifs
  · rfl
  · split
    · rfl
    · split_ifs <;> rfl

theorem osOpen_fs (env : Env) (lfs : LocalFS) (p : Path) (w : World) :
    (osOpen env lfs p w).2.fs = w.fs := by
  unfold osOpen
  split_ifs
  · rfl
  · split <;> rfl

theorem osHashRead_fs (env : Env) (p : Path) (f : LFile) (w : World) :
    (osHashRead env p f w).2.fs = w.fs := by
  unfold osHashRead
  split_ifs <;> rfl

theorem osFstat_fs (env : Env) (p : Path) (f : LFile) (w : World) :
    (osFstat env p f w).2.fs = w.fs := by
  unfold osFstat
  split_ifs <;> rfl

theorem sftpCreate_changes {S : Path → Prop} (env : Env) (p : Path) (w : World) (hp : S p) :
    Changes S w.fs (sftpCreate env p w).2.fs := by
  unfold sftpCreate
  split_ifs
  · exact Changes_refl _ _
  · exact Changes_refl _ _
  · split
    · split_ifs
      · exact Changes_refl _ _
      · exact Changes_put _ _ _ hp
    · exact Changes_put _ _ _ hp
  · exact Changes_refl _ _

theorem writeAll_changes {S : Path → Prop} (env : Env) (p : Path) (data : Bytes) (w : World)
    (hp : S p) : Changes S w.fs (writeAll env p data w).2.fs := by
  unfold writeAll
  split
  · exact Changes_refl _ _
  · split_ifs
    · exact Changes_refl _ _
    · exact Changes_put _ _ _ hp
    · exact Changes_put _ _ _ hp

theorem readFromRemote_changes {S : Path → Prop} (env : Env) (p src : Path) (w : World)
    (hp : S p) : Changes S w.fs (readFromRemote env p src w).2.fs := by
  unfold readFromRemote
  split
  · exact Changes_refl _ _
  · split_ifs
    · exact Changes_refl _ _
    · exact writeAll_changes env p _ w hp

theorem sftpChmod_changes {S : Path → Prop} (env : Env) (p : Path) (mode : Nat) (w : World)
    (hp : S p) : Changes S w.fs (sftpChmod env p mode w).2.fs := by
  unfold sftpChmod
  split_ifs
  · exact Changes_refl _ _
  · split
    · exact Changes_refl _ _
    · exact Changes_put _ _ _ hp

theorem sftpChtimes_changes {S : Path → Prop} (env : Env) (p : Path) (a m : Time) (w : World)
    (hp : S p) : Changes S w.fs (sftpChtimes env p a m w).2.fs := by
  unfold sftpChtimes
  split_ifs
  · exact Changes_refl _ _
  · split
    · exact Changes_refl _ _
    · exact Changes_put _ _ _ hp

theorem sftpRemove_changes {S : Path → Prop} (env : Env) (p : Path) (w : World)
    (hp : S p) : Changes S w.fs (sftpRemove env p w).2.fs := by
  unfold sftpRemove
  split_ifs
  · exact Changes_refl _ _
  · split
    · exact Changes_refl _ _
    · split_ifs
      · exact Changes_refl _ _
      · exact Changes_del _ _ hp

theorem sftpRemoveDirectory_changes {S : Path → Prop} (env : Env) (p : Path) (w : World)
    (hp : S p) : Changes S w.fs (sftpRemoveDirectory env p w).2.fs := by
  unfold sftpRemoveDirectory
  repeat' split
  all_goals first | exact Changes_refl _ _ | exact Changes_del _ _ hp

theorem andThen_changes {α β : Type} {S : Path → Prop} {fs : RemoteFS}
    (r : Except Err α × World) (k : α → World → Except Err β × World)
    (h1 : Changes S fs r.2.fs) (h2 : ∀ a w, r = (.ok a, w) → Changes S w.fs (k a w).2.fs) :
    Changes S fs (andThen r k).2.fs := by
  obtain ⟨r1, r2⟩ := r
  cases r1 with
  | error e => exact h1
  | ok a => exact Changes_trans h1 (h2 a r2 rfl)

theorem changes_of_eq {S : Path → Prop} {fs fs1 : RemoteFS} (h : fs1 = fs) : Changes S fs fs1 :=
  h ▸ Changes_refl S fs

theorem copyFile_changes {S : Path → Prop} (env : Env) (lfs : LocalFS) (src dst : Path)
    (w : World) (hp : S dst) : Changes S w.fs (copyFile env lfs src dst w).2.fs := by
  unfold copyFile
  refine andThen_changes _ _ (sftpMkdirAll_changes env _ dst w hp (List.dropLast_prefix _)) ?_
  intro _ w1 _
  refine andThen_changes _ _ (changes_of_eq (osOpen_fs _ _ _ _)) ?_
  intro f w2 _
  refine andThen_changes _ _ (sftpCreate_changes env dst w2 hp) ?_
  intro d w3 hc
  obtain ⟨rfl, -⟩ := sftpCreate_ok hc
  refine andThen_changes _ _ (writeAll_changes env d _ w3 hp) ?_
  intro _ w4 _
  refine andThen_changes _ _ (changes_of_eq (osFstat_fs _ _ _ _)) ?_
  intro m w5 _
  exact sftpChmod_changes env d m w5 hp

theorem createBackup_changes {S : Path → Prop} (env : Env) (rp bp : Path)
    (w : World) (hp : S bp) : Changes S w.fs (createBackup env rp bp w).2.fs := by
  unfold createBackup
  refine andThen_changes _ _ (sftpMkdirAll_changes env _ bp w hp (List.dropLast_prefix _)) ?_
  intro _ w1 _
  refine andThen_changes _ _ (changes_of_eq (sftpOpen_fs _ _ _)) ?_
  intro f w2 _
  refine andThen_changes _ _ (sftpCreate_changes env bp w2 hp) ?_
  intro d w3 hc
  obtain ⟨rfl, -⟩ := sftpCreate_ok hc
  refine andThen_changes _ _ (readFromRemote_changes env d _ w3 hp) ?_
  intro _ w4 _
  refine andThen_changes _ _ (changes_of_eq (sftpFstat_fs _ _ _)) ?_
  intro m w5 _
  exact sftpChmod_changes env d _ w5 hp


/-! ## What a successful backup leaves -/

theorem sftpMkdirAll_get (env : Env) (d q : Path) (w : World) :
    get (sftpMkdirAll env d w).2.fs q = get w.fs q ∨
      (get w.fs q = none ∧ ∃ n, get (sftpMkdirAll env d w).2.fs q = some n ∧ n.isDir = true) := by
  unfold sftpMkdirAll
  split_ifs
  · rcases mkdirFrom_get (env.clock w.tick) (d.take (env.progress w.tick)) w.fs [] q with
      e | ⟨e1, e2, _⟩
    · exact Or.inl e
    · exact Or.inr ⟨e1, _, e2, rfl⟩
  · rcases mkdirFrom_get (env.clock w.tick) d w.fs [] q with e | ⟨e1, e2, _⟩
    · exact Or.inl e
    · exact Or.inr ⟨e1, _, e2, rfl⟩

theorem createBackup_ok {env : Env} {rp bp : Path} {w w1 : World}
    (h : createBackup env rp bp w = (.ok (), w1)) :
    BackedUp w1.fs rp bp ∧ (rp ≠ bp → get w1.fs rp = get w.fs rp) := by
  unfold createBackup at h
  obtain ⟨_, wa, ha, h⟩ := andThen_ok h
  obtain ⟨src, wb, hb, h⟩ := andThen_ok h
  obtain ⟨dst, wc, hc, h⟩ := andThen_ok h
  obtain ⟨_, wd, hd, h⟩ := andThen_ok h
  obtain ⟨info, we, he, h⟩ := andThen_ok h
  obtain ⟨rfl, hbfs, -⟩ := sftpOpen_ok hb
  obtain ⟨rfl, n0, hn0d, -, hcfs, -⟩ := sftpCreate_ok hc
  obtain ⟨s, n, hs, hsd, hn, hnd, hdfs⟩ := readFromRemote_ok hd
  obtain ⟨hefs, m, hm, rfl⟩ := sftpFstat_ok he
  obtain ⟨b, hb1, hfs1⟩ := sftpChmod_ok h
  have hwa : wa.fs = (sftpMkdirAll env dst.dropLast w).2.fs := by rw [ha]
  obtain ⟨x, hx, hxd, hxdata, hxmode⟩ : ∃ x : Node, get w1.fs dst = some x ∧
      x.isDir = b.isDir ∧ x.data = b.data ∧ x.mode = m.mode :=
    ⟨{ b with mode := (infoOf src m).mode }, by rw [hfs1, get_put, if_pos rfl], rfl, rfl, rfl⟩
  rw [hefs, hdfs, get_put, if_pos rfl] at hb1
  cases hb1
  by_cases hne : src = dst
  · subst hne
    rw [hdfs, get_put, if_pos rfl] at hm
    cases hm
    exact ⟨⟨x, x, hx, hx, hxd.trans hnd, hxd.trans hnd, rfl, rfl⟩, fun h => absurd rfl h⟩
  · have hsrc : get wd.fs src = some s := by
      rw [hdfs, get_put, if_neg hne, hs]
    rw [hsrc] at hm
    cases hm
    have hsrc1 : get w1.fs src = some s := by
      rw [hfs1, get_put, if_neg hne, hefs, hsrc]
    refine ⟨⟨s, x, hsrc1, hx, hsd, hxd.trans hnd, hxdata, hxmode⟩, fun _ => ?_⟩
    rw [hsrc1]
    rw [hcfs, get_put, if_neg hne, hbfs, hwa] at hs
    rcases sftpMkdirAll_get env dst.dropLast src w with e | ⟨_, k, hk, hkd⟩
    · rw [← e, hs]
    · rw [hs] at hk
      cases hk
      rw [hsd] at hkd
      cases hkd


/-! ## Backup before mutation -/

theorem GuardedFrom_weaken {cfg : Config} {env : Env} {tr : List Event}
    (h : GuardedFrom cfg env none tr) (prev : Option Event) : GuardedFrom cfg env prev tr := by
  cases tr with
  | nil => trivial
  | cons e rest =>
    refine ⟨fun rp before hd => ?_, h.2⟩
    obtain ⟨_, _, hcontra, _⟩ := h.1 rp before hd
    cases hcontra

theorem GuardedFrom_append {cfg : Config} {env : Env} (b : List Event) :
    ∀ (a : List Event) (prev : Option Event), GuardedFrom cfg env prev a →
      GuardedFrom cfg env none b → GuardedFrom cfg env prev (a ++ b) := by
  intro a
  induction a with
  | nil => intro prev _ hb; exact GuardedFrom_weaken hb prev
  | cons e rest ih =>
    intro prev ha hb
    exact ⟨ha.1, ih (some e) ha.2 hb⟩

theorem GuardedFrom_split {cfg : Config} {env : Env} (pre : List Event) :
    ∀ (prev : Option Event) (e : Event) (post : List Event) (rp : Path) (before : RemoteFS),
      GuardedFrom cfg env prev (pre ++ e :: post) → e.destroys rp before →
      Event.backs cfg env ((prev.toList ++ pre).getLast?) rp before := by
  induction pre with
  | nil =>
    intro prev e post rp before h hd
    have := h.1 rp before hd
    cases prev <;> simpa using this
  | cons x pre ih =>
    intro prev e post rp before h hd
    have := ih (some x) e post rp before h.2 hd
    cases prev with
    | none => simpa using this
    | some y =>
      simp only [Option.toList, List.singleton_append] at this ⊢
      rw [List.getLast?_cons_cons]
      exact this


theorem processLocal_guarded (cfg : Config) (env : Env) (lfs : LocalFS) (relPath : Path)
    (localInfo : FileInfo) (s : State) :
    ∃ new, (processLocal cfg env lfs relPath localInfo s).trace = s.trace ++ new ∧
      GuardedFrom cfg env none new := by
  unfold processLocal
  simp only []
  repeat' split
  all_goals
    simp only [State.step, State.barAdd, State.setBackupCreated, List.append_assoc]
    refine ⟨_, rfl, ?_⟩
    simp [GuardedFrom, Event.destroys]
  all_goals
    exact ⟨relPath, _, rfl, rfl, (createBackup_ok (by assumption)).1,
      (createBackup_ok (by assumption)).2⟩

theorem processRemote_guarded (cfg : Config) (env : Env) (localFiles : Inventory)
    (relPath : Path) (s : State) :
    ∃ new, (processRemote cfg env localFiles relPath s).trace = s.trace ++ new ∧
      GuardedFrom cfg env none new := by
  unfold processRemote
  simp only []
  split
  · exact ⟨[], by simp, trivial⟩
  repeat' split
  all_goals
    simp only [State.step, State.barAdd, State.setBackupCreated, List.append_assoc]
    refine ⟨_, rfl, ?_⟩
    simp [GuardedFrom, Event.destroys]
  all_goals
    exact ⟨relPath, _, rfl, rfl, (createBackup_ok (by assumption)).1,
      (createBackup_ok (by assumption)).2⟩

theorem localPass_guarded (cfg : Config) (env : Env) (lfs : LocalFS) (localFiles : Inventory) :
    ∀ s : State, ∃ new, (localPass cfg env lfs localFiles s).trace = s.trace ++ new ∧
      GuardedFrom cfg env none new := by
  induction localFiles with
  | nil => intro s; exact ⟨[], by simp [localPass], trivial⟩
  | cons e rest ih =>
    intro s
    obtain ⟨n1, h1, g1⟩ := processLocal_guarded cfg env lfs e.1 e.2 s
    obtain ⟨n2, h2, g2⟩ := ih (processLocal cfg env lfs e.1 e.2 s)
    refine ⟨n1 ++ n2, ?_, GuardedFrom_append n2 n1 none g1 g2⟩
    unfold localPass at h2 ⊢
    rw [List.foldl_cons, h2, h1, List.append_assoc]

theorem deletePass_guarded (cfg : Config) (env : Env) (localFiles remoteFiles : Inventory) :
    ∀ s : State, ∃ new, (deletePass cfg env localFiles remoteFiles s).trace = s.trace ++ new ∧
      GuardedFrom cfg env none new := by
  induction remoteFiles with
  | nil => intro s; exact ⟨[], by simp [deletePass], trivial⟩
  | cons e rest ih =>
    intro s
    obtain ⟨n1, h1, g1⟩ := processRemote_guarded cfg env localFiles e.1 s
    obtain ⟨n2, h2, g2⟩ := ih (processRemote cfg env localFiles e.1 s)
    refine ⟨n1 ++ n2, ?_, GuardedFrom_append n2 n1 none g1 g2⟩
    unfold deletePass at h2 ⊢
    rw [List.foldl_cons, h2, h1, List.append_assoc]

theorem cleanup_guarded (cfg : Config) (env : Env) (s : State) :
    ∃ new, (cleanup cfg env s).trace = s.trace ++ new ∧ GuardedFrom cfg env none new := by
  unfold cleanup
  repeat' split
  all_goals
    first
      | exact ⟨_, rfl, by simp [GuardedFrom, Event.destroys]⟩
      | exact ⟨[], (List.append_nil _).symm, trivial⟩

theorem applyPasses_guarded (cfg : Config) (env : Env) (lfs : LocalFS)
    (localFiles remoteFiles : Inventory) (s : State) :
    ∃ new, (applyPasses cfg env lfs localFiles remoteFiles s).trace = s.trace ++ new ∧
      GuardedFrom cfg env none new := by
  unfold applyPasses
  obtain ⟨n1, h1, g1⟩ := localPass_guarded cfg env lfs localFiles s
  obtain ⟨n2, h2, g2⟩ := deletePass_guarded cfg env localFiles remoteFiles
    (localPass cfg env lfs localFiles s)
  obtain ⟨n3, h3, g3⟩ := cleanup_guarded cfg env
    (deletePass cfg env localFiles remoteFiles (localPass cfg env lfs localFiles s))
  refine ⟨n1 ++ (n2 ++ n3), ?_,
    GuardedFrom_append _ n1 none g1 (GuardedFrom_append n3 n2 none g2 g3)⟩
  rw [h3, h2, h1, List.append_assoc, List.append_assoc]

theorem applyPasses_guarded_all (cfg : Config) (env : Env) (lfs : LocalFS)
    (localFiles remoteFiles : Inventory) (s : State) (hs : GuardedFrom cfg env none s.trace) :
    GuardedFrom cfg env none (applyPasses cfg env lfs localFiles remoteFiles s).finish.trace := by
  obtain ⟨n, h, g⟩ := applyPasses_guarded cfg env lfs localFiles remoteFiles s
  simp only [State.finish]
  rw [h]
  refine GuardedFrom_append _ _ none (GuardedFrom_append n _ none hs g) ?_
  simp [GuardedFrom, Event.destroys]

theorem main_guarded (cfg : Config) (env : Env) (lfs : LocalFS)
    (localWalk : Except Err Inventory) (fs0 : RemoteFS) :
    GuardedFrom cfg env none (main cfg env lfs localWalk fs0).final.trace := by
  unfold main
  repeat' split
  · simp [initState, GuardedFrom, Event.destroys]
  all_goals
    apply applyPasses_guarded_all
    simp [initState, GuardedFrom, Event.destroys]

/-! ## The per-path decision -/

theorem newEvents_step (s : State) (w : World) (es : List Event) :
    newEvents s (s.step w es) = es := by
  simp [newEvents, State.step]

/-! ## The loop bodies, case by case -/

theorem processLocal_step (cfg : Config) (env : Env) (lfs : LocalFS) (relPath : Path)
    (localInfo : FileInfo) (s : State) :
    LocalStep cfg env lfs relPath localInfo s (processLocal cfg env lfs relPath localInfo s) := by
  unfold processLocal
  simp only []
  split
  · rename_i e w1 hstat
    split
    · rename_i e2 w2 hcopy
      have := @LocalStep.createFailed cfg env lfs relPath localInfo s e e2 w1 w2 hstat hcopy
      simpa [State.after, State.step, State.barAdd] using this
    · rename_i u w2 hcopy
      have := @LocalStep.created cfg env lfs relPath localInfo s e w1 w2 hstat hcopy
      simpa [State.after, State.step, State.barAdd] using this
  · rename_i remoteInfo w1 hstat
    split
    · rename_i hcond
      have hdiff : ¬ (timeEqual localInfo.modTime remoteInfo.modTime = true ∧
          sizeEqual localInfo remoteInfo = true) := by
        rintro ⟨h1, h2⟩
        simp [h1, h2] at hcond
      split
      · rename_i e w2 hlocal
        have := @LocalStep.localHashFailed cfg env lfs relPath localInfo s remoteInfo e w1 w2 hstat hdiff hlocal
        simpa [State.after, State.step, State.barAdd] using this
      · rename_i localHash w2 hlocal
        split
        · rename_i e w3 hremote
          have := @LocalStep.remoteHashFailed cfg env lfs relPath localInfo s remoteInfo localHash e w1 w2 w3 hstat hdiff hlocal
            hremote
          simpa [State.after, State.step, State.barAdd] using this
        · rename_i remoteHash w3 hremote
          split
          · rename_i hne
            split
            · rename_i e w4 hbackup
              have := @LocalStep.backupFailed cfg env lfs relPath localInfo s remoteInfo localHash remoteHash e w1 w2 w3 w4 hstat
                hdiff hlocal hremote hne hbackup
              simpa [State.after, State.step, State.barAdd] using this
            · rename_i u w4 hbackup
              split
              · rename_i e w5 hcopy
                have := @LocalStep.updateFailed cfg env lfs relPath localInfo s remoteInfo localHash remoteHash e w1 w2 w3 w4 w5
                  hstat hdiff hlocal hremote hne hbackup hcopy
                simpa [State.after, State.step, State.barAdd] using this
              · rename_i u2 w5 hcopy
                have := @LocalStep.updated cfg env lfs relPath localInfo s remoteInfo localHash remoteHash w1 w2 w3 w4 w5
                  hstat hdiff hlocal hremote hne hbackup hcopy
                simpa [State.after, State.step, State.barAdd, State.setBackupCreated] using this
          · rename_i heq
            have heq2 : localHash = remoteHash := by
              by_contra hc
              exact heq hc
            subst heq2
            split
            · rename_i e w4 htouch
              have := @LocalStep.retouchFailed cfg env lfs relPath localInfo s remoteInfo localHash e w1 w2 w3 w4 hstat hdiff
                hlocal hremote htouch
              simpa [State.after, State.step, State.barAdd] using this
            · rename_i u w4 htouch
              have := @LocalStep.retouched cfg env lfs relPath localInfo s remoteInfo localHash w1 w2 w3 w4 hstat hdiff
                hlocal hremote htouch
              simpa [State.after, State.step, State.barAdd] using this
    · rename_i hcond
      have ht : timeEqual localInfo.modTime remoteInfo.modTime = true := by
        cases h : timeEqual localInfo.modTime remoteInfo.modTime
        · simp [h] at hcond
        · rfl
      have hs : sizeEqual localInfo remoteInfo = true := by
        cases h : sizeEqual localInfo remoteInfo
        · simp [h] at hcond
        · rfl
      have := @LocalStep.noOp cfg env lfs relPath localInfo s remoteInfo w1 hstat ht hs
      simpa [State.after, State.step, State.barAdd] using this

theorem processRemote_step (cfg : Config) (env : Env) (localFiles : Inventory) (relPath : Path)
    (s : State) :
    RemoteStep cfg env localFiles relPath s (processRemote cfg env localFiles relPath s) := by
  unfold processRemote
  split
  · rename_i hkey
    exact RemoteStep.kept hkey
  · rename_i hkey
    have hkey2 : hasKey localFiles relPath = false := by simpa using hkey
    simp only []
    split
    · rename_i e w1 hbackup
      have := @RemoteStep.backupFailed cfg env localFiles relPath s e w1 hkey2 hbackup
      simpa [State.after, State.step, State.barAdd] using this
    · rename_i u w1 hbackup
      split
      · rename_i e w2 hremove
        have := @RemoteStep.removeFailed cfg env localFiles relPath s e w1 w2 hkey2 hbackup hremove
        simpa [State.after, State.step, State.barAdd] using this
      · rename_i u2 w2 hremove
        have := @RemoteStep.deleted cfg env localFiles relPath s w1 w2 hkey2 hbackup hremove
        simpa [State.after, State.step, State.barAdd, State.setBackupCreated] using this


/-! ## Traces of the passes -/

theorem Extends_refl (s : State) : Extends s s := ⟨[], (List.append_nil _).symm⟩

theorem Extends_trans {a b c : State} (h1 : Extends a b) (h2 : Extends b c) : Extends a c := by
  obtain ⟨n1, e1⟩ := h1
  obtain ⟨n2, e2⟩ := h2
  exact ⟨n1 ++ n2, by rw [e2, e1, List.append_assoc]⟩

theorem Extends_trace {a b : State} (h : Extends a b) : b.trace = a.trace ++ newEvents a b := by
  obtain ⟨n, e⟩ := h
  simp [newEvents, e]

theorem newEvents_after (s : State) (w : World) (es : List Event) (b : Bool) (k : Nat) :
    newEvents s (s.after w es b k) = es := by
  simp [newEvents, State.after]

theorem newEvents_self (s : State) : newEvents s s = [] := by
  simp [newEvents]

theorem newEvents_trans {a b c : State} (h1 : Extends a b) (h2 : Extends b c) :
    newEvents a c = newEvents a b ++ newEvents b c := by
  have e1 := Extends_trace h1
  have e2 := Extends_trace h2
  have e3 := Extends_trace (Extends_trans h1 h2)
  rw [e2, e1, List.append_assoc] at e3
  exact (List.append_cancel_left e3).symm

theorem extends_after (s : State) (w : World) (es : List Event) (b : Bool) (k : Nat) :
    Extends s (s.after w es b k) := ⟨es, rfl⟩

theorem LocalStep_extends {cfg : Config} {env : Env} {lfs : LocalFS} {relPath : Path}
    {localInfo : FileInfo} {s s1 : State} (h : LocalStep cfg env lfs relPath localInfo s s1) :
    Extends s s1 := by
  cases h <;> exact extends_after _ _ _ _ _

theorem RemoteStep_extends {cfg : Config} {env : Env} {localFiles : Inventory} {relPath : Path}
    {s s1 : State} (h : RemoteStep cfg env localFiles relPath s s1) : Extends s s1 := by
  cases h
  · exact Extends_refl _
  all_goals exact extends_after _ _ _ _ _

theorem processLocal_extends (cfg : Config) (env : Env) (lfs : LocalFS) (relPath : Path)
    (localInfo : FileInfo) (s : State) :
    Extends s (processLocal cfg env lfs relPath localInfo s) :=
  LocalStep_extends (processLocal_step cfg env lfs relPath localInfo s)

theorem processRemote_extends (cfg : Config) (env : Env) (localFiles : Inventory)
    (relPath : Path) (s : State) :
    Extends s (processRemote cfg env localFiles relPath s) :=
  RemoteStep_extends (processRemote_step cfg env localFiles relPath s)

/-- The events of a loop are those of its iterations, each taken from the
state the iterations before it left. -/
theorem foldl_events {α : Type} (f : State → α → State)
    (hf : ∀ s a, Extends s (f s a)) :
    ∀ (l : List α) (s : State), Extends s (l.foldl f s) ∧
      ∀ e, e ∈ newEvents s (l.foldl f s) ↔
        ∃ pre a post, l = pre ++ a :: post ∧
          e ∈ newEvents (pre.foldl f s) (f (pre.foldl f s) a) := by
  intro l
  induction l with
  | nil =>
    intro s
    refine ⟨Extends_refl _, fun e => ?_⟩
    simp [newEvents_self]
  | cons x rest ih =>
    intro s
    obtain ⟨hext, hmem⟩ := ih (f s x)
    refine ⟨Extends_trans (hf s x) hext, fun e => ?_⟩
    rw [List.foldl_cons, newEvents_trans (hf s x) hext, List.mem_append, hmem]
    constructor
    · rintro (h | ⟨pre, a, post, hl, h⟩)
      · exact ⟨[], x, rest, rfl, h⟩
      · exact ⟨x :: pre, a, post, by rw [hl]; rfl, h⟩
    · rintro ⟨pre, a, post, hl, h⟩
      cases pre with
      | nil =>
        simp only [List.nil_append, List.cons.injEq] at hl
        obtain ⟨rfl, rfl⟩ := hl
        exact Or.inl h
      | cons y pre =>
        simp only [List.cons_append, List.cons.injEq] at hl
        obtain ⟨rfl, rfl⟩ := hl
        exact Or.inr ⟨pre, a, post, rfl, h⟩

theorem localPass_extends (cfg : Config) (env : Env) (lfs : LocalFS) (localFiles : Inventory)
    (s : State) : Extends s (localPass cfg env lfs localFiles s) :=
  (foldl_events (fun st (e : Path × FileInfo) => processLocal cfg env lfs e.1 e.2 st)
    (fun st e => processLocal_extends cfg env lfs e.1 e.2 st) localFiles s).1

theorem deletePass_extends (cfg : Config) (env : Env) (localFiles remoteFiles : Inventory)
    (s : State) : Extends s (deletePass cfg env localFiles remoteFiles s) :=
  (foldl_events (fun st (e : Path × FileInfo) => processRemote cfg env localFiles e.1 st)
    (fun st e => processRemote_extends cfg env localFiles e.1 st) remoteFiles s).1

theorem localPass_mem (cfg : Config) (env : Env) (lfs : LocalFS) (localFiles : Inventory)
    (s : State) (e : Event) :
    e ∈ localEvents cfg env lfs localFiles s ↔
      ∃ pre a post, localFiles = pre ++ a :: post ∧
        e ∈ newEvents (localPass cfg env lfs pre s)
          (processLocal cfg env lfs a.1 a.2 (localPass cfg env lfs pre s)) :=
  (foldl_events (fun st (e : Path × FileInfo) => processLocal cfg env lfs e.1 e.2 st)
    (fun st e => processLocal_extends cfg env lfs e.1 e.2 st) localFiles s).2 e

theorem deletePass_mem (cfg : Config) (env : Env) (localFiles remoteFiles : Inventory)
    (s : State) (e : Event) :
    e ∈ newEvents s (deletePass cfg env localFiles remoteFiles s) ↔
      ∃ pre a post, remoteFiles = pre ++ a :: post ∧
        e ∈ newEvents (deletePass cfg env localFiles pre s)
          (processRemote cfg env localFiles a.1 (deletePass cfg env localFiles pre s)) :=
  (foldl_events (fun st (e : Path × FileInfo) => processRemote cfg env localFiles e.1 st)
    (fun st e => processRemote_extends cfg env localFiles e.1 st) remoteFiles s).2 e

theorem cleanup_extends (cfg : Config) (env : Env) (s : State) :
    Extends s (cleanup cfg env s) := by
  obtain ⟨n, h, _⟩ := cleanup_guarded cfg env s
  exact ⟨n, h⟩

theorem runEvents_eq (cfg : Config) (env : Env) (lfs : LocalFS)
    (localFiles remoteFiles : Inventory) (s : State) :
    runEvents cfg env lfs localFiles remoteFiles s =
      localEvents cfg env lfs localFiles s ++
        (deleteEvents cfg env lfs localFiles remoteFiles s ++
          newEvents (deletePass cfg env localFiles remoteFiles
              (localPass cfg env lfs localFiles s))
            (applyPasses cfg env lfs localFiles remoteFiles s)) := by
  unfold runEvents localEvents deleteEvents applyPasses
  rw [newEvents_trans (localPass_extends cfg env lfs localFiles s)
      (Extends_trans (deletePass_extends cfg env localFiles remoteFiles _) (cleanup_extends cfg env _)),
    newEvents_trans (deletePass_extends cfg env localFiles remoteFiles _)
      (cleanup_extends cfg env _)]


/-! ## Which paths the passes act on -/

theorem hasKey_iff (m : Inventory) (k : Path) : hasKey m k = true ↔ k ∈ keys m := by
  simp [hasKey, keys]

theorem hasKey_false_iff (m : Inventory) (k : Path) : hasKey m k = false ↔ k ∉ keys m := by
  rw [← hasKey_iff, Bool.not_eq_true]

theorem cleanup_events (cfg : Config) (env : Env) (s : State) :
    ∀ e ∈ newEvents s (cleanup cfg env s),
      e.isRemove = false ∧ e.isCopy = false ∧ e.isBackup = false := by
  haveI : Nonempty RemoteFS := ⟨[]⟩
  unfold cleanup
  repeat' split
  all_goals
    first
      | (rw [newEvents_self]; simp; done)
      | (simp only [State.step, newEvents, List.drop_left]
         simp [Event.isRemove, Event.isCopy, Event.isBackup])

theorem LocalStep_no_remove {cfg : Config} {env : Env} {lfs : LocalFS} {relPath : Path}
    {localInfo : FileInfo} {s s1 : State} (h : LocalStep cfg env lfs relPath localInfo s s1) :
    ∀ e ∈ newEvents s s1, e.isRemove = false := by
  haveI : Nonempty RemoteFS := ⟨[]⟩
  cases h <;> rw [newEvents_after] <;> simp [Event.isRemove]

theorem LocalStep_copy_target {cfg : Config} {env : Env} {lfs : LocalFS} {relPath : Path}
    {localInfo : FileInfo} {s s1 : State} (h : LocalStep cfg env lfs relPath localInfo s s1)
    {site : Site} {lp rp : Path} {before : RemoteFS} {ok : Bool}
    (he : Event.copyFile site lp rp before ok ∈ newEvents s s1) :
    rp = cfg.TargetDir ++ relPath ∧ lp = cfg.SourceDir ++ relPath := by
  haveI : Nonempty RemoteFS := ⟨[]⟩
  cases h <;> rw [newEvents_after] at he <;> simp at he <;> simp [he]

theorem RemoteStep_no_copy {cfg : Config} {env : Env} {localFiles : Inventory} {relPath : Path}
    {s s1 : State} (h : RemoteStep cfg env localFiles relPath s s1) :
    ∀ e ∈ newEvents s s1, e.isCopy = false := by
  haveI : Nonempty RemoteFS := ⟨[]⟩
  cases h
  · rw [newEvents_self]; simp
  all_goals rw [newEvents_after]; simp [Event.isCopy]

theorem RemoteStep_backup_mem {cfg : Config} {env : Env} {localFiles : Inventory}
    {relPath : Path} {s s1 : State} (h : RemoteStep cfg env localFiles relPath s s1)
    {rp bp : Path} {before : RemoteFS} {ok : Bool}
    (he : Event.createBackup rp bp before ok ∈ newEvents s s1) :
    relPath ∉ keys localFiles ∧ rp = cfg.TargetDir ++ relPath ∧
      bp = backupDir cfg env ++ relPath ∧
      (ok = true → ∃ b o, Event.remove rp b o ∈ newEvents s s1) := by
  haveI : Nonempty RemoteFS := ⟨[]⟩
  cases h with
  | kept hkey => rw [newEvents_self] at he; simp at he
  | backupFailed e w1 hkey hb =>
    rw [newEvents_after] at he ⊢
    simp at he
    obtain ⟨rfl, rfl, rfl, rfl⟩ := he
    exact ⟨(hasKey_false_iff _ _).1 hkey, rfl, rfl, fun h => by cases h⟩
  | removeFailed e w1 w2 hkey hb hr =>
    rw [newEvents_after] at he ⊢
    simp at he
    obtain ⟨rfl, rfl, rfl, rfl⟩ := he
    exact ⟨(hasKey_false_iff _ _).1 hkey, rfl, rfl, fun _ => ⟨w1.fs, false, by simp⟩⟩
  | deleted w1 w2 hkey hb hr =>
    rw [newEvents_after] at he ⊢
    simp at he
    obtain ⟨rfl, rfl, rfl, rfl⟩ := he
    exact ⟨(hasKey_false_iff _ _).1 hkey, rfl, rfl, fun _ => ⟨w1.fs, true, by simp⟩⟩

theorem RemoteStep_backup_issued {cfg : Config} {env : Env} {localFiles : Inventory}
    {relPath : Path} {s s1 : State} (h : RemoteStep cfg env localFiles relPath s s1)
    (hkey : relPath ∉ keys localFiles) :
    ∃ ok, Event.createBackup (cfg.TargetDir ++ relPath) (backupDir cfg env ++ relPath)
      s.w.fs ok ∈ newEvents s s1 := by
  haveI : Nonempty RemoteFS := ⟨[]⟩
  cases h with
  | kept hk => exact absurd ((hasKey_iff _ _).1 hk) hkey
  | backupFailed e w1 _ hb => exact ⟨false, by rw [newEvents_after]; simp⟩
  | removeFailed e w1 w2 _ hb hr => exact ⟨true, by rw [newEvents_after]; simp⟩
  | deleted w1 w2 _ hb hr => exact ⟨true, by rw [newEvents_after]; simp⟩

theorem RemoteStep_remove_mem {cfg : Config} {env : Env} {localFiles : Inventory}
    {relPath : Path} {s s1 : State} (h : RemoteStep cfg env localFiles relPath s s1)
    {p : Path} {before : RemoteFS} {ok : Bool}
    (he : Event.remove p before ok ∈ newEvents s s1) :
    relPath ∉ keys localFiles ∧ p = cfg.TargetDir ++ relPath ∧
      Event.createBackup p (backupDir cfg env ++ relPath) s.w.fs true ∈ newEvents s s1 := by
  haveI : Nonempty RemoteFS := ⟨[]⟩
  cases h with
  | kept hkey => rw [newEvents_self] at he; simp at he
  | backupFailed e w1 hkey hb => rw [newEvents_after] at he; simp at he
  | removeFailed e w1 w2 hkey hb hr =>
    rw [newEvents_after] at he ⊢
    simp at he
    obtain ⟨rfl, rfl, rfl⟩ := he
    exact ⟨(hasKey_false_iff _ _).1 hkey, rfl, by simp⟩
  | deleted w1 w2 hkey hb hr =>
    rw [newEvents_after] at he ⊢
    simp at he
    obtain ⟨rfl, rfl, rfl⟩ := he
    exact ⟨(hasKey_false_iff _ _).1 hkey, rfl, by simp⟩


theorem mem_keys_split {m : Inventory} {k : Path} (h : k ∈ keys m) :
    ∃ pre a post, m = pre ++ a :: post ∧ a.1 = k := by
  unfold keys at h
  rw [List.mem_map] at h
  obtain ⟨a, ha, rfl⟩ := h
  obtain ⟨pre, post, rfl⟩ := List.append_of_mem ha
  exact ⟨pre, a, post, rfl, rfl⟩

theorem fst_mem_keys {m pre post : Inventory} {a : Path × FileInfo}
    (h : m = pre ++ a :: post) : a.1 ∈ keys m := by
  subst h
  simp [keys]

theorem deleteEvents_mem (cfg : Config) (env : Env) (lfs : LocalFS)
    (localFiles remoteFiles : Inventory) (s : State) (e : Event) :
    e ∈ deleteEvents cfg env lfs localFiles remoteFiles s ↔
      ∃ pre a post, remoteFiles = pre ++ a :: post ∧
        e ∈ newEvents (deletePass cfg env localFiles pre (localPass cfg env lfs localFiles s))
          (processRemote cfg env localFiles a.1
            (deletePass cfg env localFiles pre (localPass cfg env lfs localFiles s))) :=
  deletePass_mem cfg env localFiles remoteFiles _ e

theorem runEvents_remove (cfg : Config) (env : Env) (lfs : LocalFS)
    (localFiles remoteFiles : Inventory) (s : State) {p : Path} {before : RemoteFS} {ok : Bool}
    (h : Event.remove p before ok ∈ runEvents cfg env lfs localFiles remoteFiles s) :
    Event.remove p before ok ∈ deleteEvents cfg env lfs localFiles remoteFiles s := by
  rw [runEvents_eq, List.mem_append, List.mem_append] at h
  rcases h with h | h | h
  · rw [localPass_mem] at h
    obtain ⟨pre, a, post, _, h⟩ := h
    have := LocalStep_no_remove (processLocal_step cfg env lfs a.1 a.2 _) _ h
    simp [Event.isRemove] at this
  · exact h
  · have := (cleanup_events cfg env _ _ h).1
    simp [Event.isRemove] at this

theorem runEvents_copy (cfg : Config) (env : Env) (lfs : LocalFS)
    (localFiles remoteFiles : Inventory) (s : State) {site : Site} {lp rp : Path}
    {before : RemoteFS} {ok : Bool}
    (h : Event.copyFile site lp rp before ok ∈ runEvents cfg env lfs localFiles remoteFiles s) :
    Event.copyFile site lp rp before ok ∈ localEvents cfg env lfs localFiles s := by
  rw [runEvents_eq, List.mem_append, List.mem_append] at h
  rcases h with h | h | h
  · exact h
  · rw [deleteEvents_mem] at h
    obtain ⟨pre, a, post, _, h⟩ := h
    have := RemoteStep_no_copy (processRemote_step cfg env localFiles a.1 _) _ h
    simp [Event.isCopy] at this
  · have := (cleanup_events cfg env _ _ h).2.1
    simp [Event.isCopy] at this

/-- C5: the second pass calls `createBackup` on exactly the keys of the remote
inventory that are not keys of the local inventory, and `Remove` follows
whenever that backup succeeded; a `Remove` is only ever issued for such a
path, after its successful backup, so no key of the local inventory is ever
removed; `copyFile` is only ever called for keys of the local inventory, so
no remote-only path is copied. -/
theorem delete_pass_exact (cfg : Config) (env : Env) (lfs : LocalFS)
    (localFiles remoteFiles : Inventory) (s : State) :
    (∀ relPath, (∃ before ok, Event.createBackup (cfg.TargetDir ++ relPath)
          (backupDir cfg env ++ relPath) before ok ∈
            deleteEvents cfg env lfs localFiles remoteFiles s) ↔
        (relPath ∈ keys remoteFiles ∧ relPath ∉ keys localFiles)) ∧
    (∀ relPath before, Event.createBackup (cfg.TargetDir ++ relPath)
          (backupDir cfg env ++ relPath) before true ∈
            deleteEvents cfg env lfs localFiles remoteFiles s →
        ∃ before1 ok, Event.remove (cfg.TargetDir ++ relPath) before1 ok ∈
          deleteEvents cfg env lfs localFiles remoteFiles s) ∧
    (∀ p before ok, Event.remove p before ok ∈
          runEvents cfg env lfs localFiles remoteFiles s →
        ∃ relPath before0, p = cfg.TargetDir ++ relPath ∧ relPath ∈ keys remoteFiles ∧
          relPath ∉ keys localFiles ∧
          Event.createBackup p (backupDir cfg env ++ relPath) before0 true ∈
            deleteEvents cfg env lfs localFiles remoteFiles s) ∧
    (∀ relPath ∈ keys localFiles, ∀ before ok,
        Event.remove (cfg.TargetDir ++ relPath) before ok ∉
          runEvents cfg env lfs localFiles remoteFiles s) ∧
    (∀ site lp rp before ok, Event.copyFile site lp rp before ok ∈
          runEvents cfg env lfs localFiles remoteFiles s →
        ∃ relPath ∈ keys localFiles, rp = cfg.TargetDir ++ relPath) ∧
    (∀ relPath, relPath ∉ keys localFiles → ∀ site lp before ok,
        Event.copyFile site lp (cfg.TargetDir ++ relPath) before ok ∉
          runEvents cfg env lfs localFiles remoteFiles s) := by
  have hremove : ∀ p before ok, Event.remove p before ok ∈
        runEvents cfg env lfs localFiles remoteFiles s →
      ∃ relPath before0, p = cfg.TargetDir ++ relPath ∧ relPath ∈ keys remoteFiles ∧
        relPath ∉ keys localFiles ∧
        Event.createBackup p (backupDir cfg env ++ relPath) before0 true ∈
          deleteEvents cfg env lfs localFiles remoteFiles s := by
    intro p before ok h
    have h2 := runEvents_remove cfg env lfs localFiles remoteFiles s h
    rw [deleteEvents_mem] at h2
    obtain ⟨pre, a, post, hl, h2⟩ := h2
    obtain ⟨hk, hp, hb⟩ := RemoteStep_remove_mem (processRemote_step cfg env localFiles a.1 _) h2
    exact ⟨a.1, _, hp, fst_mem_keys hl, hk,
      (deleteEvents_mem _ _ _ _ _ _ _).2 ⟨pre, a, post, hl, hb⟩⟩
  have hcopy : ∀ site lp rp before ok, Event.copyFile site lp rp before ok ∈
        runEvents cfg env lfs localFiles remoteFiles s →
      ∃ relPath ∈ keys localFiles, rp = cfg.TargetDir ++ relPath := by
    intro site lp rp before ok h
    have h2 := runEvents_copy cfg env lfs localFiles remoteFiles s h
    rw [localPass_mem] at h2
    obtain ⟨pre, a, post, hl, h2⟩ := h2
    exact ⟨a.1, fst_mem_keys hl, (LocalStep_copy_target (processLocal_step cfg env lfs a.1 a.2 _) h2).1⟩
  refine ⟨?_, ?_, hremove, ?_, hcopy, ?_⟩
  · intro relPath
    constructor
    · rintro ⟨before, ok, h⟩
      rw [deleteEvents_mem] at h
      obtain ⟨pre, a, post, hl, h⟩ := h
      obtain ⟨hk, hp, -, -⟩ := RemoteStep_backup_mem (processRemote_step cfg env localFiles a.1 _) h
      have : relPath = a.1 := List.append_cancel_left hp
      subst this
      exact ⟨fst_mem_keys hl, hk⟩
    · rintro ⟨hR, hL⟩
      obtain ⟨pre, a, post, hl, rfl⟩ := mem_keys_split hR
      obtain ⟨ok, h⟩ := RemoteStep_backup_issued (processRemote_step cfg env localFiles a.1
        (deletePass cfg env localFiles pre (localPass cfg env lfs localFiles s))) hL
      exact ⟨_, ok, (deleteEvents_mem _ _ _ _ _ _ _).2 ⟨pre, a, post, hl, h⟩⟩
  · intro relPath before h
    rw [deleteEvents_mem] at h
    obtain ⟨pre, a, post, hl, h⟩ := h
    obtain ⟨-, -, -, hr⟩ := RemoteStep_backup_mem (processRemote_step cfg env localFiles a.1 _) h
    obtain ⟨b, o, hr⟩ := hr rfl
    exact ⟨b, o, (deleteEvents_mem _ _ _ _ _ _ _).2 ⟨pre, a, post, hl, hr⟩⟩
  · intro relPath hk before ok h
    obtain ⟨r, _, hp, _, hnot, _⟩ := hremove _ _ _ h
    have : relPath = r := List.append_cancel_left hp
    subst this
    exact hnot hk
  · intro relPath hk site lp before ok h
    obtain ⟨r, hr, hp⟩ := hcopy _ _ _ _ _ h
    have : relPath = r := List.append_cancel_left hp
    subst this
    exact hk hr


/-! ## The progress counter -/

theorem totalOps_eq_length (localFiles remoteFiles : Inventory) :
    totalOps localFiles remoteFiles = (remoteFiles.length : Int) := by
  unfold totalOps
  omega

theorem LocalStep_bar {cfg : Config} {env : Env} {lfs : LocalFS} {relPath : Path}
    {localInfo : FileInfo} {s s1 : State} (h : LocalStep cfg env lfs relPath localInfo s s1) :
    s1.bar = s.bar + 1 := by
  cases h <;> rfl

theorem RemoteStep_bar {cfg : Config} {env : Env} {localFiles : Inventory} {relPath : Path}
    {s s1 : State} (h : RemoteStep cfg env localFiles relPath s s1) :
    s1.bar = s.bar + if hasKey localFiles relPath then 0 else 1 := by
  cases h with
  | kept hkey => simp [hkey]
  | backupFailed e w1 hkey hb => simp [hkey, State.after]
  | removeFailed e w1 w2 hkey hb hr => simp [hkey, State.after]
  | deleted w1 w2 hkey hb hr => simp [hkey, State.after]

theorem localPass_bar (cfg : Config) (env : Env) (lfs : LocalFS) (localFiles : Inventory) :
    ∀ s : State, (localPass cfg env lfs localFiles s).bar = s.bar + localFiles.length := by
  induction localFiles with
  | nil => intro s; rfl
  | cons a rest ih =>
    intro s
    unfold localPass at ih ⊢
    rw [List.foldl_cons, ih, LocalStep_bar (processLocal_step cfg env lfs a.1 a.2 s), List.length_cons]
    omega

theorem deletePass_bar (cfg : Config) (env : Env) (localFiles remoteFiles : Inventory) :
    ∀ s : State, (deletePass cfg env localFiles remoteFiles s).bar =
      s.bar + (remoteOnly localFiles remoteFiles).length := by
  induction remoteFiles with
  | nil => intro s; rfl
  | cons a rest ih =>
    intro s
    unfold deletePass at ih ⊢
    rw [List.foldl_cons, ih, RemoteStep_bar (processRemote_step cfg env localFiles a.1 s)]
    unfold remoteOnly keys
    by_cases hk : hasKey localFiles a.1 = true
    · simp [hk]
    · simp [hk]
      omega

theorem cleanup_bar (cfg : Config) (env : Env) (s : State) :
    (cleanup cfg env s).bar = s.bar := by
  unfold cleanup
  repeat' split
  all_goals rfl

theorem applyPasses_bar (cfg : Config) (env : Env) (lfs : LocalFS)
    (localFiles remoteFiles : Inventory) (s : State) :
    (applyPasses cfg env lfs localFiles remoteFiles s).bar =
      s.bar + localFiles.length + (remoteOnly localFiles remoteFiles).length := by
  unfold applyPasses
  rw [cleanup_bar, deletePass_bar, localPass_bar]

/-- C8, at a failing input: local inventory `{a.txt}`, remote inventory
`{b.txt}`.  The two passes advance the counter twice, once per local path and
once per remote-only path, but the total handed to the progress bar is 1. -/
theorem progress_total_mismatch :
    runAB.total = some 1 ∧ runAB.final.bar = 2 ∧
      invA.length + (remoteOnly invA invB).length = 2 ∧
      runAB = Outcome.mk (applyPasses cfg0 env0 lfsA invA invB
          (initState (World.mk fsB 1) [Event.log Msg.start []])).finish
        (some (totalOps invA invB)) := by
  decide


/-! ## The retouch branch -/

theorem sftpChtimes_cases (env : Env) (p : Path) (a m : Time) (w : World) :
    (∃ e, sftpChtimes env p a m w = (.error e, w.next)) ∨
    (∃ n, get w.fs p = some n ∧
      sftpChtimes env p a m w =
        (.ok (), World.mk (put w.fs p { n with atime := sftpTime a, mtime := sftpTime m })
          (w.tick + 1))) := by
  unfold sftpChtimes
  split_ifs
  · exact Or.inl ⟨_, rfl⟩
  · split
    · exact Or.inl ⟨_, rfl⟩
    · rename_i n hn
      exact Or.inr ⟨n, hn, rfl⟩

theorem fs_of_stat {env : Env} {p : Path} {w w1 : World} {r : Except Err FileInfo}
    (h : sftpStat env p w = (r, w1)) : w1.fs = w.fs := by
  have := sftpStat_fs env p w
  rw [h] at this
  exact this

theorem calculateFileHash_fs (env : Env) (lfs : LocalFS) (p : Path) (w : World) :
    (calculateFileHash env lfs p w).2.fs = w.fs := by
  unfold calculateFileHash andThen
  split
  · rename_i e w1 h
    have := osOpen_fs env lfs p w
    rw [h] at this
    exact this
  · rename_i f w1 h
    have := osOpen_fs env lfs p w
    rw [h] at this
    rw [osHashRead_fs, this]

theorem calculateRemoteFileHash_fs (env : Env) (p : Path) (w : World) :
    (calculateRemoteFileHash env p w).2.fs = w.fs := by
  unfold calculateRemoteFileHash andThen
  split
  · rename_i e w1 h
    have := sftpOpen_fs env p w
    rw [h] at this
    exact this
  · rename_i f w1 h
    have := sftpOpen_fs env p w
    rw [h] at this
    rw [sftpHashRead_fs, this]

theorem fs_of_localHash {env : Env} {lfs : LocalFS} {p : Path} {w w1 : World}
    {r : Except Err Digest} (h : calculateFileHash env lfs p w = (r, w1)) : w1.fs = w.fs := by
  have := calculateFileHash_fs env lfs p w
  rw [h] at this
  exact this

theorem fs_of_remoteHash {env : Env} {p : Path} {w w1 : World}
    {r : Except Err Digest} (h : calculateRemoteFileHash env p w = (r, w1)) : w1.fs = w.fs := by
  have := calculateRemoteFileHash_fs env p w
  rw [h] at this
  exact this

theorem sftpTime_idem (t : Int) : sftpTime (sftpTime t) = sftpTime t := by
  have key : ∀ k : Int, 0 ≤ k → k < 4294967296 →
      k * 1000000000 / 1000000000 % 4294967296 * 1000000000 = k * 1000000000 := by
    intro k h0 h1
    omega
  have h : (2 : Int) ^ 32 = 4294967296 := by norm_num
  unfold sftpTime second
  rw [h]
  exact key _ (Int.emod_nonneg _ (by norm_num)) (Int.emod_lt_of_pos _ (by norm_num))

theorem sftpTime_near (t : Int) (h0 : 0 ≤ t) (h1 : t < 2 ^ 32 * second) :
    0 ≤ t - sftpTime t ∧ t - sftpTime t < second ∧ timeEqual t (sftpTime t) = true := by
  have hs : sftpTime t = t / 1000000000 * 1000000000 := by
    unfold sftpTime second
    unfold second at h1
    rw [Int.emod_eq_of_lt (by omega) (by omega)]
  have hlo : 0 ≤ t - sftpTime t := by rw [hs]; omega
  have hhi : t - sftpTime t < second := by rw [hs]; unfold second; omega
  refine ⟨hlo, hhi, ?_⟩
  rw [timeEqual_iff_abs, abs_le]
  unfold second at hhi ⊢
  constructor <;> linarith

/-- C10, as amended: a path that reaches the RetouchTimestamp branch (time or
size differ, both fingerprints obtained and equal) gets one remote mutation,
`Chtimes(remotePath, now, local modification time)`.  Kind, content and
permission bits of every remote node stay as they were, so nothing is written
under the backup directory, and `backupCreated` is not set.  When the request
succeeds the remote modification time afterwards, also as `Stat` reports it,
is the local one as the client sends it, `uint32` whole seconds: rounded down
to the second, modulo 2^32 s; for a local time between 1970 and 2106 it is
less than a second before the local one, so `timeEqual` holds of the two.  When the request fails
the remote filesystem is unchanged. -/
theorem retouch_only_chtimes (cfg : Config) (env : Env) (lfs : LocalFS) (relPath : Path)
    (localInfo remoteInfo : FileInfo) (s : State) (w1 w2 w3 : World) (hash : Digest)
    (hstat : sftpStat env (cfg.TargetDir ++ relPath) s.w = (.ok remoteInfo, w1))
    (hdiff : ¬ (timeEqual localInfo.modTime remoteInfo.modTime = true ∧
      sizeEqual localInfo remoteInfo = true))
    (hlocal : calculateFileHash env lfs (cfg.SourceDir ++ relPath) w1 = (.ok hash, w2))
    (hremote : calculateRemoteFileHash env (cfg.TargetDir ++ relPath) w2 = (.ok hash, w3)) :
    ∃ ok,
      newEvents s (processLocal cfg env lfs relPath localInfo s) =
        [Event.stat (cfg.TargetDir ++ relPath) true,
          Event.hashLocal (cfg.SourceDir ++ relPath) true,
          Event.hashRemote (cfg.TargetDir ++ relPath) true,
          Event.log Msg.hashesMatch relPath,
          Event.chtimes (cfg.TargetDir ++ relPath) (env.clock w3.tick) localInfo.modTime ok] ++
        (if ok then [] else [Event.log Msg.chtimesError relPath]) ++ [Event.barAdd] ∧
      (∀ q, (get (processLocal cfg env lfs relPath localInfo s).w.fs q).map Node.content =
        (get s.w.fs q).map Node.content) ∧
      (∀ q, q ≠ cfg.TargetDir ++ relPath →
        get (processLocal cfg env lfs relPath localInfo s).w.fs q = get s.w.fs q) ∧
      (processLocal cfg env lfs relPath localInfo s).backupCreated = s.backupCreated ∧
      (ok = true → ∃ n, get (processLocal cfg env lfs relPath localInfo s).w.fs
          (cfg.TargetDir ++ relPath) = some n ∧
        n.mtime = sftpTime localInfo.modTime ∧ n.atime = sftpTime (env.clock w3.tick) ∧
        (infoOf (cfg.TargetDir ++ relPath) n).modTime = sftpTime localInfo.modTime ∧
        (0 ≤ localInfo.modTime → localInfo.modTime < 2 ^ 32 * second →
          0 ≤ localInfo.modTime - n.mtime ∧ localInfo.modTime - n.mtime < second ∧
            timeEqual localInfo.modTime n.mtime = true)) ∧
      (ok = false → (processLocal cfg env lfs relPath localInfo s).w.fs = s.w.fs) := by
  have hcond : (!timeEqual localInfo.modTime remoteInfo.modTime ||
      !sizeEqual localInfo remoteInfo) = true := by
    cases ht : timeEqual localInfo.modTime remoteInfo.modTime <;>
      cases hs : sizeEqual localInfo remoteInfo <;> simp_all
  have hfs : w3.fs = s.w.fs := by
    rw [fs_of_remoteHash hremote, fs_of_localHash hlocal, fs_of_stat hstat]
  obtain ⟨r, w4, ht⟩ : ∃ r w4, sftpChtimes env (cfg.TargetDir ++ relPath) (env.clock w3.tick)
      localInfo.modTime w3 = (r, w4) := ⟨_, _, rfl⟩
  have hproc : processLocal cfg env lfs relPath localInfo s =
      s.after w4 ([Event.stat (cfg.TargetDir ++ relPath) true,
          Event.hashLocal (cfg.SourceDir ++ relPath) true,
          Event.hashRemote (cfg.TargetDir ++ relPath) true,
          Event.log Msg.hashesMatch relPath,
          Event.chtimes (cfg.TargetDir ++ relPath) (env.clock w3.tick) localInfo.modTime
            (isOk r)] ++
        (if isOk r then [] else [Event.log Msg.chtimesError relPath]) ++ [Event.barAdd])
        false 1 := by
    cases r <;>
      simp [processLocal, hstat, hcond, hlocal, hremote, ht, State.after, State.step,
        State.barAdd, isOk]
  refine ⟨isOk r, ?_⟩
  rw [hproc, newEvents_after]
  have hbc : (s.after w4 ([Event.stat (cfg.TargetDir ++ relPath) true,
          Event.hashLocal (cfg.SourceDir ++ relPath) true,
          Event.hashRemote (cfg.TargetDir ++ relPath) true,
          Event.log Msg.hashesMatch relPath,
          Event.chtimes (cfg.TargetDir ++ relPath) (env.clock w3.tick) localInfo.modTime
            (isOk r)] ++
        (if isOk r then [] else [Event.log Msg.chtimesError relPath]) ++ [Event.barAdd])
        false 1).backupCreated = s.backupCreated := by
    simp [State.after]
  refine ⟨rfl, ?_, ?_, hbc, ?_, ?_⟩
  all_goals
    show _
    rcases sftpChtimes_cases env (cfg.TargetDir ++ relPath) (env.clock w3.tick)
      localInfo.modTime w3 with ⟨e, ht2⟩ | ⟨n, hn, ht2⟩
    all_goals
      rw [ht] at ht2
      simp only [Prod.mk.injEq] at ht2
      obtain ⟨rfl, rfl⟩ := ht2
  · intro q
    show (get w3.fs q).map _ = _
    rw [hfs]
  · intro q
    show (get (put w3.fs _ _) q).map _ = _
    rw [hfs] at hn ⊢
    rw [get_put]
    split_ifs with h
    · subst h; rw [hn]; rfl
    · rfl
  · intro q _
    show get w3.fs q = _
    rw [hfs]
  · intro q hq
    show get (put w3.fs _ _) q = _
    rw [get_put, if_neg hq, hfs]
  · intro h
    exact absurd h (by simp [isOk])
  · intro _
    refine ⟨Node.mk n.isDir n.data n.mode (sftpTime (env.clock w3.tick))
      (sftpTime localInfo.modTime), ?_, ?_⟩
    · show get (put w3.fs _ _) _ = _
      rw [get_put, if_pos rfl]
    · exact ⟨rfl, rfl, sftpTime_idem localInfo.modTime, sftpTime_near localInfo.modTime⟩
  · intro _
    exact hfs
  · intro h
    exact absurd h (by simp [isOk])


/-- C10, counterexample: `srv/b.txt` has the content of `home/b.txt` and a
modification time 5 s later, so the path reaches the RetouchTimestamp branch;
the `Chtimes` request is refused, the error is logged, and the remote
modification time is still not the local one afterwards. -/
theorem retouch_chtimes_refused :
    actionsOf (newEvents stC (processLocal cfg0 envNoChtimes lfsC ["b.txt"] infoC stC)) =
      [Action.RetouchTimestamp] ∧
    Event.chtimes ["srv", "b.txt"] (envNoChtimes.clock 5) infoC.modTime false ∈
      newEvents stC (processLocal cfg0 envNoChtimes lfsC ["b.txt"] infoC stC) ∧
    (get (processLocal cfg0 envNoChtimes lfsC ["b.txt"] infoC stC).w.fs ["srv", "b.txt"]).map
      Node.mtime = some (5 * second) ∧
    infoC.modTime = 0 := by
  decide

set_option maxRecDepth 100000 in
/-- The amended C10 at `home/b.txt`, last modified 1.5 s after the epoch, and
`srv/b.txt`, with the same content and modified at 5 s: after the `Chtimes`
the remote modification time is 1 s. -/
theorem retouch_only_chtimes_witness :
    ¬ (timeEqual infoD.modTime
        (infoOf ["srv", "b.txt"] (mkFile [9] 0o600 (5 * second))).modTime = true ∧
      sizeEqual infoD (infoOf ["srv", "b.txt"] (mkFile [9] 0o600 (5 * second))) = true) ∧
    infoD.modTime = 1500000000 ∧
    (get (processLocal cfg0 env0 lfsC ["b.txt"] infoD stC).w.fs ["srv", "b.txt"]).map
      Node.mtime = some (1 * second) ∧
    ∃ ok,
      newEvents stC (processLocal cfg0 env0 lfsC ["b.txt"] infoD stC) =
        [Event.stat (cfg0.TargetDir ++ ["b.txt"]) true,
          Event.hashLocal (cfg0.SourceDir ++ ["b.txt"]) true,
          Event.hashRemote (cfg0.TargetDir ++ ["b.txt"]) true,
          Event.log Msg.hashesMatch ["b.txt"],
          Event.chtimes (cfg0.TargetDir ++ ["b.txt"]) (env0.clock (World.mk fsC 5).tick)
            infoD.modTime ok] ++
        (if ok then [] else [Event.log Msg.chtimesError ["b.txt"]]) ++ [Event.barAdd] ∧
      (∀ q, (get (processLocal cfg0 env0 lfsC ["b.txt"] infoD stC).w.fs q).map Node.content =
        (get stC.w.fs q).map Node.content) ∧
      (∀ q, q ≠ cfg0.TargetDir ++ ["b.txt"] →
        get (processLocal cfg0 env0 lfsC ["b.txt"] infoD stC).w.fs q = get stC.w.fs q) ∧
      (processLocal cfg0 env0 lfsC ["b.txt"] infoD stC).backupCreated = stC.backupCreated ∧
      (ok = true → ∃ n, get (processLocal cfg0 env0 lfsC ["b.txt"] infoD stC).w.fs
          (cfg0.TargetDir ++ ["b.txt"]) = some n ∧
        n.mtime = sftpTime infoD.modTime ∧
        n.atime = sftpTime (env0.clock (World.mk fsC 5).tick) ∧
        (infoOf (cfg0.TargetDir ++ ["b.txt"]) n).modTime = sftpTime infoD.modTime ∧
        (0 ≤ infoD.modTime → infoD.modTime < 2 ^ 32 * second →
          0 ≤ infoD.modTime - n.mtime ∧ infoD.modTime - n.mtime < second ∧
            timeEqual infoD.modTime n.mtime = true)) ∧
      (ok = false → (processLocal cfg0 env0 lfsC ["b.txt"] infoD stC).w.fs = stC.w.fs) :=
  ⟨by decide, by decide, by decide,
    retouch_only_chtimes cfg0 env0 lfsC ["b.txt"] infoD
      (infoOf ["srv", "b.txt"] (mkFile [9] 0o600 (5 * second))) stC
      (World.mk fsC 1) (World.mk fsC 3) (World.mk fsC 5) [9]
      (by rfl) (by decide) (by rfl) (by rfl)⟩

/-! ## The remote walk -/

theorem keys_mapSet (m : Inventory) (k : Path) (v : FileInfo) (q : Path) (h : q ∈ keys m) :
    q ∈ keys (mapSet m k v) := by
  unfold keys mapSet at *
  rw [List.mem_map] at h ⊢
  obtain ⟨a, ha, rfl⟩ := h
  by_cases hk : a.1 = k
  · exact ⟨(k, v), List.mem_cons_self _ _, hk.symm⟩
  · exact ⟨a, List.mem_cons_of_mem _ (List.mem_filter.2 ⟨ha, by simpa using hk⟩), rfl⟩

theorem walkEntries_keys (walk : Path → Inventory → World → Except Err Unit × Inventory × World)
    (cfg : Config) (dir : Path)
    (hwalk : ∀ d inv w q, q ∈ keys inv → q ∈ keys (walk d inv w).2.1) :
    ∀ (entries : List FileInfo) (inv : Inventory) (w : World) (q : Path),
      q ∈ keys inv → q ∈ keys (walkEntries walk cfg dir entries inv w).2.1 := by
  intro entries
  induction entries with
  | nil => intro inv w q h; exact h
  | cons entry rest ih =>
    intro inv w q h
    unfold walkEntries
    simp only []
    split_ifs with hd
    · have h1 := hwalk (dir ++ [entry.name]) inv w q h
      split
      · rename_i e inv1 w1 heq
        rw [heq] at h1
        exact h1
      · rename_i u inv1 w1 heq
        rw [heq] at h1
        exact ih inv1 w1 q h1
    · split
      · exact h
      · exact ih _ w q (keys_mapSet inv _ entry q h)

theorem walkRemote_keys (cfg : Config) (env : Env) :
    ∀ (fuel : Nat) (dir : Path) (inv : Inventory) (w : World) (q : Path),
      q ∈ keys inv → q ∈ keys (walkRemote cfg env fuel dir inv w).2.1 := by
  intro fuel
  induction fuel with
  | zero => intro dir inv w q h; exact h
  | succ n ih =>
    intro dir inv w q h
    unfold walkRemote
    split
    · exact h
    · exact walkEntries_keys _ cfg dir ih _ inv _ q h

theorem walkEntries_abort (walk : Path → Inventory → World → Except Err Unit × Inventory × World)
    (cfg : Config) (dir : Path) (sub : FileInfo) (post : List FileInfo)
    (hsub : sub.isDir = true) :
    ∀ (pre : List FileInfo) (inv inv1 inv2 : Inventory) (w w1 w2 : World) (e : Err),
      walkEntries walk cfg dir pre inv w = (.ok (), inv1, w1) →
      walk (dir ++ [sub.name]) inv1 w1 = (.error e, inv2, w2) →
      walkEntries walk cfg dir (pre ++ sub :: post) inv w = (.error e, inv2, w2) := by
  intro pre
  induction pre with
  | nil =>
    intro inv inv1 inv2 w w1 w2 e hpre hfail
    simp only [walkEntries, Prod.mk.injEq, true_and] at hpre
    obtain ⟨rfl, rfl⟩ := hpre
    simp only [List.nil_append, walkEntries, hsub, if_true, hfail]
  | cons x pre ih =>
    intro inv inv1 inv2 w w1 w2 e hpre hfail
    rw [List.cons_append]
    unfold walkEntries at hpre ⊢
    simp only [] at hpre ⊢
    split_ifs at hpre ⊢ with hd
    · split at hpre
      · simp at hpre
      · exact ih _ _ _ _ _ _ _ hpre hfail
    · split at hpre
      · simp at hpre
      · exact ih _ _ _ _ _ _ _ hpre hfail

/-- C9, as amended: a listing that fails ends the whole walk.  (1) A failing
`ReadDir` returns its error with the inventory as it was.  (2) When the walk
of a subdirectory returns an error, the loop over the entries of its parent
returns that error at once, with the inventory as the subdirectory's walk
left it: the entries listed after the subdirectory are not visited, and so on
up to the root.  (3) Whatever was recorded before stays recorded.  (4) `main`
logs the error and runs both passes and the cleanup on that inventory. -/
theorem walk_failure_ends_walk (cfg : Config) (env : Env) :
    (∀ fuel dir inv w e w1, sftpReadDir env dir w = (.error e, w1) →
      walkRemote cfg env (fuel + 1) dir inv w = (.error e, inv, w1)) ∧
    (∀ fuel dir (pre post : List FileInfo) (sub : FileInfo) inv inv1 inv2 w w1 w2 e,
      sub.isDir = true →
      walkEntries (walkRemote cfg env fuel) cfg dir pre inv w = (.ok (), inv1, w1) →
      walkRemote cfg env fuel (dir ++ [sub.name]) inv1 w1 = (.error e, inv2, w2) →
      walkEntries (walkRemote cfg env fuel) cfg dir (pre ++ sub :: post) inv w =
        (.error e, inv2, w2)) ∧
    (∀ fuel dir inv w q, q ∈ keys inv → q ∈ keys (walkRemote cfg env fuel dir inv w).2.1) ∧
    (∀ lfs localFiles fs0 e remoteFiles w1,
      walkRemote cfg env (depthBound fs0) cfg.TargetDir [] (World.mk fs0 0) =
        (.error e, remoteFiles, w1) →
      main cfg env lfs (.ok localFiles) fs0 =
        Outcome.mk (applyPasses cfg env lfs localFiles remoteFiles
            (initState w1 [Event.log Msg.start [], Event.log Msg.remoteWalkError []])).finish
          (some (totalOps localFiles remoteFiles))) := by
  refine ⟨?_, ?_, walkRemote_keys cfg env, ?_⟩
  · intro fuel dir inv w e w1 h
    simp only [walkRemote, h]
  · intro fuel dir pre post sub inv inv1 inv2 w w1 w2 e hsub hpre hfail
    exact walkEntries_abort _ cfg dir sub post hsub pre inv inv1 inv2 w w1 w2 e hpre hfail
  · intro lfs localFiles fs0 e remoteFiles w1 h
    simp only [main, h]

set_option maxRecDepth 100000 in
/-- C9, counterexample: listing `srv/bad` fails.  `srv/z.txt` lies outside
`srv/bad`, in a sibling entry listed after it, and is not recorded: the
inventory holds `a.txt` only, and the run goes on with it. -/
theorem walk_drops_later_sibling :
    isOk (walkRemote cfg0 envNoList (depthBound fsZ) ["srv"] [] (World.mk fsZ 0)).1 = false ∧
    keys (walkRemote cfg0 envNoList (depthBound fsZ) ["srv"] [] (World.mk fsZ 0)).2.1 =
      [["a.txt"]] ∧
    fileAt fsZ ["srv", "z.txt"] = some ([2], 0o644) ∧
    ¬ (["srv", "bad"] <+: ["srv", "z.txt"]) ∧
    (main cfg0 envNoList lfsA (.ok invA) fsZ).total = some 1 ∧
    Event.log Msg.remoteWalkError [] ∈ (main cfg0 envNoList lfsA (.ok invA) fsZ).final.trace ∧
    Event.log Msg.done [] ∈ (main cfg0 envNoList lfsA (.ok invA) fsZ).final.trace := by
  decide


/-! ## Paths of the two trees -/

theorem target_ne_backup {cfg : Config} {env : Env} (h : NoOverlap cfg env) (r r1 : Path) :
    cfg.TargetDir ++ r ≠ backupDir cfg env ++ r1 := by
  intro heq
  rcases List.append_eq_append_iff.1 heq with ⟨a, ha, _⟩ | ⟨c, hc, _⟩
  · exact h.1 ⟨a, ha.symm⟩
  · exact h.2 ⟨c, hc.symm⟩

theorem backup_not_prefix_target {cfg : Config} {env : Env} (h : NoOverlap cfg env)
    (x r : Path) : ¬ backupDir cfg env ++ x <+: cfg.TargetDir ++ r := by
  intro hp
  have h1 : backupDir cfg env <+: cfg.TargetDir ++ r := (List.prefix_append _ _).trans hp
  rcases List.prefix_or_prefix_of_prefix h1 (List.prefix_append cfg.TargetDir r) with h2 | h2
  · exact h.2 h2
  · exact h.1 h2

theorem target_not_prefix_backup {cfg : Config} {env : Env} (h : NoOverlap cfg env)
    (x r : Path) : ¬ cfg.TargetDir ++ x <+: backupDir cfg env ++ r := by
  intro hp
  have h1 : cfg.TargetDir <+: backupDir cfg env ++ r := (List.prefix_append _ _).trans hp
  rcases List.prefix_or_prefix_of_prefix h1 (List.prefix_append (backupDir cfg env) r) with
    h2 | h2
  · exact h.1 h2
  · exact h.2 h2

/-! ## Nothing is deleted but by `Remove` -/

theorem NoDel_refl (fs : RemoteFS) : NoDel fs fs := fun _ h => h

theorem NoDel_trans {a b c : RemoteFS} (h1 : NoDel a b) (h2 : NoDel b c) : NoDel a c :=
  fun q h => h2 q (h1 q h)

theorem NoDel_put (fs : RemoteFS) (p : Path) (n : Node) : NoDel fs (put fs p n) := by
  intro q h
  rw [get_put]
  split_ifs
  · rfl
  · exact h

theorem NoDel_of_eq {fs fs1 : RemoteFS} (h : fs1 = fs) : NoDel fs fs1 := h ▸ NoDel_refl fs

theorem mkdirFrom_noDel (now : Time) (rest : List String) :
    ∀ (fs : RemoteFS) (base : Path), NoDel fs (mkdirFrom now fs base rest).2 := by
  induction rest with
  | nil => intro fs base; exact NoDel_refl fs
  | cons x rest ih =>
    intro fs base
    unfold mkdirFrom
    split
    · split_ifs
      · exact ih fs _
      · exact NoDel_refl fs
    · exact NoDel_trans (NoDel_put fs _ _) (ih _ _)

theorem sftpMkdirAll_noDel (env : Env) (d : Path) (w : World) :
    NoDel w.fs (sftpMkdirAll env d w).2.fs := by
  unfold sftpMkdirAll
  split_ifs
  · exact mkdirFrom_noDel _ _ _ _
  · exact mkdirFrom_noDel _ _ _ _

theorem sftpCreate_noDel (env : Env) (p : Path) (w : World) :
    NoDel w.fs (sftpCreate env p w).2.fs := by
  unfold sftpCreate
  repeat' split
  all_goals first | exact NoDel_refl _ | exact NoDel_put _ _ _

theorem writeAll_noDel (env : Env) (p : Path) (data : Bytes) (w : World) :
    NoDel w.fs (writeAll env p data w).2.fs := by
  unfold writeAll
  repeat' split
  all_goals first | exact NoDel_refl _ | exact NoDel_put _ _ _

theorem readFromRemote_noDel (env : Env) (p src : Path) (w : World) :
    NoDel w.fs (readFromRemote env p src w).2.fs := by
  unfold readFromRemote
  split
  · exact NoDel_refl _
  · split_ifs
    · exact NoDel_refl _
    · exact writeAll_noDel env p _ w

theorem sftpChmod_noDel (env : Env) (p : Path) (mode : Nat) (w : World) :
    NoDel w.fs (sftpChmod env p mode w).2.fs := by
  unfold sftpChmod
  repeat' split
  all_goals first | exact NoDel_refl _ | exact NoDel_put _ _ _

theorem sftpChtimes_noDel (env : Env) (p : Path) (a m : Time) (w : World) :
    NoDel w.fs (sftpChtimes env p a m w).2.fs := by
  unfold sftpChtimes
  repeat' split
  all_goals first | exact NoDel_refl _ | exact NoDel_put _ _ _

theorem andThen_noDel {α β : Type} {fs : RemoteFS}
    (r : Except Err α × World) (k : α → World → Except Err β × World)
    (h1 : NoDel fs r.2.fs) (h2 : ∀ a w, NoDel w.fs (k a w).2.fs) :
    NoDel fs (andThen r k).2.fs := by
  obtain ⟨r1, r2⟩ := r
  cases r1 with
  | error e => exact h1
  | ok a => exact NoDel_trans h1 (h2 a r2)

theorem copyFile_noDel (env : Env) (lfs : LocalFS) (src dst : Path) (w : World) :
    NoDel w.fs (copyFile env lfs src dst w).2.fs := by
  unfold copyFile
  refine andThen_noDel _ _ (sftpMkdirAll_noDel env _ w) ?_
  intro _ w1
  refine andThen_noDel _ _ (NoDel_of_eq (osOpen_fs _ _ _ _)) ?_
  intro f w2
  refine andThen_noDel _ _ (sftpCreate_noDel env dst w2) ?_
  intro d w3
  refine andThen_noDel _ _ (writeAll_noDel env d _ w3) ?_
  intro _ w4
  refine andThen_noDel _ _ (NoDel_of_eq (osFstat_fs _ _ _ _)) ?_
  intro m w5
  exact sftpChmod_noDel env dst m w5

theorem createBackup_noDel (env : Env) (rp bp : Path) (w : World) :
    NoDel w.fs (createBackup env rp bp w).2.fs := by
  unfold createBackup
  refine andThen_noDel _ _ (sftpMkdirAll_noDel env _ w) ?_
  intro _ w1
  refine andThen_noDel _ _ (NoDel_of_eq (sftpOpen_fs _ _ _)) ?_
  intro f w2
  refine andThen_noDel _ _ (sftpCreate_noDel env bp w2) ?_
  intro d w3
  refine andThen_noDel _ _ (readFromRemote_noDel env d _ w3) ?_
  intro _ w4
  refine andThen_noDel _ _ (NoDel_of_eq (sftpFstat_fs _ _ _)) ?_
  intro m w5
  exact sftpChmod_noDel env bp _ w5

theorem sftpRemove_keeps (env : Env) (p : Path) (w : World) (q : Path) (hq : q ≠ p) :
    get (sftpRemove env p w).2.fs q = get w.fs q := by
  unfold sftpRemove
  repeat' split
  all_goals first | rfl | (show get (del _ _) _ = _; rw [get_del, if_neg hq])

/-! ## What `MkdirAll` leaves on success -/

theorem mkdirFrom_ok_dirs (now : Time) (rest : List String) :
    ∀ (fs : RemoteFS) (base q : Path), (mkdirFrom now fs base rest).1 = .ok () →
      q <+: base ++ rest → base.length < q.length →
      ∃ n, get (mkdirFrom now fs base rest).2 q = some n ∧ n.isDir = true := by
  induction rest with
  | nil =>
    intro fs base q _ hq hlen
    have := hq.length_le
    simp at this
    omega
  | cons x rest ih =>
    intro fs base q hok hq hlen
    have happ : base ++ x :: rest = (base ++ [x]) ++ rest := by simp
    rw [happ] at hq
    by_cases hql : q.length = base.length + 1
    · have hqeq : q = base ++ [x] := by
        have h1 : (base ++ [x]) <+: (base ++ [x]) ++ rest := List.prefix_append _ _
        exact List.IsPrefix.eq_of_length
          ((List.prefix_of_prefix_length_le hq h1 (by simp [hql]))) (by simp [hql])
      cases hn : get fs (base ++ [x]) with
      | some n =>
        by_cases hd : n.isDir = true
        · simp only [mkdirFrom, hn, hd, if_true] at hok ⊢
          rcases mkdirFrom_get now rest fs (base ++ [x]) q with e | ⟨e1, _, _⟩
          · rw [e, hqeq, hn]; exact ⟨n, rfl, hd⟩
          · rw [hqeq, hn] at e1; cases e1
        · simp [mkdirFrom, hn, hd] at hok
      | none =>
        simp only [mkdirFrom, hn] at hok ⊢
        rcases mkdirFrom_get now rest (put fs (base ++ [x]) (newDir now)) (base ++ [x]) q with
          e | ⟨e1, _, _⟩
        · rw [e, hqeq, get_put, if_pos rfl]; exact ⟨_, rfl, rfl⟩
        · rw [hqeq, get_put, if_pos rfl] at e1; cases e1
    · have hlen2 : (base ++ [x]).length < q.length := by
        simp
        omega
      cases hn : get fs (base ++ [x]) with
      | some n =>
        by_cases hd : n.isDir = true
        · simp only [mkdirFrom, hn, hd, if_true] at hok ⊢
          exact ih fs (base ++ [x]) q hok hq hlen2
        · simp [mkdirFrom, hn, hd] at hok
      | none =>
        simp only [mkdirFrom, hn] at hok ⊢
        exact ih _ (base ++ [x]) q hok hq hlen2

theorem sftpMkdirAll_ok_dirs {env : Env} {d : Path} {w w1 : World}
    (h : sftpMkdirAll env d w = (.ok (), w1)) (q : Path) (hq : q <+: d) (hne : q ≠ []) :
    ∃ n, get w1.fs q = some n ∧ n.isDir = true := by
  unfold sftpMkdirAll at h
  split_ifs at h
  · simp at h
  · simp only [Prod.mk.injEq] at h
    obtain ⟨h1, rfl⟩ := h
    exact mkdirFrom_ok_dirs _ d w.fs [] q h1 (by simpa using hq)
      (by simpa using List.length_pos.2 hne)


/-! ## Frames of the loop bodies -/

theorem Changes_weaken {S T : Path → Prop} {a b : RemoteFS} (h : Changes S a b)
    (hST : ∀ p, S p → T p) : Changes T a b :=
  Changes_mono hST h

theorem Changes_fileAt {S : Path → Prop} {fs fs1 : RemoteFS} (h : Changes S fs fs1)
    {q : Path} (hq : ¬ S q) : fileAt fs1 q = fileAt fs q := by
  unfold fileAt
  rcases h q hq with e | ⟨e1, ⟨n, e2, hd⟩, _⟩
  · rw [e]
  · rw [e1, e2]
    simp [hd]

theorem Changes_isSome {S : Path → Prop} {fs fs1 : RemoteFS} (h : Changes S fs fs1)
    {q : Path} (hq : ¬ S q) (hs : (get fs q).isSome = true) : (get fs1 q).isSome = true := by
  rcases h q hq with e | ⟨e1, _, _⟩
  · rw [e]; exact hs
  · rw [e1] at hs; cases hs

theorem Changes_get {S : Path → Prop} {fs fs1 : RemoteFS} (h : Changes S fs fs1)
    {q : Path} (hq : ∀ p, S p → ¬ q <+: p) : get fs1 q = get fs q := by
  rcases h q (fun hs => hq q hs (List.prefix_refl q)) with e | ⟨_, _, p, hp, hpre⟩
  · exact e
  · exact absurd hpre (hq p hp)

theorem changes_of_copy {S : Path → Prop} {env : Env} {lfs : LocalFS} {src dst : Path}
    {w w1 : World} {r : Except Err Unit} (h : copyFile env lfs src dst w = (r, w1))
    (hp : S dst) : Changes S w.fs w1.fs := by
  have := copyFile_changes env lfs src dst w hp
  rw [h] at this
  exact this

theorem changes_of_backup {S : Path → Prop} {env : Env} {rp bp : Path}
    {w w1 : World} {r : Except Err Unit} (h : createBackup env rp bp w = (r, w1))
    (hp : S bp) : Changes S w.fs w1.fs := by
  have := createBackup_changes env rp bp w hp
  rw [h] at this
  exact this

theorem changes_of_chtimes {S : Path → Prop} {env : Env} {p : Path} {a m : Time}
    {w w1 : World} {r : Except Err Unit} (h : sftpChtimes env p a m w = (r, w1))
    (hp : S p) : Changes S w.fs w1.fs := by
  have := sftpChtimes_changes env p a m w hp
  rw [h] at this
  exact this

theorem changes_of_remove {S : Path → Prop} {env : Env} {p : Path}
    {w w1 : World} {r : Except Err Unit} (h : sftpRemove env p w = (r, w1))
    (hp : S p) : Changes S w.fs w1.fs := by
  have := sftpRemove_changes env p w hp
  rw [h] at this
  exact this

theorem LocalStep_changes {cfg : Config} {env : Env} {lfs : LocalFS} {relPath : Path}
    {localInfo : FileInfo} {s s1 : State} (h : LocalStep cfg env lfs relPath localInfo s s1) :
    Changes (StepPaths cfg env relPath) s.w.fs s1.w.fs := by
  have hT : StepPaths cfg env relPath (cfg.TargetDir ++ relPath) := Or.inl rfl
  have hB : StepPaths cfg env relPath (backupDir cfg env ++ relPath) := Or.inr rfl
  cases h with
  | createFailed e e2 w1 w2 hstat hcopy =>
    exact fs_of_stat hstat ▸ changes_of_copy hcopy hT
  | created e w1 w2 hstat hcopy =>
    exact fs_of_stat hstat ▸ changes_of_copy hcopy hT
  | noOp remoteInfo w1 hstat htime hsize =>
    exact changes_of_eq (fs_of_stat hstat)
  | localHashFailed remoteInfo e w1 w2 hstat hdiff hlocal =>
    exact changes_of_eq ((fs_of_localHash hlocal).trans (fs_of_stat hstat))
  | remoteHashFailed remoteInfo localHash e w1 w2 w3 hstat hdiff hlocal hremote =>
    exact changes_of_eq ((fs_of_remoteHash hremote).trans
      ((fs_of_localHash hlocal).trans (fs_of_stat hstat)))
  | retouchFailed remoteInfo hash e w1 w2 w3 w4 hstat hdiff hlocal hremote htouch =>
    have h3 : w3.fs = s.w.fs := (fs_of_remoteHash hremote).trans
      ((fs_of_localHash hlocal).trans (fs_of_stat hstat))
    exact h3 ▸ changes_of_chtimes htouch hT
  | retouched remoteInfo hash w1 w2 w3 w4 hstat hdiff hlocal hremote htouch =>
    have h3 : w3.fs = s.w.fs := (fs_of_remoteHash hremote).trans
      ((fs_of_localHash hlocal).trans (fs_of_stat hstat))
    exact h3 ▸ changes_of_chtimes htouch hT
  | backupFailed remoteInfo localHash remoteHash e w1 w2 w3 w4 hstat hdiff hlocal hremote hne
      hbackup =>
    have h3 : w3.fs = s.w.fs := (fs_of_remoteHash hremote).trans
      ((fs_of_localHash hlocal).trans (fs_of_stat hstat))
    exact h3 ▸ changes_of_backup hbackup hB
  | updateFailed remoteInfo localHash remoteHash e w1 w2 w3 w4 w5 hstat hdiff hlocal hremote hne
      hbackup hcopy =>
    have h3 : w3.fs = s.w.fs := (fs_of_remoteHash hremote).trans
      ((fs_of_localHash hlocal).trans (fs_of_stat hstat))
    exact h3 ▸ Changes_trans (changes_of_backup hbackup hB) (changes_of_copy hcopy hT)
  | updated remoteInfo localHash remoteHash w1 w2 w3 w4 w5 hstat hdiff hlocal hremote hne
      hbackup hcopy =>
    have h3 : w3.fs = s.w.fs := (fs_of_remoteHash hremote).trans
      ((fs_of_localHash hlocal).trans (fs_of_stat hstat))
    exact h3 ▸ Changes_trans (changes_of_backup hbackup hB) (changes_of_copy hcopy hT)

theorem RemoteStep_changes {cfg : Config} {env : Env} {localFiles : Inventory}
    {relPath : Path} {s s1 : State} (h : RemoteStep cfg env localFiles relPath s s1) :
    Changes (StepPaths cfg env relPath) s.w.fs s1.w.fs := by
  have hT : StepPaths cfg env relPath (cfg.TargetDir ++ relPath) := Or.inl rfl
  have hB : StepPaths cfg env relPath (backupDir cfg env ++ relPath) := Or.inr rfl
  cases h with
  | kept hkey => exact Changes_refl _ _
  | backupFailed e w1 hkey hbackup => exact changes_of_backup hbackup hB
  | removeFailed e w1 w2 hkey hbackup hremove =>
    exact Changes_trans (changes_of_backup hbackup hB) (changes_of_remove hremove hT)
  | deleted w1 w2 hkey hbackup hremove =>
    exact Changes_trans (changes_of_backup hbackup hB) (changes_of_remove hremove hT)

theorem localPass_changes (cfg : Config) (env : Env) (lfs : LocalFS) (S : Path → Prop) :
    ∀ (l : Inventory) (s : State), (∀ a ∈ l, ∀ p, StepPaths cfg env a.1 p → S p) →
      Changes S s.w.fs (localPass cfg env lfs l s).w.fs := by
  intro l
  induction l with
  | nil => intro s _; exact Changes_refl _ _
  | cons a rest ih =>
    intro s hS
    unfold localPass at ih ⊢
    rw [List.foldl_cons]
    exact Changes_trans
      (Changes_weaken (LocalStep_changes (processLocal_step cfg env lfs a.1 a.2 s))
        (hS a (List.mem_cons_self _ _)))
      (ih _ (fun b hb => hS b (List.mem_cons_of_mem _ hb)))

theorem deletePass_changes (cfg : Config) (env : Env) (localFiles : Inventory)
    (S : Path → Prop) :
    ∀ (l : Inventory) (s : State),
      (∀ a ∈ l, a.1 ∉ keys localFiles → ∀ p, StepPaths cfg env a.1 p → S p) →
      Changes S s.w.fs (deletePass cfg env localFiles l s).w.fs := by
  intro l
  induction l with
  | nil => intro s _; exact Changes_refl _ _
  | cons a rest ih =>
    intro s hS
    unfold deletePass at ih ⊢
    rw [List.foldl_cons]
    refine Changes_trans ?_ (ih _ (fun b hb => hS b (List.mem_cons_of_mem _ hb)))
    by_cases hk : a.1 ∈ keys localFiles
    · have : processRemote cfg env localFiles a.1 s = s := by
        simp [processRemote, (hasKey_iff _ _).2 hk]
      rw [this]
      exact Changes_refl _ _
    · exact Changes_weaken (RemoteStep_changes (processRemote_step cfg env localFiles a.1 s))
        (hS a (List.mem_cons_self _ _) hk)

theorem cleanup_changes (cfg : Config) (env : Env) (s : State) (S : Path → Prop)
    (hB : S (backupDir cfg env)) : Changes S s.w.fs (cleanup cfg env s).w.fs := by
  unfold cleanup
  split
  · split
    · rename_i e w1 hstat
      exact changes_of_eq (fs_of_stat hstat)
    · rename_i info w1 hstat
      have h1 := sftpRemoveDirectory_changes env (backupDir cfg env) w1 hB
      rw [fs_of_stat hstat] at h1
      split
      · rename_i e w2 hrm
        rw [hrm] at h1
        split_ifs <;> exact h1
      · rename_i u w2 hrm
        rw [hrm] at h1
        exact h1
  · exact Changes_refl _ _

theorem cleanup_skipped (cfg : Config) (env : Env) (s : State) (h : s.backupCreated = true) :
    cleanup cfg env s = s := by
  simp [cleanup, h]

/-! ## The flag -/

theorem LocalStep_flag {cfg : Config} {env : Env} {lfs : LocalFS} {relPath : Path}
    {localInfo : FileInfo} {s s1 : State} (h : LocalStep cfg env lfs relPath localInfo s s1) :
    s1.backupCreated = (s.backupCreated || (newEvents s s1).any Event.isDestroyed) := by
  cases h <;> rw [newEvents_after] <;> simp [State.after, Event.isDestroyed]

theorem RemoteStep_flag {cfg : Config} {env : Env} {localFiles : Inventory} {relPath : Path}
    {s s1 : State} (h : RemoteStep cfg env localFiles relPath s s1) :
    s1.backupCreated = (s.backupCreated || (newEvents s s1).any Event.isDestroyed) := by
  cases h
  · rw [newEvents_self]; simp
  all_goals rw [newEvents_after]; simp [State.after, Event.isDestroyed]

theorem foldl_flag {α : Type} (f : State → α → State)
    (hf : ∀ s a, Extends s (f s a))
    (hflag : ∀ s a, (f s a).backupCreated =
      (s.backupCreated || (newEvents s (f s a)).any Event.isDestroyed)) :
    ∀ (l : List α) (s : State), (l.foldl f s).backupCreated =
      (s.backupCreated || (newEvents s (l.foldl f s)).any Event.isDestroyed) := by
  intro l
  induction l with
  | nil => intro s; simp [newEvents_self]
  | cons x rest ih =>
    intro s
    rw [List.foldl_cons, ih, hflag,
      newEvents_trans (hf s x) (foldl_events f hf rest (f s x)).1, List.any_append,
      Bool.or_assoc]

theorem localPass_flag (cfg : Config) (env : Env) (lfs : LocalFS) (localFiles : Inventory)
    (s : State) : (localPass cfg env lfs localFiles s).backupCreated =
      (s.backupCreated || (localEvents cfg env lfs localFiles s).any Event.isDestroyed) :=
  foldl_flag (fun st (e : Path × FileInfo) => processLocal cfg env lfs e.1 e.2 st)
    (fun st e => processLocal_extends cfg env lfs e.1 e.2 st)
    (fun st e => LocalStep_flag (processLocal_step cfg env lfs e.1 e.2 st)) localFiles s

theorem deletePass_flag (cfg : Config) (env : Env) (localFiles remoteFiles : Inventory)
    (s : State) : (deletePass cfg env localFiles remoteFiles s).backupCreated =
      (s.backupCreated ||
        (newEvents s (deletePass cfg env localFiles remoteFiles s)).any Event.isDestroyed) :=
  foldl_flag (fun st (e : Path × FileInfo) => processRemote cfg env localFiles e.1 st)
    (fun st e => processRemote_extends cfg env localFiles e.1 st)
    (fun st e => RemoteStep_flag (processRemote_step cfg env localFiles e.1 st)) remoteFiles s

theorem cleanup_flag (cfg : Config) (env : Env) (s : State) :
    (cleanup cfg env s).backupCreated = s.backupCreated := by
  unfold cleanup
  repeat' split
  all_goals rfl

theorem cleanup_not_destroyed (cfg : Config) (env : Env) (s : State) :
    (newEvents s (cleanup cfg env s)).any Event.isDestroyed = false := by
  rw [List.any_eq_false]
  intro e he
  obtain ⟨h1, h2, _⟩ := cleanup_events cfg env s e he
  cases e <;> simp_all [Event.isDestroyed, Event.isRemove, Event.isCopy]

theorem applyPasses_flag (cfg : Config) (env : Env) (lfs : LocalFS)
    (localFiles remoteFiles : Inventory) (s : State) :
    (applyPasses cfg env lfs localFiles remoteFiles s).backupCreated =
      (s.backupCreated ||
        (runEvents cfg env lfs localFiles remoteFiles s).any Event.isDestroyed) := by
  rw [runEvents_eq, List.any_append, List.any_append]
  unfold applyPasses
  rw [cleanup_flag, deletePass_flag, localPass_flag, cleanup_not_destroyed]
  unfold deleteEvents
  simp [Bool.or_assoc]


/-! ## More on the loop bodies -/

theorem noDel_of_copy {env : Env} {lfs : LocalFS} {src dst : Path}
    {w w1 : World} {r : Except Err Unit} (h : copyFile env lfs src dst w = (r, w1)) :
    NoDel w.fs w1.fs := by
  have := copyFile_noDel env lfs src dst w
  rw [h] at this
  exact this

theorem noDel_of_backup {env : Env} {rp bp : Path}
    {w w1 : World} {r : Except Err Unit} (h : createBackup env rp bp w = (r, w1)) :
    NoDel w.fs w1.fs := by
  have := createBackup_noDel env rp bp w
  rw [h] at this
  exact this

theorem noDel_of_chtimes {env : Env} {p : Path} {a m : Time}
    {w w1 : World} {r : Except Err Unit} (h : sftpChtimes env p a m w = (r, w1)) :
    NoDel w.fs w1.fs := by
  have := sftpChtimes_noDel env p a m w
  rw [h] at this
  exact this

theorem LocalStep_noDel {cfg : Config} {env : Env} {lfs : LocalFS} {relPath : Path}
    {localInfo : FileInfo} {s s1 : State} (h : LocalStep cfg env lfs relPath localInfo s s1) :
    NoDel s.w.fs s1.w.fs := by
  cases h with
  | createFailed e e2 w1 w2 hstat hcopy =>
    exact fs_of_stat hstat ▸ noDel_of_copy hcopy
  | created e w1 w2 hstat hcopy =>
    exact fs_of_stat hstat ▸ noDel_of_copy hcopy
  | noOp remoteInfo w1 hstat htime hsize =>
    exact NoDel_of_eq (fs_of_stat hstat)
  | localHashFailed remoteInfo e w1 w2 hstat hdiff hlocal =>
    exact NoDel_of_eq ((fs_of_localHash hlocal).trans (fs_of_stat hstat))
  | remoteHashFailed remoteInfo localHash e w1 w2 w3 hstat hdiff hlocal hremote =>
    exact NoDel_of_eq ((fs_of_remoteHash hremote).trans
      ((fs_of_localHash hlocal).trans (fs_of_stat hstat)))
  | retouchFailed remoteInfo hash e w1 w2 w3 w4 hstat hdiff hlocal hremote htouch =>
    have h3 : w3.fs = s.w.fs := (fs_of_remoteHash hremote).trans
      ((fs_of_localHash hlocal).trans (fs_of_stat hstat))
    exact h3 ▸ noDel_of_chtimes htouch
  | retouched remoteInfo hash w1 w2 w3 w4 hstat hdiff hlocal hremote htouch =>
    have h3 : w3.fs = s.w.fs := (fs_of_remoteHash hremote).trans
      ((fs_of_localHash hlocal).trans (fs_of_stat hstat))
    exact h3 ▸ noDel_of_chtimes htouch
  | backupFailed remoteInfo localHash remoteHash e w1 w2 w3 w4 hstat hdiff hlocal hremote hne
      hbackup =>
    have h3 : w3.fs = s.w.fs := (fs_of_remoteHash hremote).trans
      ((fs_of_localHash hlocal).trans (fs_of_stat hstat))
    exact h3 ▸ noDel_of_backup hbackup
  | updateFailed remoteInfo localHash remoteHash e w1 w2 w3 w4 w5 hstat hdiff hlocal hremote hne
      hbackup hcopy =>
    have h3 : w3.fs = s.w.fs := (fs_of_remoteHash hremote).trans
      ((fs_of_localHash hlocal).trans (fs_of_stat hstat))
    exact h3 ▸ NoDel_trans (noDel_of_backup hbackup) (noDel_of_copy hcopy)
  | updated remoteInfo localHash remoteHash w1 w2 w3 w4 w5 hstat hdiff hlocal hremote hne
      hbackup hcopy =>
    have h3 : w3.fs = s.w.fs := (fs_of_remoteHash hremote).trans
      ((fs_of_localHash hlocal).trans (fs_of_stat hstat))
    exact h3 ▸ NoDel_trans (noDel_of_backup hbackup) (noDel_of_copy hcopy)

theorem keeps_of_remove {env : Env} {p : Path} {w w1 : World} {r : Except Err Unit}
    (h : sftpRemove env p w = (r, w1)) {q : Path} (hq : q ≠ p) : get w1.fs q = get w.fs q := by
  have := sftpRemove_keeps env p w q hq
  rw [h] at this
  exact this

theorem RemoteStep_keeps {cfg : Config} {env : Env} {localFiles : Inventory}
    {relPath : Path} {s s1 : State} (h : RemoteStep cfg env localFiles relPath s s1)
    {q : Path} (hq : q ≠ cfg.TargetDir ++ relPath) (hs : (get s.w.fs q).isSome = true) :
    (get s1.w.fs q).isSome = true := by
  cases h with
  | kept hkey => exact hs
  | backupFailed e w1 hkey hbackup => exact noDel_of_backup hbackup q hs
  | removeFailed e w1 w2 hkey hbackup hremove =>
    show (get w2.fs q).isSome = true
    rw [keeps_of_remove hremove hq]
    exact noDel_of_backup hbackup q hs
  | deleted w1 w2 hkey hbackup hremove =>
    show (get w2.fs q).isSome = true
    rw [keeps_of_remove hremove hq]
    exact noDel_of_backup hbackup q hs

theorem localPass_noDel (cfg : Config) (env : Env) (lfs : LocalFS) :
    ∀ (l : Inventory) (s : State), NoDel s.w.fs (localPass cfg env lfs l s).w.fs := by
  intro l
  induction l with
  | nil => intro s; exact NoDel_refl _
  | cons a rest ih =>
    intro s
    unfold localPass at ih ⊢
    rw [List.foldl_cons]
    exact NoDel_trans (LocalStep_noDel (processLocal_step cfg env lfs a.1 a.2 s)) (ih _)

theorem deletePass_keeps (cfg : Config) (env : Env) (localFiles : Inventory) (q : Path)
    (hq : ∀ r, q ≠ cfg.TargetDir ++ r) :
    ∀ (l : Inventory) (s : State), (get s.w.fs q).isSome = true →
      (get (deletePass cfg env localFiles l s).w.fs q).isSome = true := by
  intro l
  induction l with
  | nil => intro s h; exact h
  | cons a rest ih =>
    intro s h
    unfold deletePass at ih ⊢
    rw [List.foldl_cons]
    exact ih _ (RemoteStep_keeps (processRemote_step cfg env localFiles a.1 s) (hq a.1) h)

theorem createBackup_ok_exists {env : Env} {rp bp : Path} {w w1 : World}
    (h : createBackup env rp bp w = (.ok (), w1)) (q : Path) (hq : q <+: bp) (hne : q ≠ []) :
    (get w1.fs q).isSome = true := by
  by_cases hqb : q = bp
  · obtain ⟨⟨_, b, _, hb, _⟩, _⟩ := createBackup_ok h
    rw [hqb, hb]
    rfl
  · have hpre : q <+: bp.dropLast := by
      obtain ⟨t, ht⟩ := hq
      have htne : t ≠ [] := by
        rintro rfl
        exact hqb (by simpa using ht)
      rw [← ht, List.dropLast_append_of_ne_nil _ htne]
      exact List.prefix_append _ _
    have h0 := h
    unfold createBackup at h
    obtain ⟨_, wa, ha, h⟩ := andThen_ok h
    obtain ⟨n, hn, _⟩ := sftpMkdirAll_ok_dirs ha q hpre hne
    have hrest : NoDel wa.fs w1.fs := by
      have h2 := andThen_noDel (sftpOpen env rp wa)
        (fun srcFile w2 =>
          andThen (sftpCreate env bp w2) fun dstFile w3 =>
          andThen (readFromRemote env dstFile srcFile w3) fun _ w4 =>
          andThen (sftpFstat env srcFile w4) fun srcInfo w5 =>
          sftpChmod env bp srcInfo.mode w5)
        (NoDel_of_eq (sftpOpen_fs _ _ _))
        (fun f w2 => andThen_noDel _ _ (sftpCreate_noDel env bp w2)
          (fun d w3 => andThen_noDel _ _ (readFromRemote_noDel env d _ w3)
            (fun _ w4 => andThen_noDel _ _ (NoDel_of_eq (sftpFstat_fs _ _ _))
              (fun m w5 => sftpChmod_noDel env bp _ w5))))
      rw [h] at h2
      exact h2
    exact hrest q (by rw [hn]; rfl)

theorem nodup_split_unique {l pre post pre1 post1 : Inventory} {a a1 : Path × FileInfo}
    (hnd : (keys l).Nodup) (h : l = pre ++ a :: post) (h1 : l = pre1 ++ a1 :: post1)
    (hk : a.1 = a1.1) : pre = pre1 ∧ a = a1 ∧ post = post1 := by
  subst h
  have hnd2 : (keys pre ++ a.1 :: keys post).Nodup := by
    simpa [keys] using hnd
  rcases List.append_eq_append_iff.1 h1 with ⟨c, hc, hr⟩ | ⟨c, hc, hr⟩
  · cases c with
    | nil =>
      simp only [List.nil_append, List.cons.injEq] at hr
      simp only [List.append_nil] at hc
      exact ⟨hc.symm, hr.1, hr.2⟩
    | cons x c =>
      simp only [List.cons_append, List.cons.injEq] at hr
      obtain ⟨rfl, hr⟩ := hr
      exfalso
      subst hc
      have : a.1 ∈ keys post := by
        rw [hk]
        exact fst_mem_keys hr
      have hnd3 := (List.nodup_append.1 hnd2).2.1
      rw [List.nodup_cons] at hnd3
      exact hnd3.1 this
  · cases c with
    | nil =>
      simp only [List.nil_append, List.cons.injEq] at hr
      simp only [List.append_nil] at hc
      exact ⟨hc, hr.1.symm, hr.2.symm⟩
    | cons x c =>
      simp only [List.cons_append, List.cons.injEq] at hr
      obtain ⟨rfl, hr⟩ := hr
      exfalso
      subst hc
      have hnd4 : (keys pre1 ++ a1.1 :: (keys c ++ a.1 :: keys post)).Nodup := by
        simpa [keys] using hnd
      have hnd5 := (List.nodup_append.1 hnd4).2.1
      rw [List.nodup_cons] at hnd5
      apply hnd5.1
      rw [← hk]
      simp


/-! ## The backups at the end of the run -/

theorem KeepsBackup_refl (cfg : Config) (env : Env) (relPath : Path) (fs : RemoteFS) :
    KeepsBackup cfg env relPath fs fs := ⟨rfl, fun h => h⟩

theorem KeepsBackup_trans {cfg : Config} {env : Env} {relPath : Path} {a b c : RemoteFS}
    (h1 : KeepsBackup cfg env relPath a b) (h2 : KeepsBackup cfg env relPath b c) :
    KeepsBackup cfg env relPath a c :=
  ⟨h2.1.trans h1.1, fun h => h2.2 (h1.2 h)⟩

theorem backupDir_ne_nil (cfg : Config) (env : Env) : backupDir cfg env ≠ [] := by
  simp [backupDir]

theorem backupDir_ne_target {cfg : Config} {env : Env} (hno : NoOverlap cfg env) (r : Path) :
    backupDir cfg env ≠ cfg.TargetDir ++ r := by
  intro h
  exact target_ne_backup hno r [] (by simpa using h.symm)

theorem not_stepPaths_backup {cfg : Config} {env : Env} (hno : NoOverlap cfg env)
    {r relPath : Path} (hne : r ≠ relPath) :
    ¬ StepPaths cfg env r (backupDir cfg env ++ relPath) := by
  rintro (h | h)
  · exact target_ne_backup hno r relPath h.symm
  · exact hne (List.append_cancel_left h).symm

theorem not_stepPaths_target {cfg : Config} {env : Env} (hno : NoOverlap cfg env)
    {r relPath : Path} (hne : r ≠ relPath) :
    ¬ StepPaths cfg env r (cfg.TargetDir ++ relPath) := by
  rintro (h | h)
  · exact hne (List.append_cancel_left h).symm
  · exact target_ne_backup hno relPath r h

theorem LocalStep_keepsBackup {cfg : Config} {env : Env} {lfs : LocalFS} {r : Path}
    {localInfo : FileInfo} {s s1 : State} (h : LocalStep cfg env lfs r localInfo s s1)
    (hno : NoOverlap cfg env) {relPath : Path} (hne : r ≠ relPath) :
    KeepsBackup cfg env relPath s.w.fs s1.w.fs :=
  ⟨Changes_fileAt (LocalStep_changes h) (not_stepPaths_backup hno hne),
    LocalStep_noDel h _⟩

theorem RemoteStep_keepsBackup {cfg : Config} {env : Env} {localFiles : Inventory} {r : Path}
    {s s1 : State} (h : RemoteStep cfg env localFiles r s s1)
    (hno : NoOverlap cfg env) {relPath : Path} (hne : r ≠ relPath) :
    KeepsBackup cfg env relPath s.w.fs s1.w.fs :=
  ⟨Changes_fileAt (RemoteStep_changes h) (not_stepPaths_backup hno hne),
    RemoteStep_keeps h (backupDir_ne_target hno r)⟩

theorem localPass_keepsBackup (cfg : Config) (env : Env) (lfs : LocalFS)
    (hno : NoOverlap cfg env) (relPath : Path) :
    ∀ (l : Inventory) (s : State), (∀ a ∈ l, a.1 ≠ relPath) →
      KeepsBackup cfg env relPath s.w.fs (localPass cfg env lfs l s).w.fs := by
  intro l
  induction l with
  | nil => intro s _; exact KeepsBackup_refl _ _ _ _
  | cons a rest ih =>
    intro s hl
    unfold localPass at ih ⊢
    rw [List.foldl_cons]
    exact KeepsBackup_trans
      (LocalStep_keepsBackup (processLocal_step cfg env lfs a.1 a.2 s) hno
        (hl a (List.mem_cons_self _ _)))
      (ih _ (fun b hb => hl b (List.mem_cons_of_mem _ hb)))

theorem deletePass_keepsBackup (cfg : Config) (env : Env) (localFiles : Inventory)
    (hno : NoOverlap cfg env) (relPath : Path) :
    ∀ (l : Inventory) (s : State), (∀ a ∈ l, a.1 ∉ keys localFiles → a.1 ≠ relPath) →
      KeepsBackup cfg env relPath s.w.fs (deletePass cfg env localFiles l s).w.fs := by
  intro l
  induction l with
  | nil => intro s _; exact KeepsBackup_refl _ _ _ _
  | cons a rest ih =>
    intro s hl
    unfold deletePass at ih ⊢
    rw [List.foldl_cons]
    refine KeepsBackup_trans ?_ (ih _ (fun b hb => hl b (List.mem_cons_of_mem _ hb)))
    by_cases hk : a.1 ∈ keys localFiles
    · have : processRemote cfg env localFiles a.1 s = s := by
        simp [processRemote, (hasKey_iff _ _).2 hk]
      rw [this]
      exact KeepsBackup_refl _ _ _ _
    · exact RemoteStep_keepsBackup (processRemote_step cfg env localFiles a.1 s) hno
        (hl a (List.mem_cons_self _ _) hk)

theorem backedUp_fileAt {fs : RemoteFS} {rp bp : Path} (h : BackedUp fs rp bp) :
    (fileAt fs rp).isSome = true ∧ fileAt fs bp = fileAt fs rp := by
  obtain ⟨n, b, hn, hb, hnd, hbd, hdata, hmode⟩ := h
  unfold fileAt
  rw [hn, hb]
  simp [hnd, hbd, hdata, hmode]

/-- What a successful destructive call of the first loop's body leaves. -/
theorem LocalStep_destroyed {cfg : Config} {env : Env} {lfs : LocalFS} {r : Path}
    {localInfo : FileInfo} {s s1 : State} (h : LocalStep cfg env lfs r localInfo s s1)
    (hno : NoOverlap cfg env) {e : Event} (he : e ∈ newEvents s s1) {rp : Path}
    {before : RemoteFS} (hd : e.destroyed rp before) :
    rp = cfg.TargetDir ++ r ∧ BackedUp before rp (backupDir cfg env ++ r) ∧
      (get before (backupDir cfg env)).isSome = true ∧
      KeepsBackup cfg env r before s1.w.fs ∧ s1.backupCreated = true := by
  haveI : Nonempty RemoteFS := ⟨[]⟩
  cases h with
  | updated remoteInfo localHash remoteHash w1 w2 w3 w4 w5 hstat hdiff hlocal hremote hne
      hbackup hcopy =>
    rw [newEvents_after] at he
    have hev : e = Event.copyFile Site.update (cfg.SourceDir ++ r) (cfg.TargetDir ++ r)
        w4.fs true := by
      rcases hd with ⟨lp, rfl⟩ | rfl <;> simp at he <;> simp [he]
    have hrb : rp = cfg.TargetDir ++ r ∧ before = w4.fs := by
      rcases hd with ⟨lp, rfl⟩ | rfl <;> simp at hev <;> simp [hev]
    obtain ⟨rfl, rfl⟩ := hrb
    refine ⟨rfl, (createBackup_ok hbackup).1,
      createBackup_ok_exists hbackup _ (List.prefix_append _ _) (backupDir_ne_nil cfg env),
      ⟨?_, noDel_of_copy hcopy _⟩, ?_⟩
    · exact Changes_fileAt (changes_of_copy (S := fun p => p = cfg.TargetDir ++ r) hcopy rfl)
        (fun h => target_ne_backup hno r r h.symm)
    · simp [State.after]
  | createFailed e e2 w1 w2 hstat hcopy =>
    rw [newEvents_after] at he
    rcases hd with ⟨lp, rfl⟩ | rfl <;> simp at he
  | created e w1 w2 hstat hcopy =>
    rw [newEvents_after] at he
    rcases hd with ⟨lp, rfl⟩ | rfl <;> simp at he
  | noOp remoteInfo w1 hstat htime hsize =>
    rw [newEvents_after] at he
    rcases hd with ⟨lp, rfl⟩ | rfl <;> simp at he
  | localHashFailed remoteInfo e w1 w2 hstat hdiff hlocal =>
    rw [newEvents_after] at he
    rcases hd with ⟨lp, rfl⟩ | rfl <;> simp at he
  | remoteHashFailed remoteInfo localHash e w1 w2 w3 hstat hdiff hlocal hremote =>
    rw [newEvents_after] at he
    rcases hd with ⟨lp, rfl⟩ | rfl <;> simp at he
  | retouchFailed remoteInfo hash e w1 w2 w3 w4 hstat hdiff hlocal hremote htouch =>
    rw [newEvents_after] at he
    rcases hd with ⟨lp, rfl⟩ | rfl <;> simp at he
  | retouched remoteInfo hash w1 w2 w3 w4 hstat hdiff hlocal hremote htouch =>
    rw [newEvents_after] at he
    rcases hd with ⟨lp, rfl⟩ | rfl <;> simp at he
  | backupFailed remoteInfo localHash remoteHash e w1 w2 w3 w4 hstat hdiff hlocal hremote hne
      hbackup =>
    rw [newEvents_after] at he
    rcases hd with ⟨lp, rfl⟩ | rfl <;> simp at he
  | updateFailed remoteInfo localHash remoteHash e w1 w2 w3 w4 w5 hstat hdiff hlocal hremote hne
      hbackup hcopy =>
    rw [newEvents_after] at he
    rcases hd with ⟨lp, rfl⟩ | rfl <;> simp at he


/-- What a successful destructive call of the second loop's body leaves. -/
theorem RemoteStep_destroyed {cfg : Config} {env : Env} {localFiles : Inventory} {r : Path}
    {s s1 : State} (h : RemoteStep cfg env localFiles r s s1)
    (hno : NoOverlap cfg env) {e : Event} (he : e ∈ newEvents s s1) {rp : Path}
    {before : RemoteFS} (hd : e.destroyed rp before) :
    rp = cfg.TargetDir ++ r ∧ r ∉ keys localFiles ∧
      BackedUp before rp (backupDir cfg env ++ r) ∧
      (get before (backupDir cfg env)).isSome = true ∧
      KeepsBackup cfg env r before s1.w.fs ∧ s1.backupCreated = true := by
  haveI : Nonempty RemoteFS := ⟨[]⟩
  cases h with
  | kept hkey =>
    rw [newEvents_self] at he
    simp at he
  | backupFailed e w1 hkey hbackup =>
    rw [newEvents_after] at he
    rcases hd with ⟨lp, rfl⟩ | rfl <;> simp at he
  | removeFailed e w1 w2 hkey hbackup hremove =>
    rw [newEvents_after] at he
    rcases hd with ⟨lp, rfl⟩ | rfl <;> simp at he
  | deleted w1 w2 hkey hbackup hremove =>
    rw [newEvents_after] at he
    have hrb : rp = cfg.TargetDir ++ r ∧ before = w1.fs := by
      rcases hd with ⟨lp, rfl⟩ | rfl <;> simp at he
      exact he
    obtain ⟨rfl, rfl⟩ := hrb
    refine ⟨rfl, (hasKey_false_iff _ _).1 hkey, (createBackup_ok hbackup).1,
      createBackup_ok_exists hbackup _ (List.prefix_append _ _) (backupDir_ne_nil cfg env),
      ⟨?_, fun hs => ?_⟩, ?_⟩
    · exact Changes_fileAt (changes_of_remove (S := fun p => p = cfg.TargetDir ++ r) hremove rfl)
        (fun h => target_ne_backup hno r r h.symm)
    · show (get w2.fs _).isSome = true
      rw [keeps_of_remove hremove (backupDir_ne_target hno r)]
      exact hs
    · simp [State.after]

theorem localPass_split (cfg : Config) (env : Env) (lfs : LocalFS) (pre post : Inventory)
    (a : Path × FileInfo) (s : State) :
    localPass cfg env lfs (pre ++ a :: post) s =
      localPass cfg env lfs post (processLocal cfg env lfs a.1 a.2 (localPass cfg env lfs pre s)) := by
  simp [localPass, List.foldl_append]

theorem deletePass_split (cfg : Config) (env : Env) (localFiles pre post : Inventory)
    (a : Path × FileInfo) (s : State) :
    deletePass cfg env localFiles (pre ++ a :: post) s =
      deletePass cfg env localFiles post
        (processRemote cfg env localFiles a.1 (deletePass cfg env localFiles pre s)) := by
  simp [deletePass, List.foldl_append]

theorem localPass_flag_mono (cfg : Config) (env : Env) (lfs : LocalFS) (l : Inventory)
    (s : State) (h : s.backupCreated = true) :
    (localPass cfg env lfs l s).backupCreated = true := by
  rw [localPass_flag, h]
  rfl

theorem deletePass_flag_mono (cfg : Config) (env : Env) (localFiles l : Inventory)
    (s : State) (h : s.backupCreated = true) :
    (deletePass cfg env localFiles l s).backupCreated = true := by
  rw [deletePass_flag, h]
  rfl

theorem nodup_split_ne {l pre post : Inventory} {a : Path × FileInfo}
    (hnd : (keys l).Nodup) (h : l = pre ++ a :: post) :
    (∀ b ∈ pre, b.1 ≠ a.1) ∧ (∀ b ∈ post, b.1 ≠ a.1) := by
  subst h
  have hnd2 : (keys pre ++ a.1 :: keys post).Nodup := by
    simpa [keys] using hnd
  rw [List.nodup_append] at hnd2
  obtain ⟨_, h2, h3⟩ := hnd2
  rw [List.nodup_cons] at h2
  constructor
  · intro b hb heq
    exact h3 (List.mem_map_of_mem Prod.fst hb) (by rw [heq]; exact List.mem_cons_self _ _)
  · intro b hb heq
    apply h2.1
    rw [← heq]
    exact List.mem_map_of_mem Prod.fst hb

/-- A successful destructive call, anywhere in the run: its backup is there
when it is issued and is still there, unchanged, when the run ends. -/
theorem run_destroyed (cfg : Config) (env : Env) (lfs : LocalFS)
    (localFiles remoteFiles : Inventory) (s : State)
    (hno : NoOverlap cfg env) (hL : (keys localFiles).Nodup) (hR : (keys remoteFiles).Nodup)
    {e : Event} (he : e ∈ runEvents cfg env lfs localFiles remoteFiles s) {rp : Path}
    {before : RemoteFS} (hd : e.destroyed rp before) :
    ∃ r, rp = cfg.TargetDir ++ r ∧ BackedUp before rp (backupDir cfg env ++ r) ∧
      (get before (backupDir cfg env)).isSome = true ∧
      KeepsBackup cfg env r before (applyPasses cfg env lfs localFiles remoteFiles s).w.fs := by
  rw [runEvents_eq, List.mem_append, List.mem_append] at he
  rcases he with he | he | he
  · rw [localPass_mem] at he
    obtain ⟨pre, a, post, hl, he⟩ := he
    obtain ⟨hrp, hb, hex, hk, hflag⟩ :=
      LocalStep_destroyed (processLocal_step cfg env lfs a.1 a.2 _) hno he hd
    refine ⟨a.1, hrp, hb, hex, ?_⟩
    obtain ⟨_, hpost⟩ := nodup_split_ne hL hl
    have hmem : a.1 ∈ keys localFiles := fst_mem_keys hl
    have hsplit := localPass_split cfg env lfs pre post a s
    rw [← hl] at hsplit
    unfold applyPasses
    rw [cleanup_skipped]
    · refine KeepsBackup_trans hk (KeepsBackup_trans
        (localPass_keepsBackup cfg env lfs hno a.1 post _ hpost) ?_)
      rw [← hsplit]
      refine deletePass_keepsBackup cfg env localFiles hno a.1 remoteFiles _ ?_
      intro b _ hbk heq
      exact hbk (heq ▸ hmem)
    · apply deletePass_flag_mono
      rw [hsplit]
      exact localPass_flag_mono _ _ _ _ _ hflag
  · rw [deleteEvents_mem] at he
    obtain ⟨pre, a, post, hl, he⟩ := he
    obtain ⟨hrp, hkey, hb, hex, hk, hflag⟩ :=
      RemoteStep_destroyed (processRemote_step cfg env localFiles a.1 _) hno he hd
    refine ⟨a.1, hrp, hb, hex, ?_⟩
    obtain ⟨_, hpost⟩ := nodup_split_ne hR hl
    have hsplit := deletePass_split cfg env localFiles pre post a
      (localPass cfg env lfs localFiles s)
    rw [← hl] at hsplit
    unfold applyPasses
    rw [cleanup_skipped]
    · rw [hsplit]
      exact KeepsBackup_trans hk
        (deletePass_keepsBackup cfg env localFiles hno a.1 post _ (fun b hb _ => hpost b hb))
    · rw [hsplit]
      exact deletePass_flag_mono _ _ _ _ _ hflag
  · have := cleanup_events cfg env _ e he
    rcases hd with ⟨lp, rfl⟩ | rfl <;> simp [Event.isRemove, Event.isCopy] at this


/-! ## The backup directory at the end of the run -/

theorem LocalStep_no_rmdir {cfg : Config} {env : Env} {lfs : LocalFS} {relPath : Path}
    {localInfo : FileInfo} {s s1 : State} (h : LocalStep cfg env lfs relPath localInfo s s1) :
    ∀ e ∈ newEvents s s1, e.isRmdir = false := by
  haveI : Nonempty RemoteFS := ⟨[]⟩
  cases h <;> rw [newEvents_after] <;> simp [Event.isRmdir]

theorem RemoteStep_no_rmdir {cfg : Config} {env : Env} {localFiles : Inventory}
    {relPath : Path} {s s1 : State} (h : RemoteStep cfg env localFiles relPath s s1) :
    ∀ e ∈ newEvents s s1, e.isRmdir = false := by
  haveI : Nonempty RemoteFS := ⟨[]⟩
  cases h
  · rw [newEvents_self]; simp
  all_goals rw [newEvents_after]; simp [Event.isRmdir]

theorem LocalStep_no_backup_get {cfg : Config} {env : Env} {lfs : LocalFS} {relPath : Path}
    {localInfo : FileInfo} {s s1 : State} (h : LocalStep cfg env lfs relPath localInfo s s1)
    (hno : NoOverlap cfg env) (hnb : ∀ e ∈ newEvents s s1, e.isBackup = false) :
    get s1.w.fs (backupDir cfg env) = get s.w.fs (backupDir cfg env) := by
  haveI : Nonempty RemoteFS := ⟨[]⟩
  have hpre : ∀ p, p = cfg.TargetDir ++ relPath → ¬ backupDir cfg env <+: p := by
    rintro p rfl hp
    exact backup_not_prefix_target hno [] relPath (by simpa using hp)
  cases h with
  | createFailed e e2 w1 w2 hstat hcopy =>
    exact fs_of_stat hstat ▸ Changes_get (changes_of_copy (S := fun p => p = cfg.TargetDir ++ relPath) hcopy rfl) hpre
  | created e w1 w2 hstat hcopy =>
    exact fs_of_stat hstat ▸ Changes_get (changes_of_copy (S := fun p => p = cfg.TargetDir ++ relPath) hcopy rfl) hpre
  | noOp remoteInfo w1 hstat htime hsize =>
    show get w1.fs _ = _
    rw [fs_of_stat hstat]
  | localHashFailed remoteInfo e w1 w2 hstat hdiff hlocal =>
    show get w2.fs _ = _
    rw [fs_of_localHash hlocal, fs_of_stat hstat]
  | remoteHashFailed remoteInfo localHash e w1 w2 w3 hstat hdiff hlocal hremote =>
    show get w3.fs _ = _
    rw [fs_of_remoteHash hremote, fs_of_localHash hlocal, fs_of_stat hstat]
  | retouchFailed remoteInfo hash e w1 w2 w3 w4 hstat hdiff hlocal hremote htouch =>
    have h3 : w3.fs = s.w.fs := (fs_of_remoteHash hremote).trans
      ((fs_of_localHash hlocal).trans (fs_of_stat hstat))
    exact h3 ▸ Changes_get (changes_of_chtimes (S := fun p => p = cfg.TargetDir ++ relPath) htouch rfl) hpre
  | retouched remoteInfo hash w1 w2 w3 w4 hstat hdiff hlocal hremote htouch =>
    have h3 : w3.fs = s.w.fs := (fs_of_remoteHash hremote).trans
      ((fs_of_localHash hlocal).trans (fs_of_stat hstat))
    exact h3 ▸ Changes_get (changes_of_chtimes (S := fun p => p = cfg.TargetDir ++ relPath) htouch rfl) hpre
  | backupFailed remoteInfo localHash remoteHash e w1 w2 w3 w4 hstat hdiff hlocal hremote hne
      hbackup =>
    rw [newEvents_after] at hnb
    simp [Event.isBackup] at hnb
  | updateFailed remoteInfo localHash remoteHash e w1 w2 w3 w4 w5 hstat hdiff hlocal hremote hne
      hbackup hcopy =>
    rw [newEvents_after] at hnb
    simp [Event.isBackup] at hnb
  | updated remoteInfo localHash remoteHash w1 w2 w3 w4 w5 hstat hdiff hlocal hremote hne
      hbackup hcopy =>
    rw [newEvents_after] at hnb
    simp [Event.isBackup] at hnb

theorem RemoteStep_no_backup_get {cfg : Config} {env : Env} {localFiles : Inventory}
    {relPath : Path} {s s1 : State} (h : RemoteStep cfg env localFiles relPath s s1)
    (hnb : ∀ e ∈ newEvents s s1, e.isBackup = false) :
    get s1.w.fs (backupDir cfg env) = get s.w.fs (backupDir cfg env) := by
  haveI : Nonempty RemoteFS := ⟨[]⟩
  cases h with
  | kept hkey => rfl
  | backupFailed e w1 hkey hbackup =>
    rw [newEvents_after] at hnb
    simp [Event.isBackup] at hnb
  | removeFailed e w1 w2 hkey hbackup hremove =>
    rw [newEvents_after] at hnb
    simp [Event.isBackup] at hnb
  | deleted w1 w2 hkey hbackup hremove =>
    rw [newEvents_after] at hnb
    simp [Event.isBackup] at hnb

theorem foldl_no_backup_get {α : Type} (f : State → α → State) (p : Path)
    (hf : ∀ s a, Extends s (f s a))
    (hstep : ∀ s a, (∀ e ∈ newEvents s (f s a), e.isBackup = false) →
      get (f s a).w.fs p = get s.w.fs p) :
    ∀ (l : List α) (s : State), (∀ e ∈ newEvents s (l.foldl f s), e.isBackup = false) →
      get (l.foldl f s).w.fs p = get s.w.fs p := by
  intro l
  induction l with
  | nil => intro s _; rfl
  | cons x rest ih =>
    intro s h
    rw [List.foldl_cons] at h ⊢
    rw [newEvents_trans (hf s x) (foldl_events f hf rest (f s x)).1] at h
    rw [ih (f s x) (fun e he => h e (List.mem_append_right _ he)),
      hstep s x (fun e he => h e (List.mem_append_left _ he))]

theorem sftpRemoveDirectory_cases (env : Env) (p : Path) (w : World) :
    (∃ e, sftpRemoveDirectory env p w = (.error e, w.next)) ∨
    sftpRemoveDirectory env p w = (.ok (), { fs := del w.fs p, tick := w.tick + 1 }) := by
  unfold sftpRemoveDirectory
  repeat' split
  all_goals first | exact Or.inl ⟨_, rfl⟩ | exact Or.inr rfl

theorem cleanup_cases (cfg : Config) (env : Env) (s : State) (h : s.backupCreated = false) :
    (newEvents s (cleanup cfg env s) = [Event.stat (backupDir cfg env) false] ∧
      (cleanup cfg env s).w.fs = s.w.fs) ∨
    ((∃ m, newEvents s (cleanup cfg env s) = [Event.stat (backupDir cfg env) true,
        Event.removeDirectory (backupDir cfg env) false, Event.log m []]) ∧
      (cleanup cfg env s).w.fs = s.w.fs) ∨
    (newEvents s (cleanup cfg env s) = [Event.stat (backupDir cfg env) true,
        Event.removeDirectory (backupDir cfg env) true, Event.log Msg.backupDirRemoved []] ∧
      get (cleanup cfg env s).w.fs (backupDir cfg env) = none) := by
  have hnew : ∀ (w : World) (es : List Event),
      newEvents s (s.step w es) = es := fun w es => newEvents_step s w es
  unfold cleanup
  simp only [h, Bool.not_false, if_true]
  split
  · rename_i e w1 hstat
    exact Or.inl ⟨hnew _ _, fs_of_stat hstat⟩
  · rename_i info w1 hstat
    rcases sftpRemoveDirectory_cases env (backupDir cfg env) w1 with ⟨e, hrd⟩ | hrd
    · rw [hrd]
      simp only []
      split_ifs
      · exact Or.inr (Or.inl ⟨⟨_, hnew _ _⟩, show w1.fs = _ from fs_of_stat hstat⟩)
      · exact Or.inr (Or.inl ⟨⟨_, hnew _ _⟩, show w1.fs = _ from fs_of_stat hstat⟩)
    · rw [hrd]
      refine Or.inr (Or.inr ⟨hnew _ _, ?_⟩)
      show get (del w1.fs _) _ = none
      rw [get_del, if_pos rfl]


theorem passes_no_rmdir (cfg : Config) (env : Env) (lfs : LocalFS)
    (localFiles remoteFiles : Inventory) (s : State) {e : Event}
    (he : e ∈ runEvents cfg env lfs localFiles remoteFiles s) (hr : e.isRmdir = true) :
    e ∈ newEvents (deletePass cfg env localFiles remoteFiles
        (localPass cfg env lfs localFiles s))
      (applyPasses cfg env lfs localFiles remoteFiles s) := by
  rw [runEvents_eq, List.mem_append, List.mem_append] at he
  rcases he with he | he | he
  · rw [localPass_mem] at he
    obtain ⟨pre, a, post, _, he⟩ := he
    have := LocalStep_no_rmdir (processLocal_step cfg env lfs a.1 a.2 _) e he
    rw [hr] at this
    cases this
  · rw [deleteEvents_mem] at he
    obtain ⟨pre, a, post, _, he⟩ := he
    have := RemoteStep_no_rmdir (processRemote_step cfg env localFiles a.1 _) e he
    rw [hr] at this
    cases this
  · exact he

theorem passes_no_backup_get (cfg : Config) (env : Env) (lfs : LocalFS)
    (localFiles remoteFiles : Inventory) (s : State) (hno : NoOverlap cfg env)
    (hnb : ∀ e ∈ runEvents cfg env lfs localFiles remoteFiles s, e.isBackup = false) :
    get (deletePass cfg env localFiles remoteFiles (localPass cfg env lfs localFiles s)).w.fs
      (backupDir cfg env) = get s.w.fs (backupDir cfg env) := by
  rw [runEvents_eq] at hnb
  have h1 := foldl_no_backup_get
    (fun st (e : Path × FileInfo) => processLocal cfg env lfs e.1 e.2 st) (backupDir cfg env)
    (fun st e => processLocal_extends cfg env lfs e.1 e.2 st)
    (fun st e => LocalStep_no_backup_get (processLocal_step cfg env lfs e.1 e.2 st) hno)
    localFiles s (fun e he => hnb e (List.mem_append_left _ he))
  have h2 := foldl_no_backup_get
    (fun st (e : Path × FileInfo) => processRemote cfg env localFiles e.1 st)
    (backupDir cfg env)
    (fun st e => processRemote_extends cfg env localFiles e.1 st)
    (fun st e => RemoteStep_no_backup_get (processRemote_step cfg env localFiles e.1 st))
    remoteFiles (localPass cfg env lfs localFiles s)
    (fun e he => hnb e (List.mem_append_right _ (List.mem_append_left _ he)))
  exact h2.trans h1

/-- C7, as amended.  Let the run start with `backupCreated` false, with the
backup directory and the target directory not inside one another, and with
inventories whose keys are distinct (they are Go maps).

If no destructive call succeeded, `backupCreated` is still false and the
cleanup runs: the backup directory is gone when `RemoveDirectory` succeeded;
it never existed when no backup was attempted and it was absent at the start;
it is still there only if `Stat` or `RemoveDirectory` failed (the latter, for
one, because a backup whose mutation then failed lies in it).

If a destructive call succeeded, `backupCreated` is true, the backup
directory exists, and for each path updated or deleted it holds, at the same
relative path, a regular file with the content and permission bits the remote
file had when it was overwritten or removed. -/
theorem backup_dir_at_run_end (cfg : Config) (env : Env) (lfs : LocalFS)
    (localFiles remoteFiles : Inventory) (s : State)
    (hno : NoOverlap cfg env) (hL : (keys localFiles).Nodup) (hR : (keys remoteFiles).Nodup)
    (hs : s.backupCreated = false) :
    ((runEvents cfg env lfs localFiles remoteFiles s).any Event.isDestroyed = false →
      (applyPasses cfg env lfs localFiles remoteFiles s).backupCreated = false ∧
      (Event.removeDirectory (backupDir cfg env) true ∈
          runEvents cfg env lfs localFiles remoteFiles s →
        get (applyPasses cfg env lfs localFiles remoteFiles s).w.fs (backupDir cfg env) =
          none) ∧
      ((∀ e ∈ runEvents cfg env lfs localFiles remoteFiles s, e.isBackup = false) →
        get s.w.fs (backupDir cfg env) = none →
        get (applyPasses cfg env lfs localFiles remoteFiles s).w.fs (backupDir cfg env) =
          none) ∧
      (get (applyPasses cfg env lfs localFiles remoteFiles s).w.fs (backupDir cfg env) ≠
          none →
        Event.stat (backupDir cfg env) false ∈
            runEvents cfg env lfs localFiles remoteFiles s ∨
          Event.removeDirectory (backupDir cfg env) false ∈
            runEvents cfg env lfs localFiles remoteFiles s)) ∧
    ((runEvents cfg env lfs localFiles remoteFiles s).any Event.isDestroyed = true →
      (applyPasses cfg env lfs localFiles remoteFiles s).backupCreated = true ∧
      (get (applyPasses cfg env lfs localFiles remoteFiles s).w.fs
        (backupDir cfg env)).isSome = true ∧
      ∀ e ∈ runEvents cfg env lfs localFiles remoteFiles s, ∀ rp before,
        e.destroyed rp before →
        ∃ relPath, rp = cfg.TargetDir ++ relPath ∧ (fileAt before rp).isSome = true ∧
          fileAt (applyPasses cfg env lfs localFiles remoteFiles s).w.fs
            (backupDir cfg env ++ relPath) = fileAt before rp) := by
  haveI : Nonempty RemoteFS := ⟨[]⟩
  have hflag := applyPasses_flag cfg env lfs localFiles remoteFiles s
  rw [hs, Bool.false_or] at hflag
  constructor
  · intro hzero
    have hsd : (deletePass cfg env localFiles remoteFiles
        (localPass cfg env lfs localFiles s)).backupCreated = false := by
      have := cleanup_flag cfg env (deletePass cfg env localFiles remoteFiles
        (localPass cfg env lfs localFiles s))
      rw [← this]
      show (applyPasses cfg env lfs localFiles remoteFiles s).backupCreated = false
      rw [hflag, hzero]
    have hsub : ∀ e, e ∈ newEvents (deletePass cfg env localFiles remoteFiles
          (localPass cfg env lfs localFiles s))
        (applyPasses cfg env lfs localFiles remoteFiles s) →
        e ∈ runEvents cfg env lfs localFiles remoteFiles s := by
      intro e he
      rw [runEvents_eq]
      exact List.mem_append_right _ (List.mem_append_right _ he)
    have hcases := cleanup_cases cfg env _ hsd
    refine ⟨by rw [hflag, hzero], ?_, ?_, ?_⟩
    · intro hrm
      have hin := passes_no_rmdir cfg env lfs localFiles remoteFiles s hrm rfl
      unfold applyPasses at hin ⊢
      rcases hcases with ⟨hev, _⟩ | ⟨⟨m, hev⟩, _⟩ | ⟨_, hget⟩
      · rw [hev] at hin; simp at hin
      · rw [hev] at hin; simp at hin
      · exact hget
    · intro hnb hnone
      have hget := passes_no_backup_get cfg env lfs localFiles remoteFiles s hno hnb
      unfold applyPasses
      rcases hcases with ⟨_, hfs⟩ | ⟨_, hfs⟩ | ⟨_, hget2⟩
      · rw [hfs, hget, hnone]
      · rw [hfs, hget, hnone]
      · exact hget2
    · intro hne
      rcases hcases with ⟨hev, _⟩ | ⟨⟨m, hev⟩, _⟩ | ⟨_, hget⟩
      · exact Or.inl (hsub _ (by unfold applyPasses; rw [hev]; simp))
      · exact Or.inr (hsub _ (by unfold applyPasses; rw [hev]; simp))
      · exact absurd hget hne
  · intro hsome
    have hall : ∀ e ∈ runEvents cfg env lfs localFiles remoteFiles s, ∀ rp before,
        e.destroyed rp before →
        ∃ relPath, rp = cfg.TargetDir ++ relPath ∧ (fileAt before rp).isSome = true ∧
          fileAt (applyPasses cfg env lfs localFiles remoteFiles s).w.fs
            (backupDir cfg env ++ relPath) = fileAt before rp := by
      intro e he rp before hd
      obtain ⟨r, hrp, hb, _, hk⟩ :=
        run_destroyed cfg env lfs localFiles remoteFiles s hno hL hR he hd
      obtain ⟨h1, h2⟩ := backedUp_fileAt hb
      exact ⟨r, hrp, h1, hk.1.trans h2⟩
    refine ⟨by rw [hflag, hsome], ?_, hall⟩
    rw [List.any_eq_true] at hsome
    obtain ⟨e, he, hde⟩ := hsome
    have hd : ∃ rp before, e.destroyed rp before := by
      cases e with
      | copyFile site lp rp before ok =>
        cases site <;> cases ok <;> simp [Event.isDestroyed] at hde
        exact ⟨rp, before, Or.inl ⟨lp, rfl⟩⟩
      | remove p before ok =>
        cases ok <;> simp [Event.isDestroyed] at hde
        exact ⟨p, before, Or.inr rfl⟩
      | _ => simp [Event.isDestroyed] at hde
    obtain ⟨rp, before, hd⟩ := hd
    obtain ⟨r, _, _, hex, hk⟩ :=
      run_destroyed cfg env lfs localFiles remoteFiles s hno hL hR he hd
    exact hk.2 hex


set_option maxRecDepth 100000 in
/-- C7, counterexample.  First run: `srv/b.txt` is remote-only, its backup
succeeds and its `Remove` is refused.  No destructive call succeeded, yet the
backup directory exists at the end, holding the backup: `RemoveDirectory`
failed on it.  Second run: `srv/c.txt` is there too and is removed.  A
destructive call succeeded, and the backup directory holds the backup of
`b.txt` as well, a path that was neither updated nor deleted. -/
theorem backup_dir_kept_without_destruction :
    ((main cfg0 envNoRemove lfsNone (.ok []) fsB).final.trace.any Event.isDestroyed = false ∧
      (main cfg0 envNoRemove lfsNone (.ok []) fsB).final.backupCreated = false ∧
      (get (main cfg0 envNoRemove lfsNone (.ok []) fsB).final.w.fs
        (backupDir cfg0 envNoRemove)).isSome = true ∧
      fileAt (main cfg0 envNoRemove lfsNone (.ok []) fsB).final.w.fs
        (backupDir cfg0 envNoRemove ++ ["b.txt"]) = some ([7], 0o640) ∧
      Event.removeDirectory (backupDir cfg0 envNoRemove) false ∈
        (main cfg0 envNoRemove lfsNone (.ok []) fsB).final.trace) ∧
    ((main cfg0 envNoRemove lfsNone (.ok []) fsBC).final.backupCreated = true ∧
      Event.log Msg.deleted ["c.txt"] ∈
        (main cfg0 envNoRemove lfsNone (.ok []) fsBC).final.trace ∧
      Event.log Msg.removeError ["b.txt"] ∈
        (main cfg0 envNoRemove lfsNone (.ok []) fsBC).final.trace ∧
      fileAt (main cfg0 envNoRemove lfsNone (.ok []) fsBC).final.w.fs ["srv", "b.txt"] =
        some ([7], 0o640) ∧
      fileAt (main cfg0 envNoRemove lfsNone (.ok []) fsBC).final.w.fs
        (backupDir cfg0 envNoRemove ++ ["b.txt"]) = some ([7], 0o640)) := by
  decide

set_option maxRecDepth 100000 in
theorem backup_dir_at_run_end_witness :
    NoOverlap cfg0 env0 ∧ (keys invA).Nodup ∧ (keys invB).Nodup ∧
    stAB.backupCreated = false ∧
    (runEvents cfg0 env0 lfsA invA invB stAB).any Event.isDestroyed = true ∧
    ((applyPasses cfg0 env0 lfsA invA invB stAB).backupCreated = true ∧
      (get (applyPasses cfg0 env0 lfsA invA invB stAB).w.fs
        (backupDir cfg0 env0)).isSome = true ∧
      ∀ e ∈ runEvents cfg0 env0 lfsA invA invB stAB, ∀ rp before,
        e.destroyed rp before →
        ∃ relPath, rp = cfg0.TargetDir ++ relPath ∧ (fileAt before rp).isSome = true ∧
          fileAt (applyPasses cfg0 env0 lfsA invA invB stAB).w.fs
            (backupDir cfg0 env0 ++ relPath) = fileAt before rp) :=
  ⟨⟨by decide, by decide⟩, by decide, by decide, rfl, by decide,
    (backup_dir_at_run_end cfg0 env0 lfsA invA invB stAB ⟨by decide, by decide⟩
      (by decide) (by decide) rfl).2 (by decide)⟩


/-! ## A failed backup -/

theorem LocalStep_backup_failed {cfg : Config} {env : Env} {lfs : LocalFS} {r : Path}
    {localInfo : FileInfo} {s s1 : State} (h : LocalStep cfg env lfs r localInfo s s1)
    {rp bp : Path} {before : RemoteFS}
    (he : Event.createBackup rp bp before false ∈ newEvents s s1) :
    rp = cfg.TargetDir ++ r ∧
      Changes (fun p => p = backupDir cfg env ++ r) s.w.fs s1.w.fs ∧
      (∀ e ∈ newEvents s s1, e.isCopy = false ∧ e.isRemove = false) := by
  haveI : Nonempty RemoteFS := ⟨[]⟩
  cases h with
  | backupFailed remoteInfo localHash remoteHash e w1 w2 w3 w4 hstat hdiff hlocal hremote hne
      hbackup =>
    have h3 : w3.fs = s.w.fs := (fs_of_remoteHash hremote).trans
      ((fs_of_localHash hlocal).trans (fs_of_stat hstat))
    rw [newEvents_after] at he ⊢
    simp at he
    refine ⟨he.1, h3 ▸ changes_of_backup hbackup rfl, ?_⟩
    simp [Event.isCopy, Event.isRemove]
  | createFailed e e2 w1 w2 hstat hcopy => rw [newEvents_after] at he; simp at he
  | created e w1 w2 hstat hcopy => rw [newEvents_after] at he; simp at he
  | noOp remoteInfo w1 hstat htime hsize => rw [newEvents_after] at he; simp at he
  | localHashFailed remoteInfo e w1 w2 hstat hdiff hlocal =>
    rw [newEvents_after] at he; simp at he
  | remoteHashFailed remoteInfo localHash e w1 w2 w3 hstat hdiff hlocal hremote =>
    rw [newEvents_after] at he; simp at he
  | retouchFailed remoteInfo hash e w1 w2 w3 w4 hstat hdiff hlocal hremote htouch =>
    rw [newEvents_after] at he; simp at he
  | retouched remoteInfo hash w1 w2 w3 w4 hstat hdiff hlocal hremote htouch =>
    rw [newEvents_after] at he; simp at he
  | updateFailed remoteInfo localHash remoteHash e w1 w2 w3 w4 w5 hstat hdiff hlocal hremote hne
      hbackup hcopy =>
    rw [newEvents_after] at he; simp at he
  | updated remoteInfo localHash remoteHash w1 w2 w3 w4 w5 hstat hdiff hlocal hremote hne
      hbackup hcopy =>
    rw [newEvents_after] at he; simp at he

theorem RemoteStep_backup_failed {cfg : Config} {env : Env} {localFiles : Inventory} {r : Path}
    {s s1 : State} (h : RemoteStep cfg env localFiles r s s1)
    {rp bp : Path} {before : RemoteFS}
    (he : Event.createBackup rp bp before false ∈ newEvents s s1) :
    rp = cfg.TargetDir ++ r ∧ r ∉ keys localFiles ∧
      Changes (fun p => p = backupDir cfg env ++ r) s.w.fs s1.w.fs ∧
      (∀ e ∈ newEvents s s1, e.isCopy = false ∧ e.isRemove = false) := by
  haveI : Nonempty RemoteFS := ⟨[]⟩
  cases h with
  | kept hkey => rw [newEvents_self] at he; simp at he
  | backupFailed e w1 hkey hbackup =>
    rw [newEvents_after] at he ⊢
    simp at he
    refine ⟨he.1, (hasKey_false_iff _ _).1 hkey, changes_of_backup hbackup rfl, ?_⟩
    simp [Event.isCopy, Event.isRemove]
  | removeFailed e w1 w2 hkey hbackup hremove => rw [newEvents_after] at he; simp at he
  | deleted w1 w2 hkey hbackup hremove => rw [newEvents_after] at he; simp at he

theorem localPass_keepsFile (cfg : Config) (env : Env) (lfs : LocalFS)
    (hno : NoOverlap cfg env) (relPath : Path) (l : Inventory) (s : State)
    (hl : ∀ a ∈ l, a.1 ≠ relPath) :
    fileAt (localPass cfg env lfs l s).w.fs (cfg.TargetDir ++ relPath) =
      fileAt s.w.fs (cfg.TargetDir ++ relPath) := by
  refine Changes_fileAt (localPass_changes cfg env lfs
    (fun p => ∃ r, r ≠ relPath ∧ StepPaths cfg env r p) l s
    (fun a ha p hp => ⟨a.1, hl a ha, hp⟩)) ?_
  rintro ⟨r, hr, hp⟩
  exact not_stepPaths_target hno hr hp

theorem deletePass_keepsFile (cfg : Config) (env : Env) (localFiles : Inventory)
    (hno : NoOverlap cfg env) (relPath : Path) (l : Inventory) (s : State)
    (hl : ∀ a ∈ l, a.1 ∉ keys localFiles → a.1 ≠ relPath) :
    fileAt (deletePass cfg env localFiles l s).w.fs (cfg.TargetDir ++ relPath) =
      fileAt s.w.fs (cfg.TargetDir ++ relPath) := by
  refine Changes_fileAt (deletePass_changes cfg env localFiles
    (fun p => ∃ r, r ≠ relPath ∧ StepPaths cfg env r p) l s
    (fun a ha hk p hp => ⟨a.1, hl a ha hk, hp⟩)) ?_
  rintro ⟨r, hr, hp⟩
  exact not_stepPaths_target hno hr hp

theorem cleanup_keepsFile (cfg : Config) (env : Env) (hno : NoOverlap cfg env)
    (relPath : Path) (s : State) :
    fileAt (cleanup cfg env s).w.fs (cfg.TargetDir ++ relPath) =
      fileAt s.w.fs (cfg.TargetDir ++ relPath) :=
  Changes_fileAt (cleanup_changes cfg env s (fun p => p = backupDir cfg env) rfl)
    (fun h => backupDir_ne_target hno relPath h.symm)

/-- C4, as amended.  Let the inventories have distinct keys (they are Go
maps).  If `createBackup` returns an error for a path, in the Update branch or
in the Delete pass, then in every configuration no `copyFile` and no `Remove`
is issued for that path in the run; `backupCreated` is set by successful
destructive calls only, hence not by that path; and the loops go on: the
counter is advanced once for every path.  When the backup directory and the
target directory do not lie inside one another, the remote file at that path
has the same content, permission bits and existence after the run as before
it. -/
theorem backup_failure_leaves_file (cfg : Config) (env : Env) (lfs : LocalFS)
    (localFiles remoteFiles : Inventory) (s : State)
    (hL : (keys localFiles).Nodup) (hR : (keys remoteFiles).Nodup)
    (relPath : Path) (before : RemoteFS)
    (hfail : Event.createBackup (cfg.TargetDir ++ relPath) (backupDir cfg env ++ relPath)
      before false ∈ runEvents cfg env lfs localFiles remoteFiles s) :
    (∀ site lp b ok, Event.copyFile site lp (cfg.TargetDir ++ relPath) b ok ∉
      runEvents cfg env lfs localFiles remoteFiles s) ∧
    (∀ b ok, Event.remove (cfg.TargetDir ++ relPath) b ok ∉
      runEvents cfg env lfs localFiles remoteFiles s) ∧
    (applyPasses cfg env lfs localFiles remoteFiles s).backupCreated =
      (s.backupCreated ||
        (runEvents cfg env lfs localFiles remoteFiles s).any Event.isDestroyed) ∧
    (∀ e ∈ runEvents cfg env lfs localFiles remoteFiles s, ∀ rp b,
      e.destroyed rp b → rp ≠ cfg.TargetDir ++ relPath) ∧
    (applyPasses cfg env lfs localFiles remoteFiles s).bar =
      s.bar + localFiles.length + (remoteOnly localFiles remoteFiles).length ∧
    (NoOverlap cfg env →
      fileAt (applyPasses cfg env lfs localFiles remoteFiles s).w.fs
          (cfg.TargetDir ++ relPath) =
        fileAt s.w.fs (cfg.TargetDir ++ relPath)) := by
  haveI : Nonempty RemoteFS := ⟨[]⟩
  have hcopy : ∀ site lp b ok, Event.copyFile site lp (cfg.TargetDir ++ relPath) b ok ∉
      runEvents cfg env lfs localFiles remoteFiles s := by
    intro site lp b ok hcopy
    have hc := runEvents_copy cfg env lfs localFiles remoteFiles s hcopy
    rw [localPass_mem] at hc
    obtain ⟨pre1, a1, post1, hl1, hc⟩ := hc
    have ha1 : relPath = a1.1 := List.append_cancel_left
      (LocalStep_copy_target (processLocal_step cfg env lfs a1.1 a1.2 _) hc).1
    rw [runEvents_eq, List.mem_append, List.mem_append] at hfail
    rcases hfail with hf | hf | hf
    · rw [localPass_mem] at hf
      obtain ⟨pre, a, post, hl, hf⟩ := hf
      obtain ⟨hrp, _, hnc⟩ :=
        LocalStep_backup_failed (processLocal_step cfg env lfs a.1 a.2 _) hf
      have ha : relPath = a.1 := List.append_cancel_left hrp
      obtain ⟨rfl, rfl, rfl⟩ := nodup_split_unique hL hl hl1 (ha.symm.trans ha1)
      have := (hnc _ hc).1
      simp [Event.isCopy] at this
    · rw [deleteEvents_mem] at hf
      obtain ⟨pre, a, post, hl, hf⟩ := hf
      obtain ⟨hrp, hk, _, _⟩ :=
        RemoteStep_backup_failed (processRemote_step cfg env localFiles a.1 _) hf
      have ha : relPath = a.1 := List.append_cancel_left hrp
      exact hk (ha ▸ ha1 ▸ fst_mem_keys hl1)
    · have := (cleanup_events cfg env _ _ hf).2.2
      simp [Event.isBackup] at this
  have hremove : ∀ b ok, Event.remove (cfg.TargetDir ++ relPath) b ok ∉
      runEvents cfg env lfs localFiles remoteFiles s := by
    intro b ok hrem
    have hr := runEvents_remove cfg env lfs localFiles remoteFiles s hrem
    rw [deleteEvents_mem] at hr
    obtain ⟨pre1, a1, post1, hl1, hr⟩ := hr
    obtain ⟨hk1, hp1, _⟩ := RemoteStep_remove_mem (processRemote_step cfg env localFiles a1.1 _) hr
    have ha1 : relPath = a1.1 := List.append_cancel_left hp1
    rw [runEvents_eq, List.mem_append, List.mem_append] at hfail
    rcases hfail with hf | hf | hf
    · rw [localPass_mem] at hf
      obtain ⟨pre, a, post, hl, hf⟩ := hf
      obtain ⟨hrp, _, _⟩ :=
        LocalStep_backup_failed (processLocal_step cfg env lfs a.1 a.2 _) hf
      have ha : relPath = a.1 := List.append_cancel_left hrp
      exact hk1 (ha1 ▸ ha ▸ fst_mem_keys hl)
    · rw [deleteEvents_mem] at hf
      obtain ⟨pre, a, post, hl, hf⟩ := hf
      obtain ⟨hrp, _, _, hnc⟩ :=
        RemoteStep_backup_failed (processRemote_step cfg env localFiles a.1 _) hf
      have ha : relPath = a.1 := List.append_cancel_left hrp
      obtain ⟨rfl, rfl, rfl⟩ := nodup_split_unique hR hl hl1 (ha.symm.trans ha1)
      have := (hnc _ hr).2
      simp [Event.isRemove] at this
    · have := (cleanup_events cfg env _ _ hf).2.2
      simp [Event.isBackup] at this
  refine ⟨hcopy, hremove, applyPasses_flag cfg env lfs localFiles remoteFiles s, ?_,
    applyPasses_bar cfg env lfs localFiles remoteFiles s, fun hno => ?_⟩
  · intro e he rp b hd heq
    subst heq
    rcases hd with ⟨lp, rfl⟩ | rfl
    · exact hcopy _ _ _ _ he
    · exact hremove _ _ he
  · unfold applyPasses
    rw [cleanup_keepsFile cfg env hno]
    rw [runEvents_eq, List.mem_append, List.mem_append] at hfail
    rcases hfail with hf | hf | hf
    · rw [localPass_mem] at hf
      obtain ⟨pre, a, post, hl, hf⟩ := hf
      obtain ⟨hrp, hch, _⟩ :=
        LocalStep_backup_failed (processLocal_step cfg env lfs a.1 a.2 _) hf
      have ha : relPath = a.1 := List.append_cancel_left hrp
      obtain ⟨hpre, hpost⟩ := nodup_split_ne hL hl
      have hmem : a.1 ∈ keys localFiles := fst_mem_keys hl
      rw [deletePass_keepsFile cfg env localFiles hno relPath remoteFiles _
        (fun b _ hbk heq => hbk (heq ▸ ha ▸ hmem))]
      have hsplit := localPass_split cfg env lfs pre post a s
      rw [← hl] at hsplit
      rw [hsplit, localPass_keepsFile cfg env lfs hno relPath post _ (ha ▸ hpost),
        Changes_fileAt hch (fun h => target_ne_backup hno relPath a.1 h),
        localPass_keepsFile cfg env lfs hno relPath pre _ (ha ▸ hpre)]
    · rw [deleteEvents_mem] at hf
      obtain ⟨pre, a, post, hl, hf⟩ := hf
      obtain ⟨hrp, hk, hch, _⟩ :=
        RemoteStep_backup_failed (processRemote_step cfg env localFiles a.1 _) hf
      have ha : relPath = a.1 := List.append_cancel_left hrp
      obtain ⟨hpre, hpost⟩ := nodup_split_ne hR hl
      have hsplit := deletePass_split cfg env localFiles pre post a
        (localPass cfg env lfs localFiles s)
      rw [← hl] at hsplit
      rw [hsplit, deletePass_keepsFile cfg env localFiles hno relPath post _
          (fun b hb _ => ha ▸ hpost b hb),
        Changes_fileAt hch (fun h => target_ne_backup hno relPath a.1 h),
        deletePass_keepsFile cfg env localFiles hno relPath pre _
          (fun b hb _ => ha ▸ hpre b hb),
        localPass_keepsFile cfg env lfs hno relPath localFiles s]
      intro b hb heq
      exact hk (ha ▸ heq ▸ List.mem_map_of_mem Prod.fst hb)
    · have := (cleanup_events cfg env _ _ hf).2.2
      simp [Event.isBackup] at this


set_option maxRecDepth 100000 in
/-- C4, counterexample: the target directory is the run's backup directory,
so the backup path of `b.txt` is the file itself.  `createBackup` truncates
it on `Create` and then fails on `Chmod`; no `Remove` is issued, and the
remote file has lost its content. -/
theorem backup_failure_truncates_aliased_file :
    backupDir cfgAlias envNoChmod = cfgAlias.TargetDir ∧
    Event.createBackup (cfgAlias.TargetDir ++ ["b.txt"])
        (backupDir cfgAlias envNoChmod ++ ["b.txt"]) fsAlias false ∈
      (main cfgAlias envNoChmod lfsNone (.ok []) fsAlias).final.trace ∧
    (main cfgAlias envNoChmod lfsNone (.ok []) fsAlias).final.trace.any
      (fun e => e.isRemove || e.isCopy) = false ∧
    fileAt fsAlias (cfgAlias.TargetDir ++ ["b.txt"]) = some ([7], 0o640) ∧
    fileAt (main cfgAlias envNoChmod lfsNone (.ok []) fsAlias).final.w.fs
      (cfgAlias.TargetDir ++ ["b.txt"]) = some ([], 0o640) := by
  decide

set_option maxRecDepth 100000 in
/-- The amended C4 at the run over `fsB` in which `Chmod` on the backup of
`b.txt` is refused. -/
theorem backup_failure_leaves_file_witness :
    NoOverlap cfg0 envNoChmod ∧ (keys ([] : Inventory)).Nodup ∧ (keys invB).Nodup ∧
    Event.createBackup (cfg0.TargetDir ++ ["b.txt"]) (backupDir cfg0 envNoChmod ++ ["b.txt"])
      fsB false ∈ runEvents cfg0 envNoChmod lfsNone [] invB stAB ∧
    ((∀ site lp b ok, Event.copyFile site lp (cfg0.TargetDir ++ ["b.txt"]) b ok ∉
        runEvents cfg0 envNoChmod lfsNone [] invB stAB) ∧
      (∀ b ok, Event.remove (cfg0.TargetDir ++ ["b.txt"]) b ok ∉
        runEvents cfg0 envNoChmod lfsNone [] invB stAB) ∧
      (applyPasses cfg0 envNoChmod lfsNone [] invB stAB).backupCreated =
        (stAB.backupCreated ||
          (runEvents cfg0 envNoChmod lfsNone [] invB stAB).any Event.isDestroyed) ∧
      (∀ e ∈ runEvents cfg0 envNoChmod lfsNone [] invB stAB, ∀ rp b,
        e.destroyed rp b → rp ≠ cfg0.TargetDir ++ ["b.txt"]) ∧
      (applyPasses cfg0 envNoChmod lfsNone [] invB stAB).bar =
        stAB.bar + ([] : Inventory).length + (remoteOnly [] invB).length ∧
      (NoOverlap cfg0 envNoChmod →
        fileAt (applyPasses cfg0 envNoChmod lfsNone [] invB stAB).w.fs
            (cfg0.TargetDir ++ ["b.txt"]) =
          fileAt stAB.w.fs (cfg0.TargetDir ++ ["b.txt"]))) :=
  ⟨⟨by decide, by decide⟩, by decide, by decide, by decide,
    backup_failure_leaves_file cfg0 envNoChmod lfsNone [] invB stAB
      (by decide) (by decide) ["b.txt"] fsB (by decide)⟩

/-! ## Which entries a run adds -/

theorem Adds_refl (S : Path → Prop) (fs : RemoteFS) : Adds S fs fs :=
  fun _ h => Or.inl h

theorem Adds_trans {S : Path → Prop} {a b c : RemoteFS}
    (h1 : Adds S a b) (h2 : Adds S b c) : Adds S a c := by
  intro e he
  rcases h2 e he with h | h
  · exact h1 e h
  · exact Or.inr h

theorem Adds_weaken {S T : Path → Prop} {a b : RemoteFS} (h : Adds S a b)
    (hST : ∀ p, S p → T p) : Adds T a b := by
  intro e he
  rcases h e he with h | h | h
  · exact Or.inl h
  · exact Or.inr (Or.inl h)
  · exact Or.inr (Or.inr (hST _ h))

theorem mem_del {fs : RemoteFS} {p : Path} {e : Path × Node} (h : e ∈ del fs p) :
    e ∈ fs ∧ e.1 ≠ p := by
  unfold del at h
  rw [List.mem_filter] at h
  exact ⟨h.1, by simpa using h.2⟩

theorem Adds_put {S : Path → Prop} (fs : RemoteFS) (p : Path) (n : Node)
    (hp : n.isDir = true ∨ S p) : Adds S fs (put fs p n) := by
  intro e he
  unfold put at he
  rcases List.mem_cons.1 he with rfl | h
  · exact Or.inr hp
  · exact Or.inl (mem_del h).1

theorem Adds_del {S : Path → Prop} (fs : RemoteFS) (p : Path) : Adds S fs (del fs p) :=
  fun _ he => Or.inl (mem_del he).1

theorem adds_of_eq {S : Path → Prop} {fs fs1 : RemoteFS} (h : fs1 = fs) : Adds S fs fs1 :=
  h ▸ Adds_refl S fs

theorem mkdirFrom_adds {S : Path → Prop} (now : Time) (rest : List String) :
    ∀ (fs : RemoteFS) (base : Path), Adds S fs (mkdirFrom now fs base rest).2 := by
  induction rest with
  | nil => intro fs base; exact Adds_refl _ _
  | cons x rest ih =>
    intro fs base
    unfold mkdirFrom
    split
    · split_ifs
      · exact ih fs _
      · exact Adds_refl _ _
    · exact Adds_trans (Adds_put fs _ _ (Or.inl rfl)) (ih _ _)

theorem sftpMkdirAll_adds {S : Path → Prop} (env : Env) (d : Path) (w : World) :
    Adds S w.fs (sftpMkdirAll env d w).2.fs := by
  unfold sftpMkdirAll
  split_ifs
  · exact mkdirFrom_adds _ _ _ _
  · exact mkdirFrom_adds _ _ _ _

theorem sftpCreate_adds {S : Path → Prop} (env : Env) (p : Path) (w : World) (hp : S p) :
    Adds S w.fs (sftpCreate env p w).2.fs := by
  unfold sftpCreate
  split_ifs
  · exact Adds_refl _ _
  · exact Adds_refl _ _
  · split
    · split_ifs
      · exact Adds_refl _ _
      · exact Adds_put _ _ _ (Or.inr hp)
    · exact Adds_put _ _ _ (Or.inr hp)
  · exact Adds_refl _ _

theorem writeAll_adds {S : Path → Prop} (env : Env) (p : Path) (data : Bytes) (w : World)
    (hp : S p) : Adds S w.fs (writeAll env p data w).2.fs := by
  unfold writeAll
  split
  · exact Adds_refl _ _
  · split_ifs
    · exact Adds_refl _ _
    · exact Adds_put _ _ _ (Or.inr hp)
    · exact Adds_put _ _ _ (Or.inr hp)

theorem readFromRemote_adds {S : Path → Prop} (env : Env) (p src : Path) (w : World)
    (hp : S p) : Adds S w.fs (readFromRemote env p src w).2.fs := by
  unfold readFromRemote
  split
  · exact Adds_refl _ _
  · split_ifs
    · exact Adds_refl _ _
    · exact writeAll_adds env p _ w hp

theorem sftpChmod_adds {S : Path → Prop} (env : Env) (p : Path) (mode : Nat) (w : World)
    (hp : S p) : Adds S w.fs (sftpChmod env p mode w).2.fs := by
  unfold sftpChmod
  split_ifs
  · exact Adds_refl _ _
  · split
    · exact Adds_refl _ _
    · exact Adds_put _ _ _ (Or.inr hp)

theorem sftpChtimes_adds {S : Path → Prop} (env : Env) (p : Path) (a m : Time) (w : World)
    (hp : S p) : Adds S w.fs (sftpChtimes env p a m w).2.fs := by
  unfold sftpChtimes
  split_ifs
  · exact Adds_refl _ _
  · split
    · exact Adds_refl _ _
    · exact Adds_put _ _ _ (Or.inr hp)

theorem sftpRemove_adds {S : Path → Prop} (env : Env) (p : Path) (w : World) :
    Adds S w.fs (sftpRemove env p w).2.fs := by
  unfold sftpRemove
  split_ifs
  · exact Adds_refl _ _
  · split
    · exact Adds_refl _ _
    · split_ifs
      · exact Adds_refl _ _
      · exact Adds_del _ _

theorem andThen_adds {α β : Type} {S : Path → Prop} {fs : RemoteFS}
    (r : Except Err α × World) (k : α → World → Except Err β × World)
    (h1 : Adds S fs r.2.fs) (h2 : ∀ a w, r = (.ok a, w) → Adds S w.fs (k a w).2.fs) :
    Adds S fs (andThen r k).2.fs := by
  obtain ⟨r1, r2⟩ := r
  cases r1 with
  | error e => exact h1
  | ok a => exact Adds_trans h1 (h2 a r2 rfl)

theorem copyFile_adds {S : Path → Prop} (env : Env) (lfs : LocalFS) (src dst : Path)
    (w : World) (hp : S dst) : Adds S w.fs (copyFile env lfs src dst w).2.fs := by
  unfold copyFile
  refine andThen_adds _ _ (sftpMkdirAll_adds env _ w) ?_
  intro _ w1 _
  refine andThen_adds _ _ (adds_of_eq (osOpen_fs _ _ _ _)) ?_
  intro f w2 _
  refine andThen_adds _ _ (sftpCreate_adds env dst w2 hp) ?_
  intro d w3 hc
  obtain ⟨rfl, -⟩ := sftpCreate_ok hc
  refine andThen_adds _ _ (writeAll_adds env d _ w3 hp) ?_
  intro _ w4 _
  refine andThen_adds _ _ (adds_of_eq (osFstat_fs _ _ _ _)) ?_
  intro m w5 _
  exact sftpChmod_adds env d m w5 hp

theorem createBackup_adds {S : Path → Prop} (env : Env) (rp bp : Path)
    (w : World) (hp : S bp) : Adds S w.fs (createBackup env rp bp w).2.fs := by
  unfold createBackup
  refine andThen_adds _ _ (sftpMkdirAll_adds env _ w) ?_
  intro _ w1 _
  refine andThen_adds _ _ (adds_of_eq (sftpOpen_fs _ _ _)) ?_
  intro f w2 _
  refine andThen_adds _ _ (sftpCreate_adds env bp w2 hp) ?_
  intro d w3 hc
  obtain ⟨rfl, -⟩ := sftpCreate_ok hc
  refine andThen_adds _ _ (readFromRemote_adds env d _ w3 hp) ?_
  intro _ w4 _
  refine andThen_adds _ _ (adds_of_eq (sftpFstat_fs _ _ _)) ?_
  intro m w5 _
  exact sftpChmod_adds env d _ w5 hp

theorem adds_of_copy {S : Path → Prop} {env : Env} {lfs : LocalFS} {src dst : Path}
    {w w1 : World} {r : Except Err Unit} (h : copyFile env lfs src dst w = (r, w1))
    (hp : S dst) : Adds S w.fs w1.fs := by
  have := copyFile_adds env lfs src dst w hp
  rw [h] at this
  exact this

theorem adds_of_backup {S : Path → Prop} {env : Env} {rp bp : Path}
    {w w1 : World} {r : Except Err Unit} (h : createBackup env rp bp w = (r, w1))
    (hp : S bp) : Adds S w.fs w1.fs := by
  have := createBackup_adds env rp bp w hp
  rw [h] at this
  exact this

theorem adds_of_chtimes {S : Path → Prop} {env : Env} {p : Path} {a m : Time}
    {w w1 : World} {r : Except Err Unit} (h : sftpChtimes env p a m w = (r, w1))
    (hp : S p) : Adds S w.fs w1.fs := by
  have := sftpChtimes_adds env p a m w hp
  rw [h] at this
  exact this

theorem adds_of_remove {S : Path → Prop} {env : Env} {p : Path}
    {w w1 : World} {r : Except Err Unit} (h : sftpRemove env p w = (r, w1)) :
    Adds S w.fs w1.fs := by
  have := sftpRemove_adds (S := S) env p w
  rw [h] at this
  exact this

theorem LocalStep_adds {cfg : Config} {env : Env} {lfs : LocalFS} {relPath : Path}
    {localInfo : FileInfo} {s s1 : State} (h : LocalStep cfg env lfs relPath localInfo s s1) :
    Adds (StepPaths cfg env relPath) s.w.fs s1.w.fs := by
  have hT : StepPaths cfg env relPath (cfg.TargetDir ++ relPath) := Or.inl rfl
  have hB : StepPaths cfg env relPath (backupDir cfg env ++ relPath) := Or.inr rfl
  cases h with
  | createFailed e e2 w1 w2 hstat hcopy =>
    exact fs_of_stat hstat ▸ adds_of_copy hcopy hT
  | created e w1 w2 hstat hcopy =>
    exact fs_of_stat hstat ▸ adds_of_copy hcopy hT
  | noOp remoteInfo w1 hstat htime hsize =>
    exact adds_of_eq (fs_of_stat hstat)
  | localHashFailed remoteInfo e w1 w2 hstat hdiff hlocal =>
    exact adds_of_eq ((fs_of_localHash hlocal).trans (fs_of_stat hstat))
  | remoteHashFailed remoteInfo localHash e w1 w2 w3 hstat hdiff hlocal hremote =>
    exact adds_of_eq ((fs_of_remoteHash hremote).trans
      ((fs_of_localHash hlocal).trans (fs_of_stat hstat)))
  | retouchFailed remoteInfo hash e w1 w2 w3 w4 hstat hdiff hlocal hremote htouch =>
    have h3 : w3.fs = s.w.fs := (fs_of_remoteHash hremote).trans
      ((fs_of_localHash hlocal).trans (fs_of_stat hstat))
    exact h3 ▸ adds_of_chtimes htouch hT
  | retouched remoteInfo hash w1 w2 w3 w4 hstat hdiff hlocal hremote htouch =>
    have h3 : w3.fs = s.w.fs := (fs_of_remoteHash hremote).trans
      ((fs_of_localHash hlocal).trans (fs_of_stat hstat))
    exact h3 ▸ adds_of_chtimes htouch hT
  | backupFailed remoteInfo localHash remoteHash e w1 w2 w3 w4 hstat hdiff hlocal hremote hne
      hbackup =>
    have h3 : w3.fs = s.w.fs := (fs_of_remoteHash hremote).trans
      ((fs_of_localHash hlocal).trans (fs_of_stat hstat))
    exact h3 ▸ adds_of_backup hbackup hB
  | updateFailed remoteInfo localHash remoteHash e w1 w2 w3 w4 w5 hstat hdiff hlocal hremote hne
      hbackup hcopy =>
    have h3 : w3.fs = s.w.fs := (fs_of_remoteHash hremote).trans
      ((fs_of_localHash hlocal).trans (fs_of_stat hstat))
    exact h3 ▸ Adds_trans (adds_of_backup hbackup hB) (adds_of_copy hcopy hT)
  | updated remoteInfo localHash remoteHash w1 w2 w3 w4 w5 hstat hdiff hlocal hremote hne
      hbackup hcopy =>
    have h3 : w3.fs = s.w.fs := (fs_of_remoteHash hremote).trans
      ((fs_of_localHash hlocal).trans (fs_of_stat hstat))
    exact h3 ▸ Adds_trans (adds_of_backup hbackup hB) (adds_of_copy hcopy hT)

theorem localPass_adds (cfg : Config) (env : Env) (lfs : LocalFS) (S : Path → Prop) :
    ∀ (l : Inventory) (s : State), (∀ a ∈ l, ∀ p, StepPaths cfg env a.1 p → S p) →
      Adds S s.w.fs (localPass cfg env lfs l s).w.fs := by
  intro l
  induction l with
  | nil => intro s _; exact Adds_refl _ _
  | cons a rest ih =>
    intro s hS
    unfold localPass at ih ⊢
    rw [List.foldl_cons]
    exact Adds_trans
      (Adds_weaken (LocalStep_adds (processLocal_step cfg env lfs a.1 a.2 s))
        (hS a (List.mem_cons_self _ _)))
      (ih _ (fun b hb => hS b (List.mem_cons_of_mem _ hb)))


/-! ## The remote walk finds every file of a tree -/

theorem sftpReadDir_fs (env : Env) (d : Path) (w : World) :
    (sftpReadDir env d w).2.fs = w.fs := by
  unfold sftpReadDir
  split_ifs
  · rfl
  · rfl
  · split <;> rfl

theorem sftpReadDir_ok {env : Env} {d : Path} {w w1 : World} {entries : List FileInfo}
    (h : sftpReadDir env d w = (.ok entries, w1)) :
    w1.fs = w.fs ∧ entries = (children w.fs d).map (fun e => infoOf e.1 e.2) := by
  have hfs := sftpReadDir_fs env d w
  rw [h] at hfs
  refine ⟨hfs, ?_⟩
  unfold sftpReadDir at h
  split_ifs at h
  · cases h
  · simp only [Prod.mk.injEq, Except.ok.injEq] at h
    exact h.1.symm
  · split at h <;> cases h

theorem mem_children {fs : RemoteFS} {d : Path} {e : Path × Node} :
    e ∈ children fs d ↔ e ∈ fs ∧ e.1 ≠ [] ∧ e.1.dropLast = d := by
  unfold children isChild
  rw [List.mem_filter]
  simp

theorem child_path {d q : Path} (hne : q ≠ []) (hd : q.dropLast = d) :
    d ++ [q.getLastD ""] = q := by
  subst hd
  rw [List.getLastD_eq_getLast?, List.getLast?_eq_getLast _ hne]
  simp [List.dropLast_append_getLast hne]

theorem rel_ok {base p : Path} (h : base <+: p) : rel base p = .ok (p.drop base.length) := by
  unfold rel
  rw [if_pos h]

theorem rel_append (base r : Path) : rel base (base ++ r) = .ok r := by
  rw [rel_ok (List.prefix_append _ _)]
  simp


theorem walkEntries_fs (walk : Path → Inventory → World → Except Err Unit × Inventory × World)
    (cfg : Config) (dir : Path)
    (hwalk : ∀ d inv w, (walk d inv w).2.2.fs = w.fs) :
    ∀ (entries : List FileInfo) (inv : Inventory) (w : World),
      (walkEntries walk cfg dir entries inv w).2.2.fs = w.fs := by
  intro entries
  induction entries with
  | nil => intro inv w; rfl
  | cons entry rest ih =>
    intro inv w
    unfold walkEntries
    simp only []
    split_ifs with hd
    · have h1 := hwalk (dir ++ [entry.name]) inv w
      split
      · rename_i e inv1 w1 heq
        rw [heq] at h1
        exact h1
      · rename_i u inv1 w1 heq
        rw [heq] at h1
        rw [ih inv1 w1, h1]
    · split
      · rfl
      · exact ih _ w

theorem walkRemote_fs (cfg : Config) (env : Env) :
    ∀ (fuel : Nat) (dir : Path) (inv : Inventory) (w : World),
      (walkRemote cfg env fuel dir inv w).2.2.fs = w.fs := by
  intro fuel
  induction fuel with
  | zero => intro dir inv w; rfl
  | succ n ih =>
    intro dir inv w
    unfold walkRemote
    split
    · rename_i e w1 heq
      have := sftpReadDir_fs env dir w
      rw [heq] at this
      exact this
    · rename_i entries w1 heq
      have := sftpReadDir_fs env dir w
      rw [heq] at this
      rw [walkEntries_fs _ cfg dir ih, this]

theorem keys_mapSet_sub (m : Inventory) (k : Path) (v : FileInfo) (q : Path)
    (h : q ∈ keys (mapSet m k v)) : q = k ∨ q ∈ keys m := by
  unfold keys mapSet at *
  rw [List.map_cons, List.mem_cons] at h
  rcases h with h | h
  · exact Or.inl h
  · rw [List.mem_map] at h ⊢
    obtain ⟨a, ha, rfl⟩ := h
    exact Or.inr ⟨a, (List.mem_filter.1 ha).1, rfl⟩

theorem walkEntries_sound
    (walk : Path → Inventory → World → Except Err Unit × Inventory × World)
    (cfg : Config) (dir : Path) (fs : RemoteFS) (hdir : cfg.TargetDir <+: dir)
    (hfs : ∀ d inv w, (walk d inv w).2.2.fs = w.fs)
    (hwalk : ∀ d inv w, cfg.TargetDir <+: d → w.fs = fs → ∀ k ∈ keys (walk d inv w).2.1,
      k ∈ keys inv ∨ (k ≠ [] ∧ ∃ n, (cfg.TargetDir ++ k, n) ∈ fs ∧ n.isDir = false)) :
    ∀ (entries : List FileInfo) (inv : Inventory) (w : World), w.fs = fs →
      (∀ i ∈ entries, i.isDir = false → ∃ n, (dir ++ [i.name], n) ∈ fs ∧ n.isDir = false) →
      ∀ k ∈ keys (walkEntries walk cfg dir entries inv w).2.1,
        k ∈ keys inv ∨ (k ≠ [] ∧ ∃ n, (cfg.TargetDir ++ k, n) ∈ fs ∧ n.isDir = false) := by
  intro entries
  induction entries with
  | nil => intro inv w _ _ k hk; exact Or.inl hk
  | cons entry rest ih =>
    intro inv w hw hent k hk
    have hrest : ∀ i ∈ rest, i.isDir = false →
        ∃ n, (dir ++ [i.name], n) ∈ fs ∧ n.isDir = false :=
      fun i hi => hent i (List.mem_cons_of_mem _ hi)
    unfold walkEntries at hk
    simp only [] at hk
    split_ifs at hk with hd
    · have h1 := hwalk (dir ++ [entry.name]) inv w
        (hdir.trans (List.prefix_append _ _)) hw
      have h2 := hfs (dir ++ [entry.name]) inv w
      split at hk
      · rename_i e inv1 w1 heq
        rw [heq] at h1
        exact h1 k hk
      · rename_i u inv1 w1 heq
        rw [heq] at h1 h2
        rcases ih inv1 w1 (h2.trans hw) hrest k hk with h | h
        · exact h1 k h
        · exact Or.inr h
    · have hpre : cfg.TargetDir <+: dir ++ [entry.name] :=
        hdir.trans (List.prefix_append _ _)
      rw [rel_ok hpre] at hk
      simp only [] at hk
      rcases ih _ w hw hrest k hk with h | h
      · rcases keys_mapSet_sub _ _ _ _ h with rfl | h
        · right
          obtain ⟨n, hn, hnd⟩ := hent entry (List.mem_cons_self _ _) (by simpa using hd)
          obtain ⟨t, ht⟩ := hdir
          have hlen : cfg.TargetDir.length < (dir ++ [entry.name]).length := by
            rw [← ht]; simp
          refine ⟨?_, n, ?_, hnd⟩
          · intro h0
            have := congrArg List.length h0
            simp only [List.length_drop, List.length_nil] at this
            omega
          · have : cfg.TargetDir ++ List.drop cfg.TargetDir.length (dir ++ [entry.name]) =
                dir ++ [entry.name] := by
              obtain ⟨t2, ht2⟩ := hpre
              rw [← ht2]
              simp
            rw [this]
            exact hn
        · exact Or.inl h
      · exact Or.inr h

theorem walkRemote_sound (cfg : Config) (env : Env) (fs : RemoteFS) :
    ∀ (fuel : Nat) (dir : Path) (inv : Inventory) (w : World), cfg.TargetDir <+: dir →
      w.fs = fs → ∀ k ∈ keys (walkRemote cfg env fuel dir inv w).2.1,
        k ∈ keys inv ∨ (k ≠ [] ∧ ∃ n, (cfg.TargetDir ++ k, n) ∈ fs ∧ n.isDir = false) := by
  intro fuel
  induction fuel with
  | zero => intro dir inv w _ _ k hk; exact Or.inl hk
  | succ n ih =>
    intro dir inv w hdir hw k hk
    unfold walkRemote at hk
    split at hk
    · exact Or.inl hk
    · rename_i entries w1 heq
      obtain ⟨hfs1, hent⟩ := sftpReadDir_ok heq
      refine walkEntries_sound _ cfg dir fs hdir (walkRemote_fs cfg env n) ih entries inv w1
        (hfs1.trans hw) ?_ k hk
      intro i hi hnd
      rw [hent, List.mem_map] at hi
      obtain ⟨e, he, rfl⟩ := hi
      rw [mem_children] at he
      refine ⟨e.2, ?_, hnd⟩
      have : dir ++ [(infoOf e.1 e.2).name] = e.1 := child_path he.2.1 he.2.2
      rw [this, ← hw]
      exact he.1


theorem treeShaped_parent {fs : RemoteFS} (h : treeShaped fs = true) {e : Path × Node}
    (he : e ∈ fs) :
    e.1.dropLast = [] ∨ ∃ m, (e.1.dropLast, m) ∈ fs ∧ m.isDir = true := by
  unfold treeShaped at h
  rw [List.all_eq_true] at h
  have h1 := h e he
  rw [Bool.or_eq_true, decide_eq_true_eq, List.any_eq_true] at h1
  rcases h1 with h1 | ⟨d, hd, h2⟩
  · exact Or.inl h1
  · rw [Bool.and_eq_true, decide_eq_true_eq] at h2
    refine Or.inr ⟨d.2, ?_, h2.2⟩
    rw [← h2.1]
    exact hd

theorem treeShaped_ancestor {fs : RemoteFS} (h : treeShaped fs = true) (a : Path)
    (ha : a ≠ []) :
    ∀ (n : Nat) (t : Path) (e : Path × Node), t.length = n → e ∈ fs → e.1 = a ++ t → t ≠ [] →
      ∃ m, (a, m) ∈ fs ∧ m.isDir = true := by
  intro n
  induction n with
  | zero =>
    intro t e hl _ _ hne
    exact absurd (List.length_eq_zero.1 hl) hne
  | succ k ih =>
    intro t e hl he het hne
    have hdl : e.1.dropLast = a ++ t.dropLast := by
      rw [het, List.dropLast_append_of_ne_nil _ hne]
    rcases treeShaped_parent h he with h0 | ⟨m, hm, hmd⟩
    · rw [hdl] at h0
      exact absurd (List.append_eq_nil.1 h0).1 ha
    · rw [hdl] at hm
      by_cases ht : t.dropLast = []
      · rw [ht, List.append_nil] at hm
        exact ⟨m, hm, hmd⟩
      · refine ih t.dropLast (a ++ t.dropLast, m) ?_ hm rfl ht
        rw [List.length_dropLast, hl]
        rfl

theorem walkEntries_complete
    (walk : Path → Inventory → World → Except Err Unit × Inventory × World)
    (cfg : Config) (dir : Path) (fs : RemoteFS) (hdir : cfg.TargetDir <+: dir)
    (hfs : ∀ d inv w, (walk d inv w).2.2.fs = w.fs)
    (hkeys : ∀ d inv w q, q ∈ keys inv → q ∈ keys (walk d inv w).2.1)
    (hwalk : ∀ d inv w inv1 w1, walk d inv w = (.ok (), inv1, w1) → cfg.TargetDir <+: d →
      w.fs = fs → ∀ e ∈ fs, e.2.isDir = false → d <+: e.1 → e.1 ≠ d →
        e.1.drop cfg.TargetDir.length ∈ keys inv1) :
    ∀ (entries : List FileInfo) (inv : Inventory) (w : World) (inv1 : Inventory) (w1 : World),
      walkEntries walk cfg dir entries inv w = (.ok (), inv1, w1) → w.fs = fs →
      ∀ i ∈ entries,
        (i.isDir = false → (dir ++ [i.name]).drop cfg.TargetDir.length ∈ keys inv1) ∧
        (i.isDir = true → ∀ e ∈ fs, e.2.isDir = false → dir ++ [i.name] <+: e.1 →
          e.1 ≠ dir ++ [i.name] → e.1.drop cfg.TargetDir.length ∈ keys inv1) := by
  intro entries
  induction entries with
  | nil => intro inv w inv1 w1 _ _ i hi; cases hi
  | cons entry rest ih =>
    intro inv w inv' w' hres hw i hi
    unfold walkEntries at hres
    simp only [] at hres
    split_ifs at hres with hd
    · split at hres
      · cases hres
      · rename_i u inv1 w1 heq
        have hfs1 : w1.fs = fs := by
          have := hfs (dir ++ [entry.name]) inv w
          rw [heq] at this
          exact this.trans hw
        have hmono : ∀ q, q ∈ keys inv1 → q ∈ keys inv' := by
          intro q hq
          have := walkEntries_keys walk cfg dir hkeys rest inv1 w1 q hq
          rw [hres] at this
          exact this
        rcases List.mem_cons.1 hi with rfl | hi
        · refine ⟨fun h => ?_, fun _ e he hnd hpre hne => ?_⟩
          · rw [hd] at h; cases h
          · exact hmono _ (hwalk _ inv w inv1 w1 heq
              (hdir.trans (List.prefix_append _ _)) hw e he hnd hpre hne)
        · exact ih inv1 w1 inv' w' hres hfs1 i hi
    · have hpre : cfg.TargetDir <+: dir ++ [entry.name] :=
        hdir.trans (List.prefix_append _ _)
      rw [rel_ok hpre] at hres
      simp only [] at hres
      have hmono : ∀ q, q ∈ keys (mapSet inv
          (List.drop cfg.TargetDir.length (dir ++ [entry.name])) entry) → q ∈ keys inv' := by
        intro q hq
        have := walkEntries_keys walk cfg dir hkeys rest _ w q hq
        rw [hres] at this
        exact this
      rcases List.mem_cons.1 hi with rfl | hi
      · refine ⟨fun _ => ?_, fun h => absurd h hd⟩
        apply hmono
        unfold keys mapSet
        exact List.mem_cons_self _ _
      · exact ih _ w inv' w' hres hw i hi

theorem walkRemote_complete (cfg : Config) (env : Env) (fs : RemoteFS)
    (htree : treeShaped fs = true) :
    ∀ (fuel : Nat) (dir : Path) (inv : Inventory) (w : World) (inv1 : Inventory) (w1 : World),
      walkRemote cfg env fuel dir inv w = (.ok (), inv1, w1) → cfg.TargetDir <+: dir →
      w.fs = fs → ∀ e ∈ fs, e.2.isDir = false → dir <+: e.1 → e.1 ≠ dir →
        e.1.drop cfg.TargetDir.length ∈ keys inv1 := by
  intro fuel
  induction fuel with
  | zero =>
    intro dir inv w inv1 w1 hres
    unfold walkRemote at hres
    cases hres
  | succ n ih =>
    intro dir inv w inv' w' hres hdir hw e he hnd hpre hne
    unfold walkRemote at hres
    split at hres
    · cases hres
    · rename_i entries w1 heq
      obtain ⟨hfs1, hent⟩ := sftpReadDir_ok heq
      have hcov := walkEntries_complete _ cfg dir fs hdir (walkRemote_fs cfg env n)
        (walkRemote_keys cfg env n) ih entries inv w1 inv' w' hres (hfs1.trans hw)
      obtain ⟨t, ht⟩ := hpre
      cases t with
      | nil => rw [List.append_nil] at ht; exact absurd ht.symm hne
      | cons x t1 =>
        by_cases ht1 : t1 = []
        · subst ht1
          have hch : e ∈ children fs dir := by
            rw [mem_children]
            refine ⟨he, ?_, ?_⟩
            · rw [← ht]; simp
            · rw [← ht]; simp
          have hi : infoOf e.1 e.2 ∈ entries := by
            rw [hent, hw]
            exact List.mem_map.2 ⟨e, hch, rfl⟩
          have hname : dir ++ [(infoOf e.1 e.2).name] = e.1 :=
            child_path (mem_children.1 hch).2.1 (mem_children.1 hch).2.2
          have := (hcov _ hi).1 hnd
          rw [hname] at this
          exact this
        · have happ : e.1 = (dir ++ [x]) ++ t1 := by rw [← ht]; simp
          obtain ⟨m, hm, hmd⟩ := treeShaped_ancestor htree (dir ++ [x]) (by simp)
            t1.length t1 e rfl he happ ht1
          have hch : (dir ++ [x], m) ∈ children fs dir := by
            rw [mem_children]
            exact ⟨hm, by simp, by simp⟩
          have hi : infoOf (dir ++ [x]) m ∈ entries := by
            rw [hent, hw]
            exact List.mem_map.2 ⟨(dir ++ [x], m), hch, rfl⟩
          have hname : dir ++ [(infoOf (dir ++ [x]) m).name] = dir ++ [x] :=
            child_path (by simp) (by simp)
          have := (hcov _ hi).2 hmd e he hnd
          rw [hname] at this
          refine this ⟨t1, happ.symm⟩ ?_
          rw [happ]
          intro h
          have := congrArg List.length h
          simp only [List.length_append] at this
          have : t1.length = 0 := by omega
          exact ht1 (List.length_eq_zero.1 this)


/-! ## What the successful calls leave -/

theorem osOpen_ok {env : Env} {lfs : LocalFS} {p : Path} {f : LFile} {w w1 : World}
    (h : osOpen env lfs p w = (.ok f, w1)) : lfs p = some f ∧ w1.fs = w.fs := by
  have hfs := osOpen_fs env lfs p w
  rw [h] at hfs
  refine ⟨?_, hfs⟩
  unfold osOpen at h
  split_ifs at h
  · cases h
  · split at h
    · cases h
    · rename_i g hg
      simp only [Prod.mk.injEq, Except.ok.injEq] at h
      rw [hg, h.1]

theorem calculateFileHash_ok {env : Env} {lfs : LocalFS} {p : Path} {d : Digest}
    {w w1 : World} (h : calculateFileHash env lfs p w = (.ok d, w1)) :
    ∃ f, lfs p = some f ∧ d = env.md5 f.data := by
  unfold calculateFileHash at h
  obtain ⟨f, wa, ha, h⟩ := andThen_ok h
  refine ⟨f, (osOpen_ok ha).1, ?_⟩
  unfold osHashRead at h
  split_ifs at h
  · cases h
  · simp only [Prod.mk.injEq, Except.ok.injEq] at h
    exact h.1.symm

theorem calculateRemoteFileHash_ok {env : Env} {p : Path} {d : Digest}
    {w w1 : World} (h : calculateRemoteFileHash env p w = (.ok d, w1)) :
    ∃ n, get w.fs p = some n ∧ d = env.md5 n.data := by
  unfold calculateRemoteFileHash at h
  obtain ⟨f, wa, ha, h2⟩ := andThen_ok h
  obtain ⟨rfl, hfs, -⟩ := sftpOpen_ok ha
  unfold sftpHashRead at h2
  split_ifs at h2
  · cases h2
  · split at h2
    · cases h2
    · rename_i n hn
      split_ifs at h2
      · cases h2
      · simp only [Prod.mk.injEq, Except.ok.injEq] at h2
        rw [hfs] at hn
        exact ⟨n, hn, h2.1.symm⟩

theorem sftpStat_ok {env : Env} {p : Path} {i : FileInfo} {w w1 : World}
    (h : sftpStat env p w = (.ok i, w1)) : ∃ n, get w.fs p = some n ∧ i = infoOf p n := by
  unfold sftpStat at h
  split_ifs at h
  · cases h
  · split at h
    · cases h
    · rename_i n hn
      simp only [Prod.mk.injEq, Except.ok.injEq] at h
      exact ⟨n, hn, h.1.symm⟩

theorem sftpStat_error {env : Env} {p : Path} {e : Err} {w w1 : World}
    (h : sftpStat env p w = (.error e, w1)) (hf : env.fault w.tick (Op.stat p) = false) :
    get w.fs p = none := by
  unfold sftpStat at h
  rw [hf] at h
  simp only [Bool.false_eq_true, if_false] at h
  split at h
  · assumption
  · cases h

theorem sftpRemove_ok {env : Env} {p : Path} {w w1 : World}
    (h : sftpRemove env p w = (.ok (), w1)) : w1.fs = del w.fs p := by
  unfold sftpRemove at h
  split_ifs at h
  · cases h
  · split at h
    · cases h
    · split_ifs at h
      · cases h
      · simp only [Prod.mk.injEq, true_and] at h
        rw [← h]

theorem sftpChtimes_ok {env : Env} {p : Path} {a m : Time} {w w1 : World}
    (h : sftpChtimes env p a m w = (.ok (), w1)) :
    ∃ n, get w.fs p = some n ∧
      w1.fs = put w.fs p { n with atime := sftpTime a, mtime := sftpTime m } := by
  rcases sftpChtimes_cases env p a m w with ⟨e, he⟩ | ⟨n, hn, he⟩
  · rw [he] at h; cases h
  · rw [he] at h
    simp only [Prod.mk.injEq, true_and] at h
    exact ⟨n, hn, by rw [← h]⟩

theorem sftpChtimes_error {env : Env} {p : Path} {a m : Time} {e : Err} {w w1 : World}
    (h : sftpChtimes env p a m w = (.error e, w1)) : w1.fs = w.fs := by
  rcases sftpChtimes_cases env p a m w with ⟨e1, he⟩ | ⟨n, hn, he⟩
  · rw [he] at h
    simp only [Prod.mk.injEq] at h
    rw [← h.2]
    rfl
  · rw [he] at h; cases h

theorem copyFile_ok {env : Env} {lfs : LocalFS} {src dst : Path} {w w1 : World}
    (h : copyFile env lfs src dst w = (.ok (), w1)) :
    ∃ f n, lfs src = some f ∧ get w1.fs dst = some n ∧ n.data = f.data := by
  unfold copyFile at h
  obtain ⟨_, wa, ha, h⟩ := andThen_ok h
  obtain ⟨f, wb, hb, h⟩ := andThen_ok h
  obtain ⟨d, wc, hc, h⟩ := andThen_ok h
  obtain ⟨_, wd, hd, h⟩ := andThen_ok h
  obtain ⟨mode, we, he, h⟩ := andThen_ok h
  obtain ⟨rfl, -⟩ := sftpCreate_ok hc
  obtain ⟨n, hn, hnd, hdfs⟩ := writeAll_ok hd
  obtain ⟨b, hb1, hfs1⟩ := sftpChmod_ok h
  have hefs : we.fs = wd.fs := by
    have := osFstat_fs env src f wd
    rw [he] at this
    exact this
  obtain ⟨x, hx, hxdata⟩ : ∃ x : Node, get w1.fs d = some x ∧ x.data = b.data :=
    ⟨{ b with mode := mode }, by rw [hfs1, get_put, if_pos rfl], rfl⟩
  rw [hefs, hdfs, get_put, if_pos rfl] at hb1
  cases hb1
  exact ⟨f, x, (osOpen_ok hb).1, hx, hxdata⟩

/-! ## A first run without errors settles every local file -/

theorem Settled_of_changes {cfg : Config} {env : Env} {lfs : LocalFS} {a : Path × FileInfo}
    {S : Path → Prop} {fs fs1 : RemoteFS} (h : Changes S fs fs1)
    (hS : ¬ S (cfg.TargetDir ++ a.1)) (hs : Settled cfg env lfs a fs) :
    Settled cfg env lfs a fs1 := by
  obtain ⟨n, hn, hrest⟩ := hs
  refine ⟨n, ?_, hrest⟩
  rcases h _ hS with e | ⟨e, -⟩
  · rw [e, hn]
  · rw [hn] at e; cases e

theorem Settled_md5 {cfg : Config} {env env1 : Env} {lfs : LocalFS} {a : Path × FileInfo}
    {fs : RemoteFS} (h : env1.md5 = env.md5) (hs : Settled cfg env lfs a fs) :
    Settled cfg env1 lfs a fs := by
  obtain ⟨n, hn, hrest⟩ := hs
  refine ⟨n, hn, ?_⟩
  rw [h]
  exact hrest

theorem LocalStep_settles {cfg : Config} {env : Env} {lfs : LocalFS} {a : Path × FileInfo}
    {s s1 : State} (h : LocalStep cfg env lfs a.1 a.2 s s1)
    (hok : ∀ e ∈ newEvents s s1, e.isError = false) : Settled cfg env lfs a s1.w.fs := by
  cases h with
  | createFailed e e2 w1 w2 hstat hcopy =>
    rw [newEvents_after] at hok
    have := hok (Event.log Msg.copyNewError a.1) (by simp)
    simp [Event.isError, Msg.isError] at this
  | created e w1 w2 hstat hcopy =>
    obtain ⟨f, n, hf, hn, hdata⟩ := copyFile_ok hcopy
    refine ⟨n, hn, Or.inr ?_⟩
    intro g hg
    rw [hf] at hg
    cases hg
    rw [hdata]
  | noOp remoteInfo w1 hstat htime hsize =>
    obtain ⟨n, hn, rfl⟩ := sftpStat_ok hstat
    refine ⟨n, ?_, Or.inl ⟨htime, ?_⟩⟩
    · show get w1.fs _ = _
      rw [fs_of_stat hstat, hn]
    · simpa [sizeEqual, infoOf] using hsize
  | localHashFailed remoteInfo e w1 w2 hstat hdiff hlocal =>
    rw [newEvents_after] at hok
    have := hok (Event.log Msg.localHashError a.1) (by simp)
    simp [Event.isError, Msg.isError] at this
  | remoteHashFailed remoteInfo localHash e w1 w2 w3 hstat hdiff hlocal hremote =>
    rw [newEvents_after] at hok
    have := hok (Event.log Msg.remoteHashError a.1) (by simp)
    simp [Event.isError, Msg.isError] at this
  | retouchFailed remoteInfo hash e w1 w2 w3 w4 hstat hdiff hlocal hremote htouch =>
    rw [newEvents_after] at hok
    have := hok (Event.log Msg.chtimesError a.1) (by simp)
    simp [Event.isError, Msg.isError] at this
  | retouched remoteInfo hash w1 w2 w3 w4 hstat hdiff hlocal hremote htouch =>
    obtain ⟨f, hf, hd1⟩ := calculateFileHash_ok hlocal
    obtain ⟨n, hn, hd2⟩ := calculateRemoteFileHash_ok hremote
    obtain ⟨m, hm, hfs⟩ := sftpChtimes_ok htouch
    rw [fs_of_remoteHash hremote] at hm
    rw [hn] at hm
    cases hm
    refine ⟨{ n with atime := sftpTime (env.clock w3.tick), mtime := sftpTime a.2.modTime },
      ?_, Or.inr ?_⟩
    · show get w4.fs _ = _
      rw [hfs, get_put, if_pos rfl]
    · intro g hg
      rw [hf] at hg
      cases hg
      exact hd1.symm.trans hd2
  | backupFailed remoteInfo localHash remoteHash e w1 w2 w3 w4 hstat hdiff hlocal hremote hne
      hbackup =>
    rw [newEvents_after] at hok
    have := hok (Event.log Msg.backupError a.1) (by simp)
    simp [Event.isError, Msg.isError] at this
  | updateFailed remoteInfo localHash remoteHash e w1 w2 w3 w4 w5 hstat hdiff hlocal hremote hne
      hbackup hcopy =>
    rw [newEvents_after] at hok
    have := hok (Event.log Msg.copyUpdateError a.1) (by simp)
    simp [Event.isError, Msg.isError] at this
  | updated remoteInfo localHash remoteHash w1 w2 w3 w4 w5 hstat hdiff hlocal hremote hne
      hbackup hcopy =>
    obtain ⟨f, n, hf, hn, hdata⟩ := copyFile_ok hcopy
    refine ⟨n, hn, Or.inr ?_⟩
    intro g hg
    rw [hf] at hg
    cases hg
    rw [hdata]


theorem mem_trace_of_new {a b : State} (h : Extends a b) {e : Event}
    (he : e ∈ newEvents a b) : e ∈ b.trace := by
  rw [Extends_trace h]
  exact List.mem_append_right _ he

theorem mem_trace_of_extends {a b : State} (h : Extends a b) {e : Event}
    (he : e ∈ a.trace) : e ∈ b.trace := by
  rw [Extends_trace h]
  exact List.mem_append_left _ he

theorem localPass_cons (cfg : Config) (env : Env) (lfs : LocalFS) (a : Path × FileInfo)
    (rest : Inventory) (s : State) :
    localPass cfg env lfs (a :: rest) s =
      localPass cfg env lfs rest (processLocal cfg env lfs a.1 a.2 s) := by
  unfold localPass
  rw [List.foldl_cons]

theorem deletePass_cons (cfg : Config) (env : Env) (localFiles : Inventory)
    (a : Path × FileInfo) (rest : Inventory) (s : State) :
    deletePass cfg env localFiles (a :: rest) s =
      deletePass cfg env localFiles rest (processRemote cfg env localFiles a.1 s) := by
  unfold deletePass
  rw [List.foldl_cons]

theorem localPass_settles (cfg : Config) (env : Env) (lfs : LocalFS)
    (hno : NoOverlap cfg env) :
    ∀ (l : Inventory) (s : State), (keys l).Nodup →
      (∀ e ∈ (localPass cfg env lfs l s).trace, e.isError = false) →
      ∀ a ∈ l, Settled cfg env lfs a (localPass cfg env lfs l s).w.fs := by
  intro l
  induction l with
  | nil => intro s _ _ a ha; cases ha
  | cons b rest ih =>
    intro s hnd hok a ha
    rw [localPass_cons] at hok ⊢
    have hnd1 : b.1 ∉ keys rest ∧ (keys rest).Nodup := by
      unfold keys at hnd ⊢
      rw [List.map_cons] at hnd
      exact List.nodup_cons.1 hnd
    rcases List.mem_cons.1 ha with rfl | ha
    · have hstep := processLocal_step cfg env lfs a.1 a.2 s
      have hs1 : Settled cfg env lfs a (processLocal cfg env lfs a.1 a.2 s).w.fs := by
        refine LocalStep_settles hstep (fun e he => hok e ?_)
        exact mem_trace_of_extends (localPass_extends cfg env lfs rest _)
          (mem_trace_of_new (processLocal_extends cfg env lfs a.1 a.2 s) he)
      refine Settled_of_changes
        (localPass_changes cfg env lfs (fun p => ∃ c ∈ rest, StepPaths cfg env c.1 p) rest _
          (fun c hc p hp => ⟨c, hc, hp⟩)) ?_ hs1
      rintro ⟨c, hc, hp⟩
      have hne : c.1 ≠ a.1 := by
        intro h
        apply hnd1.1
        rw [← h]
        exact List.mem_map.2 ⟨c, hc, rfl⟩
      exact not_stepPaths_target hno hne hp
    · exact ih _ hnd1.2 hok a ha

theorem deletePass_settled (cfg : Config) (env : Env) (lfs : LocalFS) (localFiles : Inventory)
    (hno : NoOverlap cfg env) (l : Inventory) (s : State) (a : Path × FileInfo)
    (ha : a ∈ localFiles) (hs : Settled cfg env lfs a s.w.fs) :
    Settled cfg env lfs a (deletePass cfg env localFiles l s).w.fs := by
  refine Settled_of_changes
    (deletePass_changes cfg env localFiles
      (fun p => ∃ r, r ∉ keys localFiles ∧ StepPaths cfg env r p) l s
      (fun c _ hk p hp => ⟨c.1, hk, hp⟩)) ?_ hs
  rintro ⟨r, hr, hp⟩
  have hne : r ≠ a.1 := by
    rintro rfl
    exact hr (List.mem_map.2 ⟨a, ha, rfl⟩)
  exact not_stepPaths_target hno hne hp

theorem cleanup_settled (cfg : Config) (env : Env) (lfs : LocalFS)
    (hno : NoOverlap cfg env) (s : State) (a : Path × FileInfo)
    (hs : Settled cfg env lfs a s.w.fs) :
    Settled cfg env lfs a (cleanup cfg env s).w.fs :=
  Settled_of_changes (cleanup_changes cfg env s (fun p => p = backupDir cfg env) rfl)
    (fun h => backupDir_ne_target hno a.1 h.symm) hs

/-! ## A first run without errors leaves no unlisted file -/

theorem OnlyListed_walk (cfg : Config) (env : Env) (localFiles : Inventory) (fs : RemoteFS)
    (htree : treeShaped fs = true) {fuel : Nat} {w w1 : World} {remoteFiles : Inventory}
    (hw : w.fs = fs)
    (hwalk : walkRemote cfg env fuel cfg.TargetDir [] w = (.ok (), remoteFiles, w1)) :
    OnlyListed cfg localFiles (keys remoteFiles) fs := by
  intro e he hnd r hr hne
  right
  have := walkRemote_complete cfg env fs htree fuel cfg.TargetDir [] w remoteFiles w1 hwalk
    (List.prefix_refl _) hw e he hnd ⟨r, hr.symm⟩ ?_
  · rw [hr] at this
    simpa using this
  · rw [hr]
    intro h
    have := congrArg List.length h
    simp only [List.length_append] at this
    have : r.length = 0 := by omega
    exact hne (List.length_eq_zero.1 this)

theorem OnlyListed_localPass (cfg : Config) (env : Env) (lfs : LocalFS)
    (hno : NoOverlap cfg env) (localFiles : Inventory) (X : List Path) (s : State)
    (h : OnlyListed cfg localFiles X s.w.fs) :
    OnlyListed cfg localFiles X (localPass cfg env lfs localFiles s).w.fs := by
  intro e he hnd r hr hne
  rcases localPass_adds cfg env lfs (fun p => ∃ c ∈ localFiles, StepPaths cfg env c.1 p)
    localFiles s (fun c hc p hp => ⟨c, hc, hp⟩) e he with h1 | h1 | ⟨c, hc, hp⟩
  · exact h e h1 hnd r hr hne
  · rw [hnd] at h1; cases h1
  · left
    rcases hp with hp | hp
    · rw [hr] at hp
      have := List.append_cancel_left hp
      rw [this]
      exact List.mem_map.2 ⟨c, hc, rfl⟩
    · rw [hr] at hp
      exact absurd hp (target_ne_backup hno r c.1)

theorem RemoteStep_listed {cfg : Config} {env : Env} {localFiles : Inventory} {k : Path}
    {s s1 : State} (h : RemoteStep cfg env localFiles k s s1) (hno : NoOverlap cfg env)
    (hok : ∀ e ∈ newEvents s s1, e.isError = false) (X : List Path)
    (hl : OnlyListed cfg localFiles (k :: X) s.w.fs) :
    OnlyListed cfg localFiles X s1.w.fs := by
  cases h with
  | kept hkey =>
    intro e he hnd r hr hne
    rcases hl e he hnd r hr hne with h1 | h1
    · exact Or.inl h1
    · rcases List.mem_cons.1 h1 with rfl | h1
      · exact Or.inl ((hasKey_iff _ _).1 hkey)
      · exact Or.inr h1
  | backupFailed e w1 hkey hbackup =>
    rw [newEvents_after] at hok
    have := hok (Event.log Msg.deleteBackupError k) (by simp)
    simp [Event.isError, Msg.isError] at this
  | removeFailed e w1 w2 hkey hbackup hremove =>
    rw [newEvents_after] at hok
    have := hok (Event.log Msg.removeError k) (by simp)
    simp [Event.isError, Msg.isError] at this
  | deleted w1 w2 hkey hbackup hremove =>
    intro e he hnd r hr hne
    have he2 : e ∈ del w1.fs (cfg.TargetDir ++ k) := by
      have := sftpRemove_ok hremove
      rw [← this]
      exact he
    obtain ⟨he1, hek⟩ := mem_del he2
    rcases adds_of_backup (S := fun p => p = backupDir cfg env ++ k) hbackup rfl e he1 with
      h1 | h1 | h1
    · rcases hl e h1 hnd r hr hne with h2 | h2
      · exact Or.inl h2
      · rcases List.mem_cons.1 h2 with rfl | h2
        · exact absurd hr hek
        · exact Or.inr h2
    · rw [hnd] at h1; cases h1
    · rw [hr] at h1
      exact absurd h1 (target_ne_backup hno r k)

theorem deletePass_listed (cfg : Config) (env : Env) (localFiles : Inventory)
    (hno : NoOverlap cfg env) :
    ∀ (l : Inventory) (s : State),
      (∀ e ∈ (deletePass cfg env localFiles l s).trace, e.isError = false) →
      OnlyListed cfg localFiles (keys l) s.w.fs →
      OnlyListed cfg localFiles [] (deletePass cfg env localFiles l s).w.fs := by
  intro l
  induction l with
  | nil => intro s _ h; exact h
  | cons a rest ih =>
    intro s hok h
    rw [deletePass_cons] at hok ⊢
    refine ih _ hok ?_
    refine RemoteStep_listed (processRemote_step cfg env localFiles a.1 s) hno
      (fun e he => hok e ?_) (keys rest) h
    exact mem_trace_of_extends (deletePass_extends cfg env localFiles rest _)
      (mem_trace_of_new (processRemote_extends cfg env localFiles a.1 s) he)

theorem cleanup_fs (cfg : Config) (env : Env) (s : State) :
    (cleanup cfg env s).w.fs = s.w.fs ∨
      (cleanup cfg env s).w.fs = del s.w.fs (backupDir cfg env) := by
  unfold cleanup
  split
  · split
    · rename_i e w1 hstat
      exact Or.inl (fs_of_stat hstat)
    · rename_i info w1 hstat
      rcases sftpRemoveDirectory_cases env (backupDir cfg env) w1 with ⟨e, he⟩ | he
      · rw [he]
        simp only []
        left
        have h1 : w1.next.fs = s.w.fs := (fs_of_stat hstat : w1.fs = s.w.fs)
        split_ifs <;> exact h1
      · rw [he]
        simp only []
        right
        show del w1.fs _ = _
        rw [fs_of_stat hstat]
  · exact Or.inl rfl

theorem cleanup_listed (cfg : Config) (env : Env) (localFiles : Inventory) (X : List Path)
    (s : State) (h : OnlyListed cfg localFiles X s.w.fs) :
    OnlyListed cfg localFiles X (cleanup cfg env s).w.fs := by
  rcases cleanup_fs cfg env s with h1 | h1
  · rw [h1]; exact h
  · rw [h1]
    intro e he
    exact h e (mem_del he).1


/-! ## A run over settled files -/

theorem SameContent_refl (fs : RemoteFS) : SameContent fs fs := fun _ => rfl

theorem SameContent_trans {a b c : RemoteFS} (h1 : SameContent a b) (h2 : SameContent b c) :
    SameContent a c := fun p => (h2 p).trans (h1 p)

theorem sameContent_of_eq {fs fs1 : RemoteFS} (h : fs1 = fs) : SameContent fs fs1 :=
  h ▸ SameContent_refl fs

theorem Settled_second {cfg : Config} {env : Env} {lfs : LocalFS} {a : Path × FileInfo}
    {fs : RemoteFS} (hs : Settled cfg env lfs a fs) {n : Node}
    (hn : get fs (cfg.TargetDir ++ a.1) = some n)
    (hdiff : ¬ (timeEqual a.2.modTime (infoOf (cfg.TargetDir ++ a.1) n).modTime = true ∧
      sizeEqual a.2 (infoOf (cfg.TargetDir ++ a.1) n) = true)) :
    ∀ f, lfs (cfg.SourceDir ++ a.1) = some f → env.md5 f.data = env.md5 n.data := by
  obtain ⟨m, hm, h | h⟩ := hs
  · rw [hn] at hm
    cases hm
    exfalso
    apply hdiff
    refine ⟨h.1, ?_⟩
    simpa [sizeEqual, infoOf] using h.2
  · rw [hn] at hm
    cases hm
    exact h

theorem keys_inj {l : Inventory} (h : (keys l).Nodup) {a b : Path × FileInfo}
    (ha : a ∈ l) (hb : b ∈ l) (hk : a.1 = b.1) : a = b :=
  List.inj_on_of_nodup_map h ha hb hk

theorem LocalStep_quiet {cfg : Config} {env : Env} {lfs : LocalFS} {localFiles : Inventory}
    {a : Path × FileInfo} {s s1 : State} (h : LocalStep cfg env lfs a.1 a.2 s s1)
    (hfault : ∀ t p, env.fault t (Op.stat p) = false) (hL : (keys localFiles).Nodup)
    (ha : a ∈ localFiles) (hset : ∀ b ∈ localFiles, Settled cfg env lfs b s.w.fs) :
    (∀ b ∈ localFiles, Settled cfg env lfs b s1.w.fs) ∧
      (∀ e ∈ newEvents s s1, e.isQuiet = true) ∧ SameContent s.w.fs s1.w.fs := by
  have hsame : ∀ {w : World} {es : List Event}, w.fs = s.w.fs →
      (∀ e ∈ es, e.isQuiet = true) →
      (∀ b ∈ localFiles, Settled cfg env lfs b (s.after w es false 1).w.fs) ∧
        (∀ e ∈ newEvents s (s.after w es false 1), e.isQuiet = true) ∧
        SameContent s.w.fs (s.after w es false 1).w.fs := by
    intro w es hw hq
    refine ⟨fun b hb => ?_, ?_, ?_⟩
    · show Settled cfg env lfs b w.fs
      rw [hw]
      exact hset b hb
    · rw [newEvents_after]
      exact hq
    · exact sameContent_of_eq hw
  have hnone : ∀ {e : Err} {w1 : World},
      sftpStat env (cfg.TargetDir ++ a.1) s.w = (.error e, w1) → False := by
    intro e w1 hstat
    have h0 := sftpStat_error hstat (hfault _ _)
    obtain ⟨n, hn, -⟩ := hset a ha
    rw [hn] at h0
    cases h0
  have hdiffer : ∀ {remoteInfo : FileInfo} {w1 w2 w3 : World} {localHash remoteHash : Digest},
      sftpStat env (cfg.TargetDir ++ a.1) s.w = (.ok remoteInfo, w1) →
      ¬ (timeEqual a.2.modTime remoteInfo.modTime = true ∧ sizeEqual a.2 remoteInfo = true) →
      calculateFileHash env lfs (cfg.SourceDir ++ a.1) w1 = (.ok localHash, w2) →
      calculateRemoteFileHash env (cfg.TargetDir ++ a.1) w2 = (.ok remoteHash, w3) →
      localHash = remoteHash := by
    intro remoteInfo w1 w2 w3 localHash remoteHash hstat hdiff hlocal hremote
    obtain ⟨n, hn, rfl⟩ := sftpStat_ok hstat
    obtain ⟨f, hf, rfl⟩ := calculateFileHash_ok hlocal
    obtain ⟨m, hm, rfl⟩ := calculateRemoteFileHash_ok hremote
    rw [fs_of_localHash hlocal, fs_of_stat hstat, hn] at hm
    cases hm
    exact Settled_second (hset a ha) hn hdiff f hf
  cases h with
  | createFailed e e2 w1 w2 hstat hcopy => exact (hnone hstat).elim
  | created e w1 w2 hstat hcopy => exact (hnone hstat).elim
  | noOp remoteInfo w1 hstat htime hsize =>
    refine hsame (fs_of_stat hstat) ?_
    intro e he
    simp only [List.mem_cons, List.mem_singleton, List.not_mem_nil, or_false] at he
    rcases he with rfl | rfl | rfl <;> rfl
  | localHashFailed remoteInfo e w1 w2 hstat hdiff hlocal =>
    refine hsame ((fs_of_localHash hlocal).trans (fs_of_stat hstat)) ?_
    intro e he
    simp only [List.mem_cons, List.mem_singleton, List.not_mem_nil, or_false] at he
    rcases he with rfl | rfl | rfl | rfl <;> rfl
  | remoteHashFailed remoteInfo localHash e w1 w2 w3 hstat hdiff hlocal hremote =>
    refine hsame ((fs_of_remoteHash hremote).trans
      ((fs_of_localHash hlocal).trans (fs_of_stat hstat))) ?_
    intro e he
    simp only [List.mem_cons, List.mem_singleton, List.not_mem_nil, or_false] at he
    rcases he with rfl | rfl | rfl | rfl | rfl <;> rfl
  | retouchFailed remoteInfo hash e w1 w2 w3 w4 hstat hdiff hlocal hremote htouch =>
    refine hsame ((sftpChtimes_error htouch).trans ((fs_of_remoteHash hremote).trans
      ((fs_of_localHash hlocal).trans (fs_of_stat hstat)))) ?_
    intro e he
    simp only [List.mem_cons, List.mem_singleton, List.not_mem_nil, or_false] at he
    rcases he with rfl | rfl | rfl | rfl | rfl | rfl | rfl <;> rfl
  | retouched remoteInfo hash w1 w2 w3 w4 hstat hdiff hlocal hremote htouch =>
    have h3 : w3.fs = s.w.fs := (fs_of_remoteHash hremote).trans
      ((fs_of_localHash hlocal).trans (fs_of_stat hstat))
    obtain ⟨n, hn, hfs⟩ := sftpChtimes_ok htouch
    rw [h3] at hn hfs
    obtain ⟨n0, hn0, hinfo⟩ := sftpStat_ok hstat
    rw [hn] at hn0
    cases hn0
    subst hinfo
    have h2nd := Settled_second (hset a ha) hn hdiff
    refine ⟨fun b hb => ?_, ?_, ?_⟩
    · show Settled cfg env lfs b w4.fs
      by_cases hk : b.1 = a.1
      · have hba : b = a := keys_inj hL hb ha hk
        subst hba
        exact ⟨{ n with atime := sftpTime (env.clock w3.tick), mtime := sftpTime b.2.modTime },
          by rw [hfs, get_put, if_pos rfl], Or.inr h2nd⟩
      · obtain ⟨m, hm, hrest⟩ := hset b hb
        refine ⟨m, ?_, hrest⟩
        rw [hfs, get_put, if_neg, hm]
        intro h
        exact hk (List.append_cancel_left h)
    · rw [newEvents_after]
      intro e he
      simp only [List.mem_cons, List.mem_singleton, List.not_mem_nil, or_false] at he
      rcases he with rfl | rfl | rfl | rfl | rfl | rfl <;> rfl
    · intro p
      show (get w4.fs p).map Node.content = _
      rw [hfs, get_put]
      split_ifs with hp
      · rw [hp, hn]
        rfl
      · rfl
  | backupFailed remoteInfo localHash remoteHash e w1 w2 w3 w4 hstat hdiff hlocal hremote hne
      hbackup =>
    exact absurd (hdiffer hstat hdiff hlocal hremote) hne
  | updateFailed remoteInfo localHash remoteHash e w1 w2 w3 w4 w5 hstat hdiff hlocal hremote hne
      hbackup hcopy =>
    exact absurd (hdiffer hstat hdiff hlocal hremote) hne
  | updated remoteInfo localHash remoteHash w1 w2 w3 w4 w5 hstat hdiff hlocal hremote hne
      hbackup hcopy =>
    exact absurd (hdiffer hstat hdiff hlocal hremote) hne

theorem localPass_quiet (cfg : Config) (env : Env) (lfs : LocalFS) (localFiles : Inventory)
    (hfault : ∀ t p, env.fault t (Op.stat p) = false) (hL : (keys localFiles).Nodup) :
    ∀ (l : Inventory) (s : State), (∀ a ∈ l, a ∈ localFiles) →
      (∀ b ∈ localFiles, Settled cfg env lfs b s.w.fs) →
      (∀ b ∈ localFiles, Settled cfg env lfs b (localPass cfg env lfs l s).w.fs) ∧
        (∀ e ∈ newEvents s (localPass cfg env lfs l s), e.isQuiet = true) ∧
        SameContent s.w.fs (localPass cfg env lfs l s).w.fs := by
  intro l
  induction l with
  | nil =>
    intro s _ hset
    refine ⟨hset, ?_, SameContent_refl _⟩
    show ∀ e ∈ newEvents s s, _
    rw [newEvents_self]
    intro e he
    cases he
  | cons a rest ih =>
    intro s hsub hset
    rw [localPass_cons]
    obtain ⟨h1, h2, h3⟩ := LocalStep_quiet (processLocal_step cfg env lfs a.1 a.2 s) hfault hL
      (hsub a (List.mem_cons_self _ _)) hset
    obtain ⟨h4, h5, h6⟩ := ih (processLocal cfg env lfs a.1 a.2 s)
      (fun b hb => hsub b (List.mem_cons_of_mem _ hb)) h1
    refine ⟨h4, ?_, SameContent_trans h3 h6⟩
    rw [newEvents_trans (processLocal_extends cfg env lfs a.1 a.2 s)
      (localPass_extends cfg env lfs rest _)]
    intro e he
    rcases List.mem_append.1 he with he | he
    · exact h2 e he
    · exact h5 e he

theorem deletePass_skip (cfg : Config) (env : Env) (localFiles : Inventory) :
    ∀ (l : Inventory) (s : State), (∀ k ∈ keys l, k ∈ keys localFiles) →
      deletePass cfg env localFiles l s = s := by
  intro l
  induction l with
  | nil => intro s _; rfl
  | cons a rest ih =>
    intro s hk
    rw [deletePass_cons]
    have : processRemote cfg env localFiles a.1 s = s := by
      have hkey : hasKey localFiles a.1 = true :=
        (hasKey_iff _ _).2 (hk a.1 (List.mem_map.2 ⟨a, List.mem_cons_self _ _, rfl⟩))
      simp [processRemote, hkey]
    rw [this]
    exact ih s (fun k hk1 => hk k (by
      unfold keys at hk1 ⊢
      rw [List.map_cons]
      exact List.mem_cons_of_mem _ hk1))

theorem cleanup_quiet (cfg : Config) (env : Env) (s : State) :
    ∀ e ∈ newEvents s (cleanup cfg env s), e.isQuiet = true := by
  haveI : Nonempty RemoteFS := ⟨[]⟩
  unfold cleanup
  repeat' split
  all_goals
    first
      | (rw [newEvents_self]; simp; done)
      | (simp only [State.step, newEvents, List.drop_left]
         intro e he
         simp only [List.mem_cons, List.mem_singleton, List.not_mem_nil, or_false] at he
         rcases he with rfl | rfl | rfl <;> rfl)

theorem cleanup_content (cfg : Config) (env : Env) (s : State) (p : Path) :
    (get (cleanup cfg env s).w.fs p).map Node.content = (get s.w.fs p).map Node.content ∨
      (p = backupDir cfg env ∧ get (cleanup cfg env s).w.fs p = none) := by
  rcases cleanup_fs cfg env s with h | h
  · rw [h]
    exact Or.inl rfl
  · rw [h, get_del]
    split_ifs with hp
    · exact Or.inr ⟨hp, rfl⟩
    · exact Or.inl rfl


/-! ## Two runs in succession -/

theorem isQuiet_spec {e : Event} (h : e.isQuiet = true) :
    e.isCopy = false ∧ e.isBackup = false ∧ e.isRemove = false ∧
      (e.action = none ∨ e.action = some Action.NoOp ∨
        e.action = some Action.RetouchTimestamp) := by
  unfold Event.isQuiet at h
  simp only [Bool.and_eq_true, Bool.not_eq_true', decide_eq_true_eq] at h
  exact ⟨h.1.1.1, h.1.1.2, h.1.2, h.2⟩

theorem passes_settle (cfg : Config) (env : Env) (lfs : LocalFS)
    (localFiles remoteFiles : Inventory) (s : State)
    (hno : NoOverlap cfg env) (hL : (keys localFiles).Nodup)
    (hlisted : OnlyListed cfg localFiles (keys remoteFiles) s.w.fs)
    (hok : ∀ e ∈ (applyPasses cfg env lfs localFiles remoteFiles s).trace, e.isError = false) :
    (∀ a ∈ localFiles,
      Settled cfg env lfs a (applyPasses cfg env lfs localFiles remoteFiles s).w.fs) ∧
      OnlyListed cfg localFiles [] (applyPasses cfg env lfs localFiles remoteFiles s).w.fs := by
  unfold applyPasses at hok ⊢
  have hokD : ∀ e ∈ (deletePass cfg env localFiles remoteFiles
      (localPass cfg env lfs localFiles s)).trace, e.isError = false :=
    fun e he => hok e (mem_trace_of_extends (cleanup_extends cfg env _) he)
  have hokL : ∀ e ∈ (localPass cfg env lfs localFiles s).trace, e.isError = false :=
    fun e he => hokD e (mem_trace_of_extends (deletePass_extends cfg env _ _ _) he)
  refine ⟨fun a ha => ?_, ?_⟩
  · exact cleanup_settled cfg env lfs hno _ a
      (deletePass_settled cfg env lfs localFiles hno remoteFiles _ a ha
        (localPass_settles cfg env lfs hno localFiles s hL hokL a ha))
  · exact cleanup_listed cfg env localFiles [] _
      (deletePass_listed cfg env localFiles hno remoteFiles _ hokD
        (OnlyListed_localPass cfg env lfs hno localFiles _ s hlisted))

theorem first_run_settles (cfg : Config) (env : Env) (lfs : LocalFS) (localFiles : Inventory)
    (fs0 : RemoteFS) (hno : NoOverlap cfg env) (hL : (keys localFiles).Nodup)
    (htree : treeShaped fs0 = true)
    (hok : ∀ e ∈ (main cfg env lfs (.ok localFiles) fs0).final.trace, e.isError = false) :
    (∀ a ∈ localFiles,
      Settled cfg env lfs a (main cfg env lfs (.ok localFiles) fs0).final.w.fs) ∧
      OnlyListed cfg localFiles [] (main cfg env lfs (.ok localFiles) fs0).final.w.fs := by
  rcases hwalk : walkRemote cfg env (depthBound fs0) cfg.TargetDir [] (World.mk fs0 0) with
    ⟨r, remoteFiles, w1⟩
  have hw1 : w1.fs = fs0 := by
    have := walkRemote_fs cfg env (depthBound fs0) cfg.TargetDir [] (World.mk fs0 0)
    rw [hwalk] at this
    exact this
  cases r with
  | error err =>
    exfalso
    have hmain : (main cfg env lfs (.ok localFiles) fs0).final =
        (applyPasses cfg env lfs localFiles remoteFiles
          (initState w1 [Event.log Msg.start [], Event.log Msg.remoteWalkError []])).finish := by
      simp only [main, hwalk]
    rw [hmain] at hok
    have hmem : Event.log Msg.remoteWalkError [] ∈
        (applyPasses cfg env lfs localFiles remoteFiles
          (initState w1 [Event.log Msg.start [], Event.log Msg.remoteWalkError []])).finish.trace := by
      unfold State.finish
      refine List.mem_append_left _ ?_
      unfold applyPasses
      refine mem_trace_of_extends (cleanup_extends cfg env _)
        (mem_trace_of_extends (deletePass_extends cfg env _ _ _)
          (mem_trace_of_extends (localPass_extends cfg env lfs _ _) ?_))
      simp [initState]
    have := hok _ hmem
    simp [Event.isError, Msg.isError] at this
  | ok u =>
    have hmain : (main cfg env lfs (.ok localFiles) fs0).final =
        (applyPasses cfg env lfs localFiles remoteFiles
          (initState w1 [Event.log Msg.start []])).finish := by
      simp only [main, hwalk]
    rw [hmain] at hok ⊢
    have hok1 : ∀ e ∈ (applyPasses cfg env lfs localFiles remoteFiles
        (initState w1 [Event.log Msg.start []])).trace, e.isError = false := by
      intro e he
      refine hok e ?_
      unfold State.finish
      exact List.mem_append_left _ he
    exact passes_settle cfg env lfs localFiles remoteFiles _ hno hL
      (hw1 ▸ OnlyListed_walk cfg env localFiles fs0 htree rfl hwalk) hok1

theorem second_run_passes (cfg : Config) (env : Env) (lfs : LocalFS)
    (localFiles remoteFiles : Inventory) (s : State)
    (hfault : ∀ t p, env.fault t (Op.stat p) = false) (hL : (keys localFiles).Nodup)
    (hset : ∀ a ∈ localFiles, Settled cfg env lfs a s.w.fs)
    (hkeys : ∀ k ∈ keys remoteFiles, k ∈ keys localFiles)
    (hs : ∀ e ∈ s.trace, e.isQuiet = true) :
    (∀ e ∈ (applyPasses cfg env lfs localFiles remoteFiles s).finish.trace,
      e.isQuiet = true) ∧
    ∀ p, (get (applyPasses cfg env lfs localFiles remoteFiles s).finish.w.fs p).map
        Node.content = (get s.w.fs p).map Node.content ∨
      (p = backupDir cfg env ∧
        get (applyPasses cfg env lfs localFiles remoteFiles s).finish.w.fs p = none) := by
  obtain ⟨-, h2, h3⟩ := localPass_quiet cfg env lfs localFiles hfault hL localFiles s
    (fun _ h => h) hset
  unfold applyPasses
  rw [deletePass_skip cfg env localFiles remoteFiles _ hkeys]
  refine ⟨?_, fun p => ?_⟩
  · intro e he
    unfold State.finish at he
    rcases List.mem_append.1 he with he | he
    · rw [Extends_trace (cleanup_extends cfg env _)] at he
      rcases List.mem_append.1 he with he | he
      · rw [Extends_trace (localPass_extends cfg env lfs localFiles s)] at he
        rcases List.mem_append.1 he with he | he
        · exact hs e he
        · exact h2 e he
      · exact cleanup_quiet cfg env _ e he
    · rw [List.mem_singleton] at he
      subst he
      rfl
  · show (get (cleanup cfg env _).w.fs p).map Node.content = _ ∨
      (_ ∧ get (cleanup cfg env _).w.fs p = none)
    rcases cleanup_content cfg env (localPass cfg env lfs localFiles s) p with h | h
    · exact Or.inl (h.trans (h3 p))
    · exact Or.inr h


theorem run_over_settled (cfg : Config) (env : Env) (lfs : LocalFS) (localFiles : Inventory)
    (fs1 : RemoteFS) (hfault : ∀ t p, env.fault t (Op.stat p) = false)
    (hL : (keys localFiles).Nodup)
    (hset : ∀ a ∈ localFiles, Settled cfg env lfs a fs1)
    (hlisted : OnlyListed cfg localFiles [] fs1) :
    (∀ e ∈ (main cfg env lfs (.ok localFiles) fs1).final.trace, e.isQuiet = true) ∧
    ∀ p, (get (main cfg env lfs (.ok localFiles) fs1).final.w.fs p).map Node.content =
        (get fs1 p).map Node.content ∨
      (p = backupDir cfg env ∧ get (main cfg env lfs (.ok localFiles) fs1).final.w.fs p = none) := by
  rcases hwalk : walkRemote cfg env (depthBound fs1) cfg.TargetDir [] (World.mk fs1 0) with
    ⟨r, remoteFiles, w1⟩
  have hw1 : w1.fs = fs1 := by
    have := walkRemote_fs cfg env (depthBound fs1) cfg.TargetDir [] (World.mk fs1 0)
    rw [hwalk] at this
    exact this
  have hkeys : ∀ k ∈ keys remoteFiles, k ∈ keys localFiles := by
    intro k hk
    have := walkRemote_sound cfg env fs1 (depthBound fs1) cfg.TargetDir [] (World.mk fs1 0)
      (List.prefix_refl _) rfl k
    rw [hwalk] at this
    rcases this hk with h | ⟨hne, n, hn, hnd⟩
    · cases h
    · rcases hlisted _ hn hnd k rfl hne with h | h
      · exact h
      · cases h
  have hset1 : ∀ a ∈ localFiles, Settled cfg env lfs a w1.fs := by
    rw [hw1]
    exact hset
  cases r with
  | error err =>
    have hmain : (main cfg env lfs (.ok localFiles) fs1).final =
        (applyPasses cfg env lfs localFiles remoteFiles
          (initState w1 [Event.log Msg.start [], Event.log Msg.remoteWalkError []])).finish := by
      simp only [main, hwalk]
    rw [hmain, ← hw1]
    refine second_run_passes cfg env lfs localFiles remoteFiles _ hfault hL hset1 hkeys ?_
    intro e he
    simp only [initState, List.mem_cons, List.mem_singleton, List.not_mem_nil, or_false] at he
    rcases he with rfl | rfl <;> rfl
  | ok u =>
    have hmain : (main cfg env lfs (.ok localFiles) fs1).final =
        (applyPasses cfg env lfs localFiles remoteFiles
          (initState w1 [Event.log Msg.start []])).finish := by
      simp only [main, hwalk]
    rw [hmain, ← hw1]
    refine second_run_passes cfg env lfs localFiles remoteFiles _ hfault hL hset1 hkeys ?_
    intro e he
    simp only [initState, List.mem_cons, List.mem_singleton, List.not_mem_nil, or_false] at he
    subst he
    rfl

/-- C6, as amended: when a first run logged no error (the remote walk, every
copy, fingerprint, backup, removal and `Chtimes` succeeded) over a remote tree
whose backup and target directories do not lie inside one another, and a
second run follows over the same local inventory and the remote tree as the
first run left it, with the same digest function and no `Stat` refused, then
the second run issues no `copyFile`, no `createBackup` and no `Remove`; every
action it announces is NoOp or RetouchTimestamp (which issues `Chtimes`); and
every remote node keeps its kind, content and permission bits, no node
appears, and none disappears except the second run's own backup directory when
the cleanup removes it: no file is written under the backup directory. -/
theorem second_run_quiet (cfg : Config) (env1 env2 : Env) (lfs : LocalFS)
    (localFiles : Inventory) (fs0 : RemoteFS)
    (hno : NoOverlap cfg env1) (hL : (keys localFiles).Nodup)
    (htree : treeShaped fs0 = true) (hmd5 : env2.md5 = env1.md5)
    (hstat : ∀ t p, env2.fault t (Op.stat p) = false)
    (hok : ∀ e ∈ (main cfg env1 lfs (.ok localFiles) fs0).final.trace, e.isError = false) :
    (∀ e ∈ (secondRun cfg env1 env2 lfs localFiles fs0).final.trace,
      e.isCopy = false ∧ e.isBackup = false ∧ e.isRemove = false ∧
        (e.action = none ∨ e.action = some Action.NoOp ∨
          e.action = some Action.RetouchTimestamp)) ∧
    ∀ p, (get (secondRun cfg env1 env2 lfs localFiles fs0).final.w.fs p).map Node.content =
        (get (main cfg env1 lfs (.ok localFiles) fs0).final.w.fs p).map Node.content ∨
      (p = backupDir cfg env2 ∧
        get (secondRun cfg env1 env2 lfs localFiles fs0).final.w.fs p = none) := by
  obtain ⟨hset, hlisted⟩ := first_run_settles cfg env1 lfs localFiles fs0 hno hL htree hok
  obtain ⟨h1, h2⟩ := run_over_settled cfg env2 lfs localFiles _ hstat hL
    (fun a ha => Settled_md5 hmd5 (hset a ha)) hlisted
  exact ⟨fun e he => isQuiet_spec (h1 e he), h2⟩

set_option maxRecDepth 100000 in
/-- C6 as stated fails: over `home/a.txt` and a target holding only `b.txt`,
the first run logs no error (it copies `a.txt`, backs up and removes
`b.txt`); the second run, 100 s later over the trees as the first run left
them, does not take the no-action branch for `a.txt`: the copy left the remote
modification time at the time of the copy, so the second run fingerprints the
file and issues `Chtimes`. -/
theorem second_run_issues_chtimes :
    (∀ e ∈ (main cfg0 env0 lfsA (.ok invA) fsB).final.trace, e.isError = false) ∧
    Event.chtimes ["srv", "a.txt"] (200 * second + 6) 5 true ∈
      (secondRun cfg0 env0 envLater lfsA invA fsB).final.trace ∧
    Event.log Msg.hashesMatch ["a.txt"] ∈
      (secondRun cfg0 env0 envLater lfsA invA fsB).final.trace ∧
    Event.log Msg.unchanged ["a.txt"] ∉
      (secondRun cfg0 env0 envLater lfsA invA fsB).final.trace := by
  decide

set_option maxRecDepth 100000 in
/-- The amended C6 at the two runs over `home/a.txt` and a target holding only `b.txt`. -/
theorem second_run_quiet_witness :
    (∀ e ∈ (secondRun cfg0 env0 envLater lfsA invA fsB).final.trace,
      e.isCopy = false ∧ e.isBackup = false ∧ e.isRemove = false ∧
        (e.action = none ∨ e.action = some Action.NoOp ∨
          e.action = some Action.RetouchTimestamp)) ∧
    ∀ p, (get (secondRun cfg0 env0 envLater lfsA invA fsB).final.w.fs p).map Node.content =
        (get (main cfg0 env0 lfsA (.ok invA) fsB).final.w.fs p).map Node.content ∨
      (p = backupDir cfg0 envLater ∧
        get (secondRun cfg0 env0 envLater lfsA invA fsB).final.w.fs p = none) :=
  second_run_quiet cfg0 env0 envLater lfsA invA fsB ⟨by decide, by decide⟩ (by decide)
    (by decide) rfl (fun _ _ => rfl) (by decide)


/-! ## Backup before mutation, in a run -/

/-- C1, as amended: in every run, each destructive call (the overwrite of the
Update branch, the removal of the Delete pass) comes right after the
successful `createBackup` of the same path, and the remote filesystem at the
moment the call is issued (`before`) holds, at `backupDir` joined with the
relative path, a regular file with the bytes and permission bits the remote
file has at that moment.  When the backup path is not the remote path itself,
the remote file is still what it was when the backup began (`before0`), so
the backup holds the bytes and permission bits of the file as it was before
`createBackup` and the mutation touched it.  The two paths differ whenever
the backup directory and the target directory do not lie inside one another. -/
theorem backup_before_mutation (cfg : Config) (env : Env) (lfs : LocalFS)
    (localWalk : Except Err Inventory) (fs0 : RemoteFS)
    (pre post : List Event) (e : Event) (rp : Path) (before : RemoteFS)
    (htrace : (main cfg env lfs localWalk fs0).final.trace = pre ++ e :: post)
    (hdestroys : e.destroys rp before) :
    ∃ relPath before0 pre0,
      pre = pre0 ++ [Event.createBackup rp (backupDir cfg env ++ relPath) before0 true] ∧
      rp = cfg.TargetDir ++ relPath ∧
      BackedUp before rp (backupDir cfg env ++ relPath) ∧
      (rp ≠ backupDir cfg env ++ relPath →
        get before rp = get before0 rp ∧
        (fileAt before0 rp).isSome = true ∧
        fileAt before (backupDir cfg env ++ relPath) = fileAt before0 rp) ∧
      (NoOverlap cfg env → rp ≠ backupDir cfg env ++ relPath) := by
  have hg := main_guarded cfg env lfs localWalk fs0
  rw [htrace] at hg
  obtain ⟨relPath, before0, hlast, hrp, hb, hsame⟩ :=
    GuardedFrom_split pre none e post rp before hg hdestroys
  simp only [Option.toList, List.nil_append] at hlast
  obtain ⟨pre0, hpre⟩ : ∃ pre0, pre = pre0 ++
      [Event.createBackup rp (backupDir cfg env ++ relPath) before0 true] := by
    rw [List.getLast?_eq_some_iff] at hlast
    exact hlast
  refine ⟨relPath, before0, pre0, hpre, hrp, hb, fun hne => ?_, fun hno => ?_⟩
  · have hget := hsame hne
    have hfile : fileAt before rp = fileAt before0 rp := by
      unfold fileAt
      rw [hget]
    obtain ⟨h1, h2⟩ := backedUp_fileAt hb
    exact ⟨hget, hfile ▸ h1, h2.trans hfile⟩
  · rw [hrp]
    exact target_ne_backup hno relPath relPath

set_option maxRecDepth 100000 in
/-- C1 as stated fails when the target directory is the run's backup
directory: the backup path of `b.txt` is the file itself, `createBackup`
truncates it on `Create` and copies nothing, returns without error, and
`Remove` then destroys the path.  At the moment of the removal the backup path
holds an empty file, not the bytes `[7]` the remote file had, and after the
run no node holds them. -/
theorem backup_onto_itself_loses_content :
    backupDir cfgAlias env0 = cfgAlias.TargetDir ∧
    fileAt fsAlias (cfgAlias.TargetDir ++ ["b.txt"]) = some ([7], 0o640) ∧
    runAlias.final.trace.get? 1 =
      some (Event.createBackup (cfgAlias.TargetDir ++ ["b.txt"])
        (backupDir cfgAlias env0 ++ ["b.txt"]) fsAlias true) ∧
    runAlias.final.trace.get? 2 =
      some (Event.remove (cfgAlias.TargetDir ++ ["b.txt"]) beforeRemoveAlias true) ∧
    fileAt beforeRemoveAlias (backupDir cfgAlias env0 ++ ["b.txt"]) = some ([], 0o640) ∧
    runAlias.final.w.fs.all (fun x => decide (x.2.data ≠ [7])) = true := by
  decide

set_option maxRecDepth 100000 in
/-- The amended C1 at the removal of `srv/b.txt` in the run over `lfsA` and `fsB`. -/
theorem backup_before_mutation_witness :
    runAB.final.trace = runAB.final.trace.take 6 ++
      Event.remove ["srv", "b.txt"] beforeRemoveAB true :: runAB.final.trace.drop 7 ∧
    (Event.remove ["srv", "b.txt"] beforeRemoveAB true).destroys ["srv", "b.txt"]
      beforeRemoveAB ∧
    NoOverlap cfg0 env0 ∧
    fileAt fsB ["srv", "b.txt"] = some ([7], 0o640) ∧
    fileAt beforeRemoveAB ["bak", "20240101_000000", "b.txt"] = some ([7], 0o640) ∧
    ∃ relPath before0 pre0,
      runAB.final.trace.take 6 = pre0 ++
        [Event.createBackup ["srv", "b.txt"] (backupDir cfg0 env0 ++ relPath) before0 true] ∧
      ["srv", "b.txt"] = cfg0.TargetDir ++ relPath ∧
      BackedUp beforeRemoveAB ["srv", "b.txt"] (backupDir cfg0 env0 ++ relPath) ∧
      (["srv", "b.txt"] ≠ backupDir cfg0 env0 ++ relPath →
        get beforeRemoveAB ["srv", "b.txt"] = get before0 ["srv", "b.txt"] ∧
        (fileAt before0 ["srv", "b.txt"]).isSome = true ∧
        fileAt beforeRemoveAB (backupDir cfg0 env0 ++ relPath) =
          fileAt before0 ["srv", "b.txt"]) ∧
      (NoOverlap cfg0 env0 → ["srv", "b.txt"] ≠ backupDir cfg0 env0 ++ relPath) :=
  ⟨by decide, Or.inr ⟨true, rfl⟩, ⟨by decide, by decide⟩, by decide, by decide,
    backup_before_mutation cfg0 env0 lfsA (.ok invA) fsB (runAB.final.trace.take 6)
      (runAB.final.trace.drop 7) _ _ _ (by decide) (Or.inr ⟨true, rfl⟩)⟩

/-! ## The per-path decision, case by case -/

theorem LocalStep_actions {cfg : Config} {env : Env} {lfs : LocalFS} {relPath : Path}
    {localInfo : FileInfo} {s s1 : State} (h : LocalStep cfg env lfs relPath localInfo s s1) :
    (actionsOf (newEvents s s1)).length ≤ 1 := by
  cases h <;> rw [newEvents_after] <;> simp [actionsOf, Event.action, Msg.action]

/-- C2, as amended: the decision of the local pass for one path, by the
results of the calls it makes.  When `Stat` fails the path is created: one
`copyFile`, no backup, no fingerprint.  Otherwise, when `timeEqual` and
`sizeEqual` both hold, nothing is done and no fingerprint is computed.
Otherwise the local fingerprint is computed, then the remote one; when either
cannot be obtained the error is logged and no action is chosen.  When both
are obtained, equal fingerprints give `RetouchTimestamp` (one `Chtimes`, no
copy, no backup) and different ones give `Update`: `createBackup` first, then,
when it returned without error, the overwrite by `copyFile` on the
filesystem the backup left, and no copy when it failed.  In the four cases
exactly one action is chosen; in every case at most one. -/
theorem processLocal_decision (cfg : Config) (env : Env) (lfs : LocalFS) (relPath : Path)
    (localInfo : FileInfo) (s : State) :
    (∀ e w1, sftpStat env (cfg.TargetDir ++ relPath) s.w = (.error e, w1) →
      ∀ r w2, copyFile env lfs (cfg.SourceDir ++ relPath) (cfg.TargetDir ++ relPath) w1 =
          (r, w2) →
        processLocal cfg env lfs relPath localInfo s =
          s.after w2 ([Event.stat (cfg.TargetDir ++ relPath) false,
              Event.log Msg.copyNew relPath,
              Event.copyFile Site.newFile (cfg.SourceDir ++ relPath) (cfg.TargetDir ++ relPath)
                w1.fs (isOk r)] ++
            (if isOk r then [] else [Event.log Msg.copyNewError relPath]) ++
            [Event.barAdd]) false 1 ∧
        actionsOf (newEvents s (processLocal cfg env lfs relPath localInfo s)) =
          [Action.Create]) ∧
    (∀ remoteInfo w1, sftpStat env (cfg.TargetDir ++ relPath) s.w = (.ok remoteInfo, w1) →
      (timeEqual localInfo.modTime remoteInfo.modTime = true ∧
          sizeEqual localInfo remoteInfo = true →
        processLocal cfg env lfs relPath localInfo s =
          s.after w1 [Event.stat (cfg.TargetDir ++ relPath) true,
            Event.log Msg.unchanged relPath, Event.barAdd] false 1 ∧
        actionsOf (newEvents s (processLocal cfg env lfs relPath localInfo s)) =
          [Action.NoOp]) ∧
      (¬ (timeEqual localInfo.modTime remoteInfo.modTime = true ∧
          sizeEqual localInfo remoteInfo = true) →
        (∀ e w2, calculateFileHash env lfs (cfg.SourceDir ++ relPath) w1 = (.error e, w2) →
          processLocal cfg env lfs relPath localInfo s =
            s.after w2 [Event.stat (cfg.TargetDir ++ relPath) true,
              Event.hashLocal (cfg.SourceDir ++ relPath) false,
              Event.log Msg.localHashError relPath, Event.barAdd] false 1 ∧
          actionsOf (newEvents s (processLocal cfg env lfs relPath localInfo s)) = []) ∧
        (∀ localHash w2,
          calculateFileHash env lfs (cfg.SourceDir ++ relPath) w1 = (.ok localHash, w2) →
          (∀ e w3, calculateRemoteFileHash env (cfg.TargetDir ++ relPath) w2 = (.error e, w3) →
            processLocal cfg env lfs relPath localInfo s =
              s.after w3 [Event.stat (cfg.TargetDir ++ relPath) true,
                Event.hashLocal (cfg.SourceDir ++ relPath) true,
                Event.hashRemote (cfg.TargetDir ++ relPath) false,
                Event.log Msg.remoteHashError relPath, Event.barAdd] false 1 ∧
            actionsOf (newEvents s (processLocal cfg env lfs relPath localInfo s)) = []) ∧
          (∀ remoteHash w3,
            calculateRemoteFileHash env (cfg.TargetDir ++ relPath) w2 = (.ok remoteHash, w3) →
            (localHash = remoteHash →
              ∀ r w4, sftpChtimes env (cfg.TargetDir ++ relPath) (env.clock w3.tick)
                  localInfo.modTime w3 = (r, w4) →
                processLocal cfg env lfs relPath localInfo s =
                  s.after w4 ([Event.stat (cfg.TargetDir ++ relPath) true,
                      Event.hashLocal (cfg.SourceDir ++ relPath) true,
                      Event.hashRemote (cfg.TargetDir ++ relPath) true,
                      Event.log Msg.hashesMatch relPath,
                      Event.chtimes (cfg.TargetDir ++ relPath) (env.clock w3.tick)
                        localInfo.modTime (isOk r)] ++
                    (if isOk r then [] else [Event.log Msg.chtimesError relPath]) ++
                    [Event.barAdd]) false 1 ∧
                actionsOf (newEvents s (processLocal cfg env lfs relPath localInfo s)) =
                  [Action.RetouchTimestamp]) ∧
            (localHash ≠ remoteHash →
              ∀ rb w4, createBackup env (cfg.TargetDir ++ relPath)
                  (backupDir cfg env ++ relPath) w3 = (rb, w4) →
                actionsOf (newEvents s (processLocal cfg env lfs relPath localInfo s)) =
                  [Action.Update] ∧
                (isOk rb = false →
                  processLocal cfg env lfs relPath localInfo s =
                    s.after w4 [Event.stat (cfg.TargetDir ++ relPath) true,
                      Event.hashLocal (cfg.SourceDir ++ relPath) true,
                      Event.hashRemote (cfg.TargetDir ++ relPath) true,
                      Event.log Msg.changed relPath,
                      Event.createBackup (cfg.TargetDir ++ relPath)
                        (backupDir cfg env ++ relPath) w3.fs false,
                      Event.log Msg.backupError relPath, Event.barAdd] false 1) ∧
                (isOk rb = true →
                  ∀ rc w5, copyFile env lfs (cfg.SourceDir ++ relPath)
                      (cfg.TargetDir ++ relPath) w4 = (rc, w5) →
                    processLocal cfg env lfs relPath localInfo s =
                      s.after w5 ([Event.stat (cfg.TargetDir ++ relPath) true,
                          Event.hashLocal (cfg.SourceDir ++ relPath) true,
                          Event.hashRemote (cfg.TargetDir ++ relPath) true,
                          Event.log Msg.changed relPath,
                          Event.createBackup (cfg.TargetDir ++ relPath)
                            (backupDir cfg env ++ relPath) w3.fs true,
                          Event.copyFile Site.update (cfg.SourceDir ++ relPath)
                            (cfg.TargetDir ++ relPath) w4.fs (isOk rc)] ++
                        (if isOk rc then [Event.log Msg.updated relPath]
                          else [Event.log Msg.copyUpdateError relPath]) ++
                        [Event.barAdd]) (isOk rc) 1)))))) ∧
    (actionsOf (newEvents s (processLocal cfg env lfs relPath localInfo s))).length ≤ 1 := by
  haveI : Nonempty RemoteFS := ⟨[]⟩
  refine ⟨?_, ?_, LocalStep_actions (processLocal_step cfg env lfs relPath localInfo s)⟩
  · intro e w1 hstat r w2 hcopy
    have hproc : processLocal cfg env lfs relPath localInfo s =
        s.after w2 ([Event.stat (cfg.TargetDir ++ relPath) false,
            Event.log Msg.copyNew relPath,
            Event.copyFile Site.newFile (cfg.SourceDir ++ relPath) (cfg.TargetDir ++ relPath)
              w1.fs (isOk r)] ++
          (if isOk r then [] else [Event.log Msg.copyNewError relPath]) ++
          [Event.barAdd]) false 1 := by
      cases r <;>
        simp [processLocal, hstat, hcopy, State.after, State.step, State.barAdd, isOk]
    refine ⟨hproc, ?_⟩
    rw [hproc, newEvents_after]
    cases r <;> simp [actionsOf, Event.action, Msg.action, isOk]
  · intro remoteInfo w1 hstat
    refine ⟨?_, ?_⟩
    · rintro ⟨ht, hs⟩
      have hproc : processLocal cfg env lfs relPath localInfo s =
          s.after w1 [Event.stat (cfg.TargetDir ++ relPath) true,
            Event.log Msg.unchanged relPath, Event.barAdd] false 1 := by
        simp [processLocal, hstat, ht, hs, State.after, State.step, State.barAdd]
      refine ⟨hproc, ?_⟩
      rw [hproc, newEvents_after]
      simp [actionsOf, Event.action, Msg.action]
    · intro hdiff
      have hcond : (!timeEqual localInfo.modTime remoteInfo.modTime ||
          !sizeEqual localInfo remoteInfo) = true := by
        cases ht : timeEqual localInfo.modTime remoteInfo.modTime <;>
          cases hs : sizeEqual localInfo remoteInfo <;> simp_all
      refine ⟨?_, ?_⟩
      · intro e w2 hlocal
        have hproc : processLocal cfg env lfs relPath localInfo s =
            s.after w2 [Event.stat (cfg.TargetDir ++ relPath) true,
              Event.hashLocal (cfg.SourceDir ++ relPath) false,
              Event.log Msg.localHashError relPath, Event.barAdd] false 1 := by
          simp [processLocal, hstat, hcond, hlocal, State.after, State.step, State.barAdd]
        refine ⟨hproc, ?_⟩
        rw [hproc, newEvents_after]
        simp [actionsOf, Event.action, Msg.action]
      · intro localHash w2 hlocal
        refine ⟨?_, ?_⟩
        · intro e w3 hremote
          have hproc : processLocal cfg env lfs relPath localInfo s =
              s.after w3 [Event.stat (cfg.TargetDir ++ relPath) true,
                Event.hashLocal (cfg.SourceDir ++ relPath) true,
                Event.hashRemote (cfg.TargetDir ++ relPath) false,
                Event.log Msg.remoteHashError relPath, Event.barAdd] false 1 := by
            simp [processLocal, hstat, hcond, hlocal, hremote, State.after, State.step,
              State.barAdd]
          refine ⟨hproc, ?_⟩
          rw [hproc, newEvents_after]
          simp [actionsOf, Event.action, Msg.action]
        · intro remoteHash w3 hremote
          refine ⟨?_, ?_⟩
          · intro heq r w4 htouch
            subst heq
            have hproc : processLocal cfg env lfs relPath localInfo s =
                s.after w4 ([Event.stat (cfg.TargetDir ++ relPath) true,
                    Event.hashLocal (cfg.SourceDir ++ relPath) true,
                    Event.hashRemote (cfg.TargetDir ++ relPath) true,
                    Event.log Msg.hashesMatch relPath,
                    Event.chtimes (cfg.TargetDir ++ relPath) (env.clock w3.tick)
                      localInfo.modTime (isOk r)] ++
                  (if isOk r then [] else [Event.log Msg.chtimesError relPath]) ++
                  [Event.barAdd]) false 1 := by
              cases r <;>
                simp [processLocal, hstat, hcond, hlocal, hremote, htouch, State.after,
                  State.step, State.barAdd, isOk]
            refine ⟨hproc, ?_⟩
            rw [hproc, newEvents_after]
            cases r <;> simp [actionsOf, Event.action, Msg.action, isOk]
          · intro hne rb w4 hbackup
            cases rb with
            | error eb =>
              have hproc : processLocal cfg env lfs relPath localInfo s =
                  s.after w4 [Event.stat (cfg.TargetDir ++ relPath) true,
                    Event.hashLocal (cfg.SourceDir ++ relPath) true,
                    Event.hashRemote (cfg.TargetDir ++ relPath) true,
                    Event.log Msg.changed relPath,
                    Event.createBackup (cfg.TargetDir ++ relPath)
                      (backupDir cfg env ++ relPath) w3.fs false,
                    Event.log Msg.backupError relPath, Event.barAdd] false 1 := by
                simp [processLocal, hstat, hcond, hlocal, hremote, hne, hbackup, State.after,
                  State.step, State.barAdd]
              refine ⟨?_, fun _ => hproc, fun h => ?_⟩
              · rw [hproc, newEvents_after]
                simp [actionsOf, Event.action, Msg.action]
              · simp [isOk] at h
            | ok ub =>
              obtain ⟨rc, w5, hcopy⟩ : ∃ rc w5, copyFile env lfs (cfg.SourceDir ++ relPath)
                  (cfg.TargetDir ++ relPath) w4 = (rc, w5) := ⟨_, _, rfl⟩
              have hproc : processLocal cfg env lfs relPath localInfo s =
                  s.after w5 ([Event.stat (cfg.TargetDir ++ relPath) true,
                      Event.hashLocal (cfg.SourceDir ++ relPath) true,
                      Event.hashRemote (cfg.TargetDir ++ relPath) true,
                      Event.log Msg.changed relPath,
                      Event.createBackup (cfg.TargetDir ++ relPath)
                        (backupDir cfg env ++ relPath) w3.fs true,
                      Event.copyFile Site.update (cfg.SourceDir ++ relPath)
                        (cfg.TargetDir ++ relPath) w4.fs (isOk rc)] ++
                    (if isOk rc then [Event.log Msg.updated relPath]
                      else [Event.log Msg.copyUpdateError relPath]) ++
                    [Event.barAdd]) (isOk rc) 1 := by
                cases rc <;>
                  simp [processLocal, hstat, hcond, hlocal, hremote, hne, hbackup, hcopy,
                    State.after, State.step, State.barAdd, State.setBackupCreated, isOk]
              refine ⟨?_, fun h => ?_, fun _ rc1 w51 hcopy1 => ?_⟩
              · rw [hproc, newEvents_after]
                cases rc <;> simp [actionsOf, Event.action, Msg.action, isOk]
              · simp [isOk] at h
              · rw [hcopy] at hcopy1
                simp only [Prod.mk.injEq] at hcopy1
                obtain ⟨rfl, rfl⟩ := hcopy1
                exact hproc

set_option maxRecDepth 100000 in
/-- C2 as stated fails: `srv/b.txt` is there, 5 s newer than the local entry,
and opening the local file `home/b.txt` is refused.  The path is neither
created, nor left as unchanged, nor retouched, nor updated: the error is
logged and no action is chosen. -/
theorem unreadable_file_gets_no_action :
    newEvents stC (processLocal cfg0 envNoOpen lfsC ["b.txt"] infoC stC) =
      [Event.stat ["srv", "b.txt"] true, Event.hashLocal ["home", "b.txt"] false,
        Event.log Msg.localHashError ["b.txt"], Event.barAdd] ∧
    actionsOf (newEvents stC (processLocal cfg0 envNoOpen lfsC ["b.txt"] infoC stC)) = [] ∧
    (processLocal cfg0 envNoOpen lfsC ["b.txt"] infoC stC).w.fs = fsC := by
  decide

set_option maxRecDepth 100000 in
/-- The amended C2 at its Update case: `home/b.txt` holds `[9]`, `srv/b.txt`
holds `[7]` and is 5 s newer; the fingerprints differ, the backup is made and
the file overwritten. -/
theorem processLocal_decision_witness :
    actionsOf (newEvents stU (processLocal cfg0 env0 lfsC ["b.txt"] infoC stU)) =
      [Action.Update] ∧
    fileAt (processLocal cfg0 env0 lfsC ["b.txt"] infoC stU).w.fs ["srv", "b.txt"] =
      some ([9], 0o600) ∧
    fileAt (processLocal cfg0 env0 lfsC ["b.txt"] infoC stU).w.fs
      ["bak", "20240101_000000", "b.txt"] = some ([7], 0o640) :=
  ⟨((((((processLocal_decision cfg0 env0 lfsC ["b.txt"] infoC stU).2.1
      (infoOf ["srv", "b.txt"] (mkFile [7] 0o640 (5 * second))) (World.mk fsU 1)
        (by rfl)).2 (by decide)).2 [9] (World.mk fsU 3) (by rfl)).2 [7] (World.mk fsU 5)
          (by rfl)).2 (by decide)
      (createBackup env0 ["srv", "b.txt"] ["bak", "20240101_000000", "b.txt"]
        (World.mk fsU 5)).1
      (createBackup env0 ["srv", "b.txt"] ["bak", "20240101_000000", "b.txt"]
        (World.mk fsU 5)).2 rfl).1,
    by decide, by decide⟩

end RemoteBackupSync
